import Mathlib

/-!
Verification of the Murdoku constraint-propagation solver and hint engine.

This file gives a shallow embedding of the game's board precomputation
(`boardUtils.js`), the reference data (`gameData.js`), the constraint
catalogue (`constraints.js`), the solver (`solver.js`) and the hint engine
(`hintEngine.js`), and proves properties of the embedded definitions.

Modelling conventions, used throughout:
  * JavaScript `Map`s keyed by suspect id are modelled as total functions
    `String → α` together with the fixed iteration list `suspectIds`; the
    source only ever reads and iterates these maps at the puzzle's suspect
    ids (plus ids appearing in `placements`, which the theorems below
    restrict to puzzle suspects, matching every caller in the repository).
  * JavaScript `Set`s of cell keys are modelled as duplicate-free `List
    String` in insertion order; `Set.add` is `addUnique`, `Set.delete` is
    `List.filter`, and `[...set][0]` is `List.headD`.
  * Cell keys are the strings `"row-col"` produced by `createCellKey`,
    parsed by `parseKey`.  `parseInt` is modelled by `String.toNat?` with
    default `0`; the two agree on every key the engine constructs.
  * A technique returning `none` leaves the solver state unchanged in the
    source (each technique mutates only together with a recorded step, and
    hypothetical tests restore their snapshot), so techniques are embedded
    as `SolverState → Option (SolveStep × SolverState)`.
-/

namespace Murdoku

/-- `constants.js` `createCellKey`: the canonical `"row-col"` key. -/
def createCellKey (row col : Nat) : String :=
  toString row ++ "-" ++ toString col

/-- `key.split("-")` on the character list (structural, so that concrete
solver runs reduce inside the kernel). -/
def splitDash : List Char → List (List Char)
  | [] => [[]]
  | c :: rest =>
    let r := splitDash rest
    if c = '-' then [] :: r
    else
      match r with
      | [] => [[c]]
      | h :: t => (c :: h) :: t

/-- `parseInt(s, 10)`: value of the leading decimal-digit run, with `0`
standing in for JS `NaN` (the engine only ever parses well-formed keys,
where the two agree). -/
def parseIntD (cs : List Char) : Nat :=
  (cs.takeWhile (fun c => c.isDigit)).foldl
    (fun n c => n * 10 + (c.toNat - 48)) 0

/-- `boardUtils.js` `parseKey`: split on `"-"` and parse both parts. -/
def parseKey (key : String) : Nat × Nat :=
  let parts := splitDash key.toList
  (parseIntD (parts.getD 0 []), parseIntD (parts.getD 1 []))

/-- Row of a cell key. -/
def keyRow (key : String) : Nat := (parseKey key).1

/-- Column of a cell key. -/
def keyCol (key : String) : Nat := (parseKey key).2

/-- JS `Map.prototype.get`: first binding of the key, if any. -/
def alGet {κ α : Type} [DecidableEq κ] (m : List (κ × α)) (k : κ) : Option α :=
  (m.find? (fun p => p.1 = k)).map (·.2)

/-- JS `Map.prototype.get` with a default (`map.get(k) || dflt` pattern). -/
def alGetD {κ α : Type} [DecidableEq κ] (m : List (κ × α)) (k : κ) (dflt : α) : α :=
  (alGet m k).getD dflt

/-- JS `Map.prototype.set`: update in place if present, else append. -/
def mapSet {κ α : Type} [DecidableEq κ] (m : List (κ × α)) (k : κ) (v : α) :
    List (κ × α) :=
  if m.any (fun p => p.1 = k) then
    m.map (fun p => if p.1 = k then (k, v) else p)
  else m ++ [(k, v)]

/-- JS `Set.prototype.add`: append unless already present. -/
def addUnique (l : List String) (k : String) : List String :=
  if l.contains k then l else l ++ [k]

/-! ## Reference data (`src/data/gameData.js`) -/

/-- `gameData.js` `occupiableTypes`: the cell types a suspect may stand on. -/
def occupiableTypes : List String :=
  ["empty", "carpet", "chair", "pondWater"]

/-! ## Board precomputation (`src/engine/boardUtils.js`) -/

/-- One cell of `boardLayout`. -/
structure Cell where
  room : String
  type : String
deriving DecidableEq, Repr

/-- A `cellInfo` entry: position, room and type of one cell. -/
structure CellInfo where
  row : Nat
  col : Nat
  room : String
  type : String
deriving DecidableEq, Repr

/-- The precomputed board index returned by `precomputeBoard`. -/
structure Board where
  rows : Nat
  cols : Nat
  occupiableCells : List String
  cellInfo : List (String × CellInfo)
  roomCells : List (String × List String)
  typeCells : List (String × List String)
  adjacentSameRoom : List (String × List String)
  rowCells : List (Nat × List String)
  colCells : List (Nat × List String)
deriving Repr

/-- The four orthogonal direction offsets (`DIRECTIONS`). -/
def directions : List (Int × Int) := [(-1, 0), (1, 0), (0, -1), (0, 1)]

/-- Cells of one row of the layout, paired with their column index. -/
def rowIndexed (r : Nat) : Nat → List Cell → List (Nat × Nat × Cell)
  | _, [] => []
  | c, cell :: rest => (r, c, cell) :: rowIndexed r (c + 1) rest

/-- All cells of the layout with their row/column indices, row-major. -/
def indexedCells : Nat → List (List Cell) → List (Nat × Nat × Cell)
  | _, [] => []
  | r, row :: rest => rowIndexed r 0 row ++ indexedCells (r + 1) rest

/-- First pass of `precomputeBoard`: index one cell into the accumulator. -/
def firstPassStep (acc : Board) (rcc : Nat × Nat × Cell) : Board :=
  let r := rcc.1
  let c := rcc.2.1
  let cell := rcc.2.2
  let key := createCellKey r c
  let isOccupiable := occupiableTypes.contains cell.type
  let acc := { acc with
    cellInfo := mapSet acc.cellInfo key ⟨r, c, cell.room, cell.type⟩,
    typeCells := mapSet acc.typeCells cell.type
      (addUnique (alGetD acc.typeCells cell.type []) key) }
  if isOccupiable then
    { acc with
      occupiableCells := addUnique acc.occupiableCells key,
      roomCells := mapSet acc.roomCells cell.room
        (addUnique (alGetD acc.roomCells cell.room []) key),
      rowCells := mapSet acc.rowCells r
        (addUnique (alGetD acc.rowCells r []) key),
      colCells := mapSet acc.colCells c
        (addUnique (alGetD acc.colCells c []) key) }
  else acc

/-- Second pass of `precomputeBoard`: same-room occupiable neighbours of one
occupiable cell. -/
def adjacentOf (b : Board) (key : String) : List String :=
  match alGet b.cellInfo key with
  | none => []
  | some info =>
    directions.foldl (fun adj d =>
      let nr : Int := (info.row : Int) + d.1
      let nc : Int := (info.col : Int) + d.2
      if 0 ≤ nr ∧ nr < (b.rows : Int) ∧ 0 ≤ nc ∧ nc < (b.cols : Int) then
        let nKey := createCellKey nr.toNat nc.toNat
        match alGet b.cellInfo nKey with
        | some nInfo =>
          if nInfo.room = info.room ∧ b.occupiableCells.contains nKey then
            addUnique adj nKey
          else adj
        | none => adj
      else adj) []

/-- `boardUtils.js` `precomputeBoard`. -/
def precomputeBoard (boardLayout : List (List Cell)) : Board :=
  let rows := boardLayout.length
  let cols := (boardLayout.headD []).length
  let base : Board := ⟨rows, cols, [], [], [], [], [], [], []⟩
  let b := (indexedCells 0 boardLayout).foldl firstPassStep base
  let adj := b.occupiableCells.foldl
    (fun m key => mapSet m key (adjacentOf b key)) []
  { b with adjacentSameRoom := adj }

/-- `boardUtils.js` `getCellsBesideType`: occupiable cells orthogonally
adjacent to a cell of the given type, in that cell's room. -/
def getCellsBesideType (board : Board) (cellType : String) : List String :=
  match alGet board.typeCells cellType with
  | none => []
  | some targetCells =>
    targetCells.foldl (fun result targetKey =>
      match alGet board.cellInfo targetKey with
      | none => result
      | some targetInfo =>
        directions.foldl (fun result d =>
          let nr : Int := (targetInfo.row : Int) + d.1
          let nc : Int := (targetInfo.col : Int) + d.2
          if 0 ≤ nr ∧ nr < (board.rows : Int) ∧ 0 ≤ nc ∧ nc < (board.cols : Int) then
            let nKey := createCellKey nr.toNat nc.toNat
            match alGet board.cellInfo nKey with
            | some nInfo =>
              if nInfo.room = targetInfo.room ∧
                  board.occupiableCells.contains nKey then
                addUnique result nKey
              else result
            | none => result
          else result) result) []

/-! ## Constraint catalogue (`src/engine/constraints.js`) -/

/-- A constraint, as the tagged records of the puzzle files. -/
inductive Constraint where
  | inRoom (room : String)
  | inRooms (rooms : List String)
  | onCellType (cellType : String)
  | notOnCellType (cellType : String)
  | beside (cellType : String)
  | notBeside (cellType : String)
  | inColumns (columns : List Nat)
  | inRow (row : Nat)
  | alone
  | aloneWith (suspect : String)
  | aloneWithGender (gender : String)
  | withPerson (suspect : String) (room : String)
  | onlyPersonOnCellType (cellType : String)
  | relativeRow (suspect : String) (rowOffset : Int)
  | aheadOf (suspect : String)
  | victim
  | inRoomWithPersonOnCellType (gender : String) (cellType : String)
  | inRoomWithPersonBesideCellType (cellType : String)
deriving DecidableEq, Repr

/-- `constraints.js` `intersection`: iterate the smaller set, keep members of
the larger. -/
def intersection (a b : List String) : List String :=
  let p := if a.length ≤ b.length then (a, b) else (b, a)
  p.1.foldl (fun result item =>
    if p.2.contains item then addUnique result item else result) []

/-- One entry of `STATIC_FILTERS`; dynamic constraint kinds have no static
filter and leave the candidate set unchanged (as `computeInitialCandidates`
does when `STATIC_FILTERS[constraint.type]` is absent). -/
def staticFilter (candidates : List String) (c : Constraint) (board : Board) :
    List String :=
  match c with
  | .inRoom room =>
    match alGet board.roomCells room with
    | none => []
    | some roomCells => intersection candidates roomCells
  | .inRooms rooms =>
    rooms.foldl (fun valid room =>
      match alGet board.roomCells room with
      | none => valid
      | some roomCells =>
        roomCells.foldl (fun valid key =>
          if candidates.contains key then addUnique valid key else valid)
          valid) []
  | .onCellType t =>
    candidates.foldl (fun result key =>
      match alGet board.cellInfo key with
      | some info => if info.type = t then addUnique result key else result
      | none => result) []
  | .notOnCellType t =>
    candidates.foldl (fun result key =>
      match alGet board.cellInfo key with
      | some info => if info.type ≠ t then addUnique result key else result
      | none => result) []
  | .beside t => intersection candidates (getCellsBesideType board t)
  | .notBeside t =>
    let besideCells := getCellsBesideType board t
    candidates.foldl (fun result key =>
      if besideCells.contains key then result else addUnique result key) []
  | .inColumns columns =>
    candidates.foldl (fun result key =>
      if columns.contains (parseKey key).2 then addUnique result key
      else result) []
  | .inRow r =>
    candidates.foldl (fun result key =>
      if (parseKey key).1 = r then addUnique result key else result) []
  | _ => candidates

/-- `constraints.js` `computeInitialCandidates`: start from all occupiable
cells and apply each static filter in constraint order. -/
def computeInitialCandidates (constraints : List Constraint) (board : Board) :
    List String :=
  constraints.foldl (fun cands c => staticFilter cands c board)
    board.occupiableCells

/-! ## Puzzle data model -/

/-- A room record of `puzzle.rooms`. -/
structure Room where
  name : String
  color : String
deriving DecidableEq, Repr

/-- A suspect record of `puzzle.suspects`. -/
structure Suspect where
  id : String
  name : String
  clue : String
  gender : Option String := none
  isVictim : Bool := false
  constraints : List Constraint := []
deriving Repr

/-- A curated-hint target specifier. -/
inductive Target where
  | room (r : String)
  | rooms (rs : List String)
  | cellType (t : String) (room : Option String)
  | adjacentTo (t : String)
  | row (r : Nat)
  | any
deriving DecidableEq, Repr

/-- The `messages` record of a curated hint. -/
structure HintMessages where
  single : Option String := none
  multiple : Option String := none
  roomBlocked : Option String := none
deriving DecidableEq, Repr

/-- One entry of a puzzle's curated `hints` list. -/
structure CuratedHint where
  suspect : String
  order : Int
  prerequisites : List String := []
  target : Option Target := none
  messages : HintMessages
  skipIfMoreThan : Option Nat := none
deriving Repr

/-- The puzzle fields consumed by the solver and the hint engine. -/
structure Puzzle where
  suspects : List Suspect
  rooms : List (String × Room)
  boardLayout : List (List Cell)
  trackPositions : Option (List (String × Int)) := none
  hints : List CuratedHint := []
  gridSize : Nat := 0
deriving Repr

/-- `puzzle.rooms[r]?.name || r` (the display name, falling back to the id). -/
def roomNameOf (puzzle : Puzzle) (room : String) : String :=
  match alGet puzzle.rooms room with
  | some r => if r.name = "" then room else r.name
  | none => room

/-- `puzzle.rooms[room]?.name || room` where `room` itself came from an
optional `cellInfo` lookup (an absent room prints as `undefined` in JS). -/
def roomDisplay (puzzle : Puzzle) (room : Option String) : String :=
  match room with
  | some r => roomNameOf puzzle r
  | none => "undefined"

/-- `puzzle.suspects.find(s => s.id === id)?.name || id`. -/
def suspectNameIn (puzzle : Puzzle) (sid : String) : String :=
  match puzzle.suspects.find? (fun s => s.id = sid) with
  | some s => if s.name = "" then sid else s.name
  | none => sid

/-- `constraints.js` `describeConstraint`. -/
def describeConstraint (c : Constraint) (puzzle : Puzzle) : String :=
  match c with
  | .inRoom room => s!"must be in the {roomNameOf puzzle room}"
  | .inRooms rooms =>
    let joined := String.intercalate " or " (rooms.map (roomNameOf puzzle))
    s!"must be in {joined}"
  | .onCellType t => s!"must be on a {t}"
  | .notOnCellType t => s!"cannot be on a {t}"
  | .beside t => s!"must be beside a {t}"
  | .alone => "must be alone in their room"
  | .aloneWith s => s!"must be alone with {suspectNameIn puzzle s}"
  | .aloneWithGender g => s!"must be alone with a {g}"
  | .withPerson s room =>
    s!"must be with {suspectNameIn puzzle s} in the {roomNameOf puzzle room}"
  | .inColumns columns =>
    let joined := String.intercalate " or " (columns.map (fun c => toString (c + 1)))
    s!"must be in column {joined}"
  | .inRow r => s!"must be in row {r + 1}"
  | .notBeside t => s!"must not be beside a {t}"
  | .onlyPersonOnCellType t => s!"must be the only person on a {t}"
  | .relativeRow s off =>
    if off < 0 then
      s!"must be {off.natAbs} row(s) north of {suspectNameIn puzzle s}"
    else
      s!"must be {off} row(s) south of {suspectNameIn puzzle s}"
  | .aheadOf s => s!"must be ahead of {suspectNameIn puzzle s} on the track"
  | .victim => "was alone with the murderer"
  | .inRoomWithPersonOnCellType g t =>
    s!"must be in a room where a {g} is on a {t}"
  | .inRoomWithPersonBesideCellType t =>
    s!"must be in a room where someone else is beside a {t}"

/-! ## Solver state (`src/engine/solver.js`, constructor and primitives) -/

/-- A recorded solve step. -/
structure SolveStep where
  technique : String
  suspectId : String
  cellKey : Option String := none
  message : String
  eliminatedCells : List String := []
  highlightCells : List String := []
deriving DecidableEq, Repr

/-- The immutable part of a `MurdokuSolver` (constructor fields). -/
structure SolverCtx where
  puzzle : Puzzle
  board : Board
  suspectIds : List String
deriving Repr

/-- The `MurdokuSolver` constructor. -/
def mkSolverCtx (p : Puzzle) : SolverCtx :=
  ⟨p, precomputeBoard p.boardLayout, p.suspects.map (·.id)⟩

/-- `this.suspectMap.get(sid)`. -/
def SolverCtx.suspectOf (ctx : SolverCtx) (sid : String) : Option Suspect :=
  ctx.puzzle.suspects.find? (fun s => s.id = sid)

/-- `this.suspectMap.get(sid).name` (only evaluated at puzzle suspects). -/
def SolverCtx.nameOf (ctx : SolverCtx) (sid : String) : String :=
  ((ctx.suspectOf sid).map (·.name)).getD sid

/-- `this.suspectMap.get(sid).clue` (only evaluated at puzzle suspects). -/
def SolverCtx.clueOf (ctx : SolverCtx) (sid : String) : String :=
  ((ctx.suspectOf sid).map (·.clue)).getD ""

/-- `this.genderMap.get(sid)`. -/
def SolverCtx.genderOf (ctx : SolverCtx) (sid : String) : Option String :=
  (ctx.suspectOf sid).bind (·.gender)

/-- `this.constraintMap.get(sid) || []`. -/
def SolverCtx.constraintsOf (ctx : SolverCtx) (sid : String) : List Constraint :=
  ((ctx.suspectOf sid).map (·.constraints)).getD []

/-- `this.board.cellInfo.get(key)?.room`. -/
def SolverCtx.roomOf (ctx : SolverCtx) (key : String) : Option String :=
  (alGet ctx.board.cellInfo key).map (·.room)

/-- The mutable solver state: candidate sets, placements and the step log. -/
structure SolverState where
  candidates : String → List String
  placed : String → Option String
  steps : List SolveStep

/-- `_placeSuspect(suspectId, cellKey, false)`: record the placement, narrow
the suspect to the singleton, delete the cell from every other suspect, and
delete the cell's row and column from every other unplaced suspect. -/
def placeSuspectNR (st : SolverState) (suspectId cellKey : String) :
    SolverState :=
  let placed := fun s => if s = suspectId then some cellKey else st.placed s
  let cands1 := fun s =>
    if s = suspectId then [cellKey]
    else (st.candidates s).filter (fun k => k ≠ cellKey)
  let rc := parseKey cellKey
  let cands2 := fun s =>
    if s ≠ suspectId ∧ (placed s).isNone then
      (cands1 s).filter (fun k =>
        ¬((parseKey k).1 = rc.1 ∨ (parseKey k).2 = rc.2))
    else cands1 s
  { st with candidates := cands2, placed := placed }

/-- One pass of `_propagateBasic`'s inner `for` loop: place every naked
single encountered, left to right. -/
def propagateRound (ctx : SolverCtx) (st : SolverState) :
    SolverState × Bool :=
  ctx.suspectIds.foldl (fun acc sid =>
    if (acc.1.placed sid).isSome then acc
    else match acc.1.candidates sid with
      | [k] => (placeSuspectNR acc.1 sid k, true)
      | _ => acc) (st, false)

/-- The `while (changed && safety-- > 0)` loop of `_propagateBasic`. -/
def propagateBasicAux (ctx : SolverCtx) : Nat → SolverState → SolverState
  | 0, st => st
  | fuel + 1, st =>
    let r := propagateRound ctx st
    if r.2 then propagateBasicAux ctx fuel r.1 else r.1

/-- `_propagateBasic()` with its `safety = 100` bound. -/
def propagateBasic (ctx : SolverCtx) (st : SolverState) : SolverState :=
  propagateBasicAux ctx 100 st

/-- `_placeSuspect(suspectId, cellKey)` with `recordStep = true`. -/
def placeSuspect (ctx : SolverCtx) (st : SolverState)
    (suspectId cellKey : String) : SolverState :=
  propagateBasic ctx (placeSuspectNR st suspectId cellKey)

/-- `initialize(placements)`: static candidates, pre-placements, then basic
propagation.  `placements` is `Object.entries` order, `cellKey → suspectId`. -/
def solverInit (ctx : SolverCtx) (placements : List (String × String)) :
    SolverState :=
  let st : SolverState :=
    { candidates := fun sid =>
        if ctx.suspectIds.contains sid then
          computeInitialCandidates (ctx.constraintsOf sid) ctx.board
        else [],
      placed := fun _ => none,
      steps := [] }
  let st := placements.foldl (fun st pk => placeSuspectNR st pk.2 pk.1) st
  propagateBasic ctx st

/-- `getCandidates(suspectId)`. -/
def getCandidates (st : SolverState) (sid : String) : List String :=
  st.candidates sid

/-- `getCellCandidates(cellKey)`: unplaced suspects whose set has the key. -/
def getCellCandidates (ctx : SolverCtx) (st : SolverState) (cellKey : String) :
    List String :=
  ctx.suspectIds.filter (fun sid =>
    (st.placed sid).isNone ∧ (st.candidates sid).contains cellKey)

/-- `isSolved()`: every suspect placed. -/
def isSolved (ctx : SolverCtx) (st : SolverState) : Bool :=
  (ctx.suspectIds.filter (fun s => (st.placed s).isSome)).length
    = ctx.suspectIds.length

/-! ## Technique 1: naked single (`_findNakedSingle`) -/

/-- The step recorded by `_findNakedSingle`. -/
def nakedSingleStep (ctx : SolverCtx) (sid cellKey : String) : SolveStep :=
  let rc := parseKey cellKey
  let roomName := roomDisplay ctx.puzzle (ctx.roomOf cellKey)
  let constraints := ctx.constraintsOf sid
  let constraintDesc :=
    if constraints.length > 0 then
      String.intercalate "; "
        (constraints.map (fun c => describeConstraint c ctx.puzzle))
    else "no specific constraints"
  { technique := "nakedSingle", suspectId := sid, cellKey := some cellKey,
    message := s!"💡 {ctx.nameOf sid} can only go at R{rc.1 + 1}C{rc.2 + 1} ({roomName}). Clue: \"{ctx.clueOf sid}\" — {constraintDesc}. All other cells eliminated by row/column constraints.",
    highlightCells := [cellKey] }

/-- The suspect loop of `_findNakedSingle`. -/
def findNakedSingleAux (ctx : SolverCtx) (st : SolverState) :
    List String → Option (SolveStep × SolverState)
  | [] => none
  | sid :: rest =>
    if (st.placed sid).isSome then findNakedSingleAux ctx st rest
    else match st.candidates sid with
      | [cellKey] =>
        let step := nakedSingleStep ctx sid cellKey
        let st1 := placeSuspect ctx st sid cellKey
        some (step, { st1 with steps := st1.steps ++ [step] })
      | _ => findNakedSingleAux ctx st rest

/-- `_findNakedSingle()`. -/
def findNakedSingle (ctx : SolverCtx) (st : SolverState) :
    Option (SolveStep × SolverState) :=
  findNakedSingleAux ctx st ctx.suspectIds

/-! ## Technique 2: row/column singles (`_findRowSingle`, `_findColSingle`) -/

/-- Whether a placed suspect already occupies row `r`. -/
def rowTakenBy (ctx : SolverCtx) (st : SolverState) (r : Nat) : Bool :=
  ctx.suspectIds.any (fun sid =>
    match st.placed sid with
    | some k => (parseKey k).1 = r
    | none => false)

/-- Whether a placed suspect already occupies column `c`. -/
def colTakenBy (ctx : SolverCtx) (st : SolverState) (c : Nat) : Bool :=
  ctx.suspectIds.any (fun sid =>
    match st.placed sid with
    | some k => (parseKey k).2 = c
    | none => false)

/-- The row loop of `_findRowSingle`. -/
def findRowSingleAux (ctx : SolverCtx) (st : SolverState) :
    List Nat → Option (SolveStep × SolverState)
  | [] => none
  | r :: rest =>
    if rowTakenBy ctx st r then findRowSingleAux ctx st rest
    else
      let suspectsInRow := ctx.suspectIds.filter (fun sid =>
        (st.placed sid).isNone ∧
          (st.candidates sid).any (fun k => (parseKey k).1 = r))
      match suspectsInRow with
      | [sid] =>
        let cands := st.candidates sid
        let candsInRow := cands.filter (fun k => (parseKey k).1 = r)
        let eliminated := cands.filter (fun k => ¬((parseKey k).1 = r))
        let st1 : SolverState := { st with candidates := fun s =>
          if s = sid then candsInRow else st.candidates s }
        match candsInRow with
        | [cellKey] =>
          let rc := parseKey cellKey
          let step : SolveStep :=
            { technique := "rowSingle", suspectId := sid,
              cellKey := some cellKey,
              message := s!"💡 Only {ctx.nameOf sid} can go in row {rc.1 + 1}, at R{rc.1 + 1}C{rc.2 + 1} ({roomDisplay ctx.puzzle (ctx.roomOf cellKey)}). \"{ctx.clueOf sid}\"",
              highlightCells := [cellKey] }
          let st2 := placeSuspect ctx st1 sid cellKey
          some (step, { st2 with steps := st2.steps ++ [step] })
        | _ =>
          if eliminated.length > 0 then
            let step : SolveStep :=
              { technique := "rowSingle", suspectId := sid,
                message := s!"💡 Only {ctx.nameOf sid} can go in row {r + 1}. Eliminated {eliminated.length} candidate(s) from other rows.",
                highlightCells := candsInRow, eliminatedCells := eliminated }
            some (step, propagateBasic ctx
              { st1 with steps := st1.steps ++ [step] })
          else findRowSingleAux ctx st rest
      | _ => findRowSingleAux ctx st rest

/-- `_findRowSingle()`. -/
def findRowSingle (ctx : SolverCtx) (st : SolverState) :
    Option (SolveStep × SolverState) :=
  findRowSingleAux ctx st (List.range ctx.board.rows)

/-- The column loop of `_findColSingle`. -/
def findColSingleAux (ctx : SolverCtx) (st : SolverState) :
    List Nat → Option (SolveStep × SolverState)
  | [] => none
  | c :: rest =>
    if colTakenBy ctx st c then findColSingleAux ctx st rest
    else
      let suspectsInCol := ctx.suspectIds.filter (fun sid =>
        (st.placed sid).isNone ∧
          (st.candidates sid).any (fun k => (parseKey k).2 = c))
      match suspectsInCol with
      | [sid] =>
        let cands := st.candidates sid
        let candsInCol := cands.filter (fun k => (parseKey k).2 = c)
        let eliminated := cands.filter (fun k => ¬((parseKey k).2 = c))
        let st1 : SolverState := { st with candidates := fun s =>
          if s = sid then candsInCol else st.candidates s }
        match candsInCol with
        | [cellKey] =>
          let rc := parseKey cellKey
          let step : SolveStep :=
            { technique := "colSingle", suspectId := sid,
              cellKey := some cellKey,
              message := s!"💡 Only {ctx.nameOf sid} can go in column {rc.2 + 1}, at R{rc.1 + 1}C{rc.2 + 1} ({roomDisplay ctx.puzzle (ctx.roomOf cellKey)}). \"{ctx.clueOf sid}\"",
              highlightCells := [cellKey] }
          let st2 := placeSuspect ctx st1 sid cellKey
          some (step, { st2 with steps := st2.steps ++ [step] })
        | _ =>
          if eliminated.length > 0 then
            let step : SolveStep :=
              { technique := "colSingle", suspectId := sid,
                message := s!"💡 Only {ctx.nameOf sid} can go in column {c + 1}. Eliminated {eliminated.length} candidate(s) from other columns.",
                highlightCells := candsInCol, eliminatedCells := eliminated }
            some (step, propagateBasic ctx
              { st1 with steps := st1.steps ++ [step] })
          else findColSingleAux ctx st rest
      | _ => findColSingleAux ctx st rest

/-- `_findColSingle()`. -/
def findColSingle (ctx : SolverCtx) (st : SolverState) :
    Option (SolveStep × SolverState) :=
  findColSingleAux ctx st (List.range ctx.board.cols)

/-! ## Technique 3: row/column claiming (`_findRowClaiming`, `_findColClaiming`) -/

/-- The elimination loop of `_findRowClaiming`: delete the claimed row from
every other unplaced suspect, counting deletions. -/
def rowClaimingEliminate (ctx : SolverCtx) (st : SolverState) (sid : String)
    (claimedRow : Nat) : SolverState × Nat :=
  ctx.suspectIds.foldl (fun acc otherSid =>
    if otherSid = sid ∨ (acc.1.placed otherSid).isSome then acc
    else
      let otherCands := acc.1.candidates otherSid
      let removed := otherCands.filter (fun k => (parseKey k).1 = claimedRow)
      let kept := otherCands.filter (fun k => ¬((parseKey k).1 = claimedRow))
      ({ acc.1 with candidates := fun s =>
          if s = otherSid then kept else acc.1.candidates s },
        acc.2 + removed.length)) (st, 0)

/-- The suspect loop of `_findRowClaiming`. -/
def findRowClaimingAux (ctx : SolverCtx) (st : SolverState) :
    List String → Option (SolveStep × SolverState)
  | [] => none
  | sid :: rest =>
    if (st.placed sid).isSome then findRowClaimingAux ctx st rest
    else
      match st.candidates sid with
      | [] => findRowClaimingAux ctx st rest
      | k :: ks =>
        let claimedRow := (parseKey k).1
        if ks.all (fun k2 => (parseKey k2).1 = claimedRow) then
          let r := rowClaimingEliminate ctx st sid claimedRow
          if r.2 > 0 then
            let step : SolveStep :=
              { technique := "rowClaiming", suspectId := sid,
                message := s!"💡 {ctx.nameOf sid} must be in row {claimedRow + 1}. Eliminated {r.2} candidate(s) from other suspects in that row.",
                highlightCells := st.candidates sid }
            some (step, propagateBasic ctx
              { r.1 with steps := r.1.steps ++ [step] })
          else findRowClaimingAux ctx st rest
        else findRowClaimingAux ctx st rest

/-- `_findRowClaiming()`. -/
def findRowClaiming (ctx : SolverCtx) (st : SolverState) :
    Option (SolveStep × SolverState) :=
  findRowClaimingAux ctx st ctx.suspectIds

/-- The elimination loop of `_findColClaiming`. -/
def colClaimingEliminate (ctx : SolverCtx) (st : SolverState) (sid : String)
    (claimedCol : Nat) : SolverState × Nat :=
  ctx.suspectIds.foldl (fun acc otherSid =>
    if otherSid = sid ∨ (acc.1.placed otherSid).isSome then acc
    else
      let otherCands := acc.1.candidates otherSid
      let removed := otherCands.filter (fun k => (parseKey k).2 = claimedCol)
      let kept := otherCands.filter (fun k => ¬((parseKey k).2 = claimedCol))
      ({ acc.1 with candidates := fun s =>
          if s = otherSid then kept else acc.1.candidates s },
        acc.2 + removed.length)) (st, 0)

/-- The suspect loop of `_findColClaiming`. -/
def findColClaimingAux (ctx : SolverCtx) (st : SolverState) :
    List String → Option (SolveStep × SolverState)
  | [] => none
  | sid :: rest =>
    if (st.placed sid).isSome then findColClaimingAux ctx st rest
    else
      match st.candidates sid with
      | [] => findColClaimingAux ctx st rest
      | k :: ks =>
        let claimedCol := (parseKey k).2
        if ks.all (fun k2 => (parseKey k2).2 = claimedCol) then
          let r := colClaimingEliminate ctx st sid claimedCol
          if r.2 > 0 then
            let step : SolveStep :=
              { technique := "colClaiming", suspectId := sid,
                message := s!"💡 {ctx.nameOf sid} must be in column {claimedCol + 1}. Eliminated {r.2} candidate(s) from other suspects in that column.",
                highlightCells := st.candidates sid }
            some (step, propagateBasic ctx
              { r.1 with steps := r.1.steps ++ [step] })
          else findColClaimingAux ctx st rest
        else findColClaimingAux ctx st rest

/-- `_findColClaiming()`. -/
def findColClaiming (ctx : SolverCtx) (st : SolverState) :
    Option (SolveStep × SolverState) :=
  findColClaimingAux ctx st ctx.suspectIds

/-! ## Technique 3b: naked row/column sets (`_findNakedRowSet`,
`_findNakedColSet` and their recursive searches) -/

/-- Insertion-sorted set of the rows spanned by a candidate list
(`new Set()` built in candidate order). -/
def rowsOfCands (cands : List String) : List Nat :=
  cands.foldl (fun acc k =>
    let r := (parseKey k).1
    if acc.contains r then acc else acc ++ [r]) []

/-- Columns spanned by a candidate list, in insertion order. -/
def colsOfCands (cands : List String) : List Nat :=
  cands.foldl (fun acc k =>
    let c := (parseKey k).2
    if acc.contains c then acc else acc ++ [c]) []

/-- Insert into a list already sorted on the key, after all entries whose key
is `≤` (the placement a stable comparator sort produces). -/
def insByKey {α : Type} (key : α → Int) (x : α) : List α → List α
  | [] => [x]
  | y :: ys => if key y ≤ key x then y :: insByKey key x ys else x :: y :: ys

/-- Stable ascending sort, the behaviour of `Array.prototype.sort` with an
`(a, b) => key(a) - key(b)` comparator (sort is stable per ES2019). -/
def sortByKey {α : Type} (key : α → Int) (l : List α) : List α :=
  l.foldl (fun acc x => insByKey key x acc) []

/-- Ordered set union (`new Set([...a, ...b])`). -/
def unionNat (a b : List Nat) : List Nat :=
  b.foldl (fun acc r => if acc.contains r then acc else acc ++ [r]) a

/-- First elimination phase of `_searchRowGroup`: delete the claimed rows
from every unplaced suspect outside the group. -/
def rowSetEliminate (st : SolverState)
    (allSuspects : List (String × List Nat)) (group : List String)
    (rowUnion : List Nat) : SolverState × Nat :=
  allSuspects.foldl (fun acc p =>
    if group.contains p.1 then acc
    else
      let cands := acc.1.candidates p.1
      let removed := cands.filter (fun k => rowUnion.contains (parseKey k).1)
      let kept := cands.filter (fun k => ¬(rowUnion.contains (parseKey k).1))
      ({ acc.1 with candidates := fun s =>
          if s = p.1 then kept else acc.1.candidates s },
        acc.2 + removed.length)) (st, 0)

/-- Forced-cell phase of `_searchRowGroup`: when the group's candidates in a
claimed row occupy a single column, block that column for non-group
suspects. -/
def rowSetForced (acc0 : SolverState × Nat)
    (allSuspects : List (String × List Nat)) (group : List String)
    (rowUnion : List Nat) : SolverState × Nat :=
  rowUnion.foldl (fun acc claimedRow =>
    let colsInRow := group.foldl (fun cols sid =>
      (acc.1.candidates sid).foldl (fun cols k =>
        let rc := parseKey k
        if rc.1 = claimedRow then
          if cols.contains rc.2 then cols else cols ++ [rc.2]
        else cols) cols) ([] : List Nat)
    match colsInRow with
    | [forcedCol] =>
      allSuspects.foldl (fun acc2 p =>
        if group.contains p.1 then acc2
        else
          let cands := acc2.1.candidates p.1
          let removed := cands.filter (fun k => (parseKey k).2 = forcedCol)
          let kept := cands.filter (fun k => ¬((parseKey k).2 = forcedCol))
          ({ acc2.1 with candidates := fun s =>
              if s = p.1 then kept else acc2.1.candidates s },
            acc2.2 + removed.length)) acc
    | _ => acc) acc0

/-- The step recorded by `_searchRowGroup`. -/
def rowSetStep (ctx : SolverCtx) (group : List String) (rowUnion : List Nat)
    (total : Nat) : SolveStep :=
  let names := group.map ctx.nameOf
  let rowList := (sortByKey (fun r => (r : Int)) rowUnion).map
    (fun r => toString (r + 1))
  let nameList := String.intercalate ", " names
  let rowsJoined := String.intercalate ", " rowList
  { technique := "nakedRowSet", suspectId := group.headD "",
    message := s!"💡 {nameList} must occupy rows {rowsJoined}. Eliminated {total} candidate(s) from other suspects.",
    highlightCells := [] }

/-- `_searchRowGroup`: depth-first enumeration of candidate groups over the
(sorted) suspect list, trying inclusion before exclusion. -/
def searchRowGroup (ctx : SolverCtx) (st : SolverState)
    (allSuspects : List (String × List Nat)) (targetSize : Nat) :
    List (String × List Nat) → List String → List Nat →
      Option (SolveStep × SolverState)
  | remaining, group, rowUnion =>
    if group.length = targetSize then
      if rowUnion.length ≠ targetSize then none
      else
        let r1 := rowSetEliminate st allSuspects group rowUnion
        let r2 := rowSetForced r1 allSuspects group rowUnion
        if r2.2 > 0 then
          let step := rowSetStep ctx group rowUnion r2.2
          some (step, propagateBasic ctx
            { r2.1 with steps := r2.1.steps ++ [step] })
        else none
    else
      match remaining with
      | [] => none
      | p :: rest =>
        let included :=
          let newUnion := unionNat rowUnion p.2
          if newUnion.length ≤ targetSize then
            searchRowGroup ctx st allSuspects targetSize rest
              (group ++ [p.1]) newUnion
          else none
        match included with
        | some r => some r
        | none => searchRowGroup ctx st allSuspects targetSize rest group rowUnion

/-- `_findNakedRowSet()`. -/
def findNakedRowSet (ctx : SolverCtx) (st : SolverState) :
    Option (SolveStep × SolverState) :=
  let suspectRows :=
    (ctx.suspectIds.filter (fun sid => (st.placed sid).isNone)).map
      (fun sid => (sid, rowsOfCands (st.candidates sid)))
  let sorted := sortByKey (fun p => (p.2.length : Int)) suspectRows
  let maxSize := min (sorted.length - 1) 6
  ((List.range (maxSize + 1)).drop 2).firstM
    (fun size => searchRowGroup ctx st sorted size sorted [] [])

/-- First elimination phase of `_searchColGroup`. -/
def colSetEliminate (st : SolverState)
    (allSuspects : List (String × List Nat)) (group : List String)
    (colUnion : List Nat) : SolverState × Nat :=
  allSuspects.foldl (fun acc p =>
    if group.contains p.1 then acc
    else
      let cands := acc.1.candidates p.1
      let removed := cands.filter (fun k => colUnion.contains (parseKey k).2)
      let kept := cands.filter (fun k => ¬(colUnion.contains (parseKey k).2))
      ({ acc.1 with candidates := fun s =>
          if s = p.1 then kept else acc.1.candidates s },
        acc.2 + removed.length)) (st, 0)

/-- Forced-cell phase of `_searchColGroup`. -/
def colSetForced (acc0 : SolverState × Nat)
    (allSuspects : List (String × List Nat)) (group : List String)
    (colUnion : List Nat) : SolverState × Nat :=
  colUnion.foldl (fun acc claimedCol =>
    let rowsInCol := group.foldl (fun rows sid =>
      (acc.1.candidates sid).foldl (fun rows k =>
        let rc := parseKey k
        if rc.2 = claimedCol then
          if rows.contains rc.1 then rows else rows ++ [rc.1]
        else rows) rows) ([] : List Nat)
    match rowsInCol with
    | [forcedRow] =>
      allSuspects.foldl (fun acc2 p =>
        if group.contains p.1 then acc2
        else
          let cands := acc2.1.candidates p.1
          let removed := cands.filter (fun k => (parseKey k).1 = forcedRow)
          let kept := cands.filter (fun k => ¬((parseKey k).1 = forcedRow))
          ({ acc2.1 with candidates := fun s =>
              if s = p.1 then kept else acc2.1.candidates s },
            acc2.2 + removed.length)) acc
    | _ => acc) acc0

/-- The step recorded by `_searchColGroup`. -/
def colSetStep (ctx : SolverCtx) (group : List String) (colUnion : List Nat)
    (total : Nat) : SolveStep :=
  let names := group.map ctx.nameOf
  let colList := (sortByKey (fun c => (c : Int)) colUnion).map
    (fun c => toString (c + 1))
  let nameList := String.intercalate ", " names
  let colsJoined := String.intercalate ", " colList
  { technique := "nakedColSet", suspectId := group.headD "",
    message := s!"💡 {nameList} must occupy columns {colsJoined}. Eliminated {total} candidate(s) from other suspects.",
    highlightCells := [] }

/-- `_searchColGroup`. -/
def searchColGroup (ctx : SolverCtx) (st : SolverState)
    (allSuspects : List (String × List Nat)) (targetSize : Nat) :
    List (String × List Nat) → List String → List Nat →
      Option (SolveStep × SolverState)
  | remaining, group, colUnion =>
    if group.length = targetSize then
      if colUnion.length ≠ targetSize then none
      else
        let r1 := colSetEliminate st allSuspects group colUnion
        let r2 := colSetForced r1 allSuspects group colUnion
        if r2.2 > 0 then
          let step := colSetStep ctx group colUnion r2.2
          some (step, propagateBasic ctx
            { r2.1 with steps := r2.1.steps ++ [step] })
        else none
    else
      match remaining with
      | [] => none
      | p :: rest =>
        let included :=
          let newUnion := unionNat colUnion p.2
          if newUnion.length ≤ targetSize then
            searchColGroup ctx st allSuspects targetSize rest
              (group ++ [p.1]) newUnion
          else none
        match included with
        | some r => some r
        | none => searchColGroup ctx st allSuspects targetSize rest group colUnion

/-- `_findNakedColSet()`. -/
def findNakedColSet (ctx : SolverCtx) (st : SolverState) :
    Option (SolveStep × SolverState) :=
  let suspectCols :=
    (ctx.suspectIds.filter (fun sid => (st.placed sid).isNone)).map
      (fun sid => (sid, colsOfCands (st.candidates sid)))
  let sorted := sortByKey (fun p => (p.2.length : Int)) suspectCols
  let maxSize := min (sorted.length - 1) 6
  ((List.range (maxSize + 1)).drop 2).firstM
    (fun size => searchColGroup ctx st sorted size sorted [] [])

/-! ## Technique 4: room constraints (`_applyRoomConstraints` and handlers) -/

/-- `_canBeAloneInRoom`: false iff another suspect is placed in the room, or
some other unplaced suspect has no candidate outside the room.  (In the
source, once `hasOutsideRoom` is false both inner branches return false, so
`hasSurvivingInRoom` never affects the result.) -/
def canBeAloneInRoom (ctx : SolverCtx) (st : SolverState) (sid : String)
    (room : String) : Bool :=
  ctx.suspectIds.all (fun otherSid =>
    if otherSid = sid then true
    else match st.placed otherSid with
      | some placedKey => ¬(ctx.roomOf placedKey = some room)
      | none => (st.candidates otherSid).any (fun k =>
          ¬(ctx.roomOf k = some room)))

/-- `_handleAloneConstraint`. -/
def handleAlone (ctx : SolverCtx) (st : SolverState) (sid : String) :
    Option (SolveStep × SolverState) :=
  let cands := st.candidates sid
  let keepCand := fun k =>
    match ctx.roomOf k with
    | some room => room = "" ∨ canBeAloneInRoom ctx st sid room
    | none => true
  let kept := cands.filter keepCand
  let eliminated := cands.filter (fun k => ¬(keepCand k))
  if eliminated.length > 0 then
    let st1 : SolverState := { st with candidates := fun s =>
      if s = sid then kept else st.candidates s }
    let step : SolveStep :=
      { technique := "aloneElimination", suspectId := sid,
        message := s!"💡 {ctx.nameOf sid} must be alone. Eliminated {eliminated.length} cell(s) from rooms where being alone is impossible.",
        highlightCells := kept, eliminatedCells := eliminated }
    some (step, propagateBasic ctx { st1 with steps := st1.steps ++ [step] })
  else none

/-- `_isRoomViableForGroup`: no suspect outside the allowed set is placed in
or forced into the room. -/
def isRoomViableForGroup (ctx : SolverCtx) (st : SolverState)
    (room : Option String) (allowed : List String) : Bool :=
  ctx.suspectIds.all (fun otherSid =>
    if allowed.contains otherSid then true
    else match st.placed otherSid with
      | some placedKey => ¬(ctx.roomOf placedKey = room)
      | none =>
        let otherCands := st.candidates otherSid
        let hasOutside := otherCands.any (fun k => ¬(ctx.roomOf k = room))
        ¬(¬hasOutside ∧ otherCands.length > 0))

/-- `_handleAloneWithConstraint`.  The two elimination loops run in
sequence: the second (`meInRoom`) reads the first loop's narrowed set. -/
def handleAloneWith (ctx : SolverCtx) (st : SolverState)
    (sid otherSid : String) : Option (SolveStep × SolverState) :=
  let cands := st.candidates sid
  let otherCands0 := st.candidates otherSid
  let allowed := [sid, otherSid]
  let keep1 := fun k =>
    let room := ctx.roomOf k
    otherCands0.any (fun k2 => ctx.roomOf k2 = room) ∧
      isRoomViableForGroup ctx st room allowed
  let kept1 := cands.filter keep1
  let eliminated1 := cands.filter (fun k => ¬(keep1 k))
  let st1 : SolverState := { st with candidates := fun s =>
    if s = sid then kept1 else st.candidates s }
  let otherCands := st1.candidates otherSid
  let keep2 := fun k =>
    let room := ctx.roomOf k
    (st1.candidates sid).any (fun k2 => ctx.roomOf k2 = room) ∧
      isRoomViableForGroup ctx st room allowed
  let kept2 := otherCands.filter keep2
  let eliminated2 := otherCands.filter (fun k => ¬(keep2 k))
  if eliminated1.length > 0 ∨ eliminated2.length > 0 then
    let st2 : SolverState := { st1 with candidates := fun s =>
      if s = otherSid then kept2 else st1.candidates s }
    let step : SolveStep :=
      { technique := "aloneWithElimination", suspectId := sid,
        message := s!"💡 {ctx.nameOf sid} must be alone with {ctx.nameOf otherSid}. Eliminated cells from rooms where they can't be alone together.",
        highlightCells := st2.candidates sid,
        eliminatedCells := eliminated1 ++ eliminated2 }
    some (step, propagateBasic ctx { st2 with steps := st2.steps ++ [step] })
  else none

/-- `_handleAloneWithGenderConstraint`. -/
def handleAloneWithGender (ctx : SolverCtx) (st : SolverState)
    (sid gender : String) : Option (SolveStep × SolverState) :=
  let genderSuspects := ctx.suspectIds.filter (fun s =>
    s ≠ sid ∧ ctx.genderOf s = some gender ∧
      ¬((ctx.constraintsOf s).any (fun c =>
        match c with | .alone => true | _ => false)))
  if genderSuspects.isEmpty then none
  else
    let cands := st.candidates sid
    let keepCand := fun k =>
      let room := ctx.roomOf k
      let hasPartnerInRoom := genderSuspects.any (fun gs =>
        match st.placed gs with
        | some pk => ctx.roomOf pk = room
        | none => (st.candidates gs).any (fun k2 => ctx.roomOf k2 = room))
      hasPartnerInRoom ∧
        isRoomViableForGroup ctx st room (sid :: genderSuspects)
    let kept := cands.filter keepCand
    let eliminated := cands.filter (fun k => ¬(keepCand k))
    if eliminated.length > 0 then
      let st1 : SolverState := { st with candidates := fun s =>
        if s = sid then kept else st.candidates s }
      let step : SolveStep :=
        { technique := "aloneWithGenderElimination", suspectId := sid,
          message := s!"💡 {ctx.nameOf sid} must be alone with a {gender}. Eliminated cells from rooms where this is impossible.",
          highlightCells := kept, eliminatedCells := eliminated }
      some (step, propagateBasic ctx { st1 with steps := st1.steps ++ [step] })
    else none

/-- `_handleWithPersonConstraint`: both suspects restricted to the room. -/
def handleWithPerson (ctx : SolverCtx) (st : SolverState)
    (sid otherSid room : String) : Option (SolveStep × SolverState) :=
  let cands := st.candidates sid
  let kept1 := cands.filter (fun k => ctx.roomOf k = some room)
  let eliminated1 := cands.filter (fun k => ¬(ctx.roomOf k = some room))
  let st1 : SolverState := { st with candidates := fun s =>
    if s = sid then kept1 else st.candidates s }
  let otherCands := st1.candidates otherSid
  let kept2 := otherCands.filter (fun k => ctx.roomOf k = some room)
  let eliminated2 := otherCands.filter (fun k => ¬(ctx.roomOf k = some room))
  if eliminated1.length > 0 ∨ eliminated2.length > 0 then
    let st2 : SolverState := { st1 with candidates := fun s =>
      if s = otherSid then kept2 else st1.candidates s }
    let step : SolveStep :=
      { technique := "withPersonElimination", suspectId := sid,
        message := s!"💡 {ctx.nameOf sid} must be with {ctx.nameOf otherSid} in the {roomNameOf ctx.puzzle room}.",
        highlightCells := st2.candidates sid,
        eliminatedCells := eliminated1 ++ eliminated2 }
    some (step, propagateBasic ctx { st2 with steps := st2.steps ++ [step] })
  else none

/-- Minimum defined track position over a candidate list (`Infinity` start
modelled as `none`). -/
def minTrackPos (tp : String → Option Int) (cands : List String) : Option Int :=
  cands.foldl (fun m k =>
    match tp k, m with
    | some p, some m0 => if p < m0 then some p else some m0
    | some p, none => some p
    | none, m0 => m0) none

/-- Maximum defined track position over a candidate list (`-Infinity` start
modelled as `none`). -/
def maxTrackPos (tp : String → Option Int) (cands : List String) : Option Int :=
  cands.foldl (fun m k =>
    match tp k, m with
    | some p, some m0 => if p > m0 then some p else some m0
    | some p, none => some p
    | none, m0 => m0) none

/-- `_handleAheadOfConstraint`.  A key is eliminated from the ahead suspect
when its position is `≤` the behind suspect's minimum possible position
(`≤ Infinity`, i.e. always, when the behind suspect has no positioned
candidate), and symmetrically for the behind suspect against the ahead
suspect's maximum. -/
def handleAheadOf (ctx : SolverCtx) (st : SolverState)
    (sid behindSid : String) : Option (SolveStep × SolverState) :=
  match ctx.puzzle.trackPositions with
  | none => none
  | some tps =>
    let tp := fun k => alGet tps k
    let myCands := st.candidates sid
    let otherCands0 := st.candidates behindSid
    let minBehind := minTrackPos tp otherCands0
    let elimMine : String → Bool := fun k =>
      match tp k with
      | some pos => match minBehind with
        | none => true
        | some m => pos ≤ m
      | none => false
    let kept1 := myCands.filter (fun k => ¬(elimMine k))
    let eliminated1 := myCands.filter elimMine
    let st1 : SolverState := { st with candidates := fun s =>
      if s = sid then kept1 else st.candidates s }
    let maxAhead := maxTrackPos tp (st1.candidates sid)
    let otherCands := st1.candidates behindSid
    let elimOther : String → Bool := fun k =>
      match tp k with
      | some pos => match maxAhead with
        | none => true
        | some m => pos ≥ m
      | none => false
    let kept2 := otherCands.filter (fun k => ¬(elimOther k))
    let eliminated2 := otherCands.filter elimOther
    if eliminated1.length > 0 ∨ eliminated2.length > 0 then
      let st2 : SolverState := { st1 with candidates := fun s =>
        if s = behindSid then kept2 else st1.candidates s }
      let step : SolveStep :=
        { technique := "aheadOfElimination", suspectId := sid,
          message := s!"💡 {ctx.nameOf sid} must be ahead of {ctx.nameOf behindSid} on the track. Eliminated {eliminated1.length + eliminated2.length} position(s).",
          highlightCells := st2.candidates sid,
          eliminatedCells := eliminated1 ++ eliminated2 }
      some (step, propagateBasic ctx { st2 with steps := st2.steps ++ [step] })
    else none

/-- `_handleVictimConstraint`: eliminate candidate rooms where the victim
would be alone (`canBeInRoom = 0`) or where two or more other suspects are
forced in (`forcedInRoom ≥ 2`). -/
def handleVictim (ctx : SolverCtx) (st : SolverState) (sid : String) :
    Option (SolveStep × SolverState) :=
  let cands := st.candidates sid
  let keepCand := fun k =>
    match ctx.roomOf k with
    | none => true
    | some room =>
      if room = "" then true
      else
        let counts := ctx.suspectIds.foldl (fun (acc : Nat × Nat) otherSid =>
          if otherSid = sid then acc
          else match st.placed otherSid with
            | some pk =>
              if ctx.roomOf pk = some room then (acc.1 + 1, acc.2 + 1) else acc
            | none =>
              let otherCands := st.candidates otherSid
              let hasInRoom := otherCands.any (fun k2 =>
                ctx.roomOf k2 = some room)
              let hasOutside := otherCands.any (fun k2 =>
                ¬(ctx.roomOf k2 = some room))
              let acc := if hasInRoom then (acc.1 + 1, acc.2) else acc
              if hasInRoom ∧ ¬hasOutside ∧ otherCands.length > 0 then
                (acc.1, acc.2 + 1)
              else acc) (0, 0)
        ¬(counts.1 = 0 ∨ counts.2 ≥ 2)
  let kept := cands.filter keepCand
  let eliminated := cands.filter (fun k => ¬(keepCand k))
  if eliminated.length > 0 then
    let st1 : SolverState := { st with candidates := fun s =>
      if s = sid then kept else st.candidates s }
    let step : SolveStep :=
      { technique := "victimElimination", suspectId := sid,
        message := s!"💡 {ctx.nameOf sid} was alone with the murderer. Eliminated {eliminated.length} cell(s) from rooms where this is impossible.",
        highlightCells := kept, eliminatedCells := eliminated }
    some (step, propagateBasic ctx { st1 with steps := st1.steps ++ [step] })
  else none

/-- The occupiable cells of one type, grouped by room
(`typeCellsByRoom` in `_handleInRoomWithPersonOnCellType`). -/
def typeCellsByRoom (board : Board) (cellType : String) :
    List (String × List String) :=
  (alGetD board.typeCells cellType []).foldl (fun m key =>
    match alGet board.cellInfo key with
    | none => m
    | some info =>
      if board.occupiableCells.contains key then
        mapSet m info.room (addUnique (alGetD m info.room []) key)
      else m) []

/-- `_handleInRoomWithPersonOnCellType`. -/
def handleInRoomWithPersonOnCellType (ctx : SolverCtx) (st : SolverState)
    (sid gender cellType : String) : Option (SolveStep × SolverState) :=
  let byRoom := typeCellsByRoom ctx.board cellType
  let genderSuspects := ctx.suspectIds.filter (fun s =>
    s ≠ sid ∧ ctx.genderOf s = some gender)
  let cands := st.candidates sid
  let keepCand := fun k =>
    match ctx.roomOf k with
    | none => true
    | some room =>
      if room = "" then true
      else match alGet byRoom room with
        | none => false
        | some roomTypeCells =>
          if roomTypeCells.isEmpty then false
          else genderSuspects.any (fun gs =>
            match st.placed gs with
            | some pk => roomTypeCells.contains pk
            | none => (st.candidates gs).any (fun k2 =>
                roomTypeCells.contains k2))
  let kept := cands.filter keepCand
  let eliminated := cands.filter (fun k => ¬(keepCand k))
  if eliminated.length > 0 then
    let st1 : SolverState := { st with candidates := fun s =>
      if s = sid then kept else st.candidates s }
    let step : SolveStep :=
      { technique := "inRoomWithPersonOnCellType", suspectId := sid,
        message := s!"💡 {ctx.nameOf sid} must be in a room where a {gender} is on a {cellType}. Eliminated {eliminated.length} cell(s).",
        highlightCells := kept, eliminatedCells := eliminated }
    some (step, propagateBasic ctx { st1 with steps := st1.steps ++ [step] })
  else none

/-- The occupiable cells beside one type, grouped by the type cell's room
(`besideCellsByRoom` in `_handleInRoomWithPersonBesideCellType`; the target
cells themselves need not be occupiable). -/
def besideCellsByRoom (board : Board) (cellType : String) :
    List (String × List String) :=
  (alGetD board.typeCells cellType []).foldl (fun m targetKey =>
    match alGet board.cellInfo targetKey with
    | none => m
    | some targetInfo =>
      directions.foldl (fun m d =>
        let nr : Int := (targetInfo.row : Int) + d.1
        let nc : Int := (targetInfo.col : Int) + d.2
        if nr < 0 ∨ nr ≥ (board.rows : Int) ∨ nc < 0 ∨ nc ≥ (board.cols : Int) then m
        else
          let nKey := createCellKey nr.toNat nc.toNat
          match alGet board.cellInfo nKey with
          | none => m
          | some nInfo =>
            if nInfo.room = targetInfo.room ∧
                board.occupiableCells.contains nKey then
              mapSet m targetInfo.room
                (addUnique (alGetD m targetInfo.room []) nKey)
            else m) m) []

/-- `_handleInRoomWithPersonBesideCellType`. -/
def handleInRoomWithPersonBesideCellType (ctx : SolverCtx) (st : SolverState)
    (sid cellType : String) : Option (SolveStep × SolverState) :=
  let byRoom := besideCellsByRoom ctx.board cellType
  let cands := st.candidates sid
  let keepCand := fun k =>
    match ctx.roomOf k with
    | none => true
    | some room =>
      if room = "" then true
      else match alGet byRoom room with
        | none => false
        | some roomBesideCells =>
          if roomBesideCells.isEmpty then false
          else ctx.suspectIds.any (fun otherSid =>
            if otherSid = sid then false
            else match st.placed otherSid with
              | some pk => roomBesideCells.contains pk
              | none => (st.candidates otherSid).any (fun k2 =>
                  roomBesideCells.contains k2))
  let kept := cands.filter keepCand
  let eliminated := cands.filter (fun k => ¬(keepCand k))
  if eliminated.length > 0 then
    let st1 : SolverState := { st with candidates := fun s =>
      if s = sid then kept else st.candidates s }
    let step : SolveStep :=
      { technique := "inRoomWithPersonBesideCellType", suspectId := sid,
        message := s!"💡 {ctx.nameOf sid} must be in a room where someone is beside a {cellType}. Eliminated {eliminated.length} cell(s).",
        highlightCells := kept, eliminatedCells := eliminated }
    some (step, propagateBasic ctx { st1 with steps := st1.steps ++ [step] })
  else none

/-- The `switch` of `_applyRoomConstraints`. -/
def roomConstraintResult (ctx : SolverCtx) (st : SolverState) (sid : String) :
    Constraint → Option (SolveStep × SolverState)
  | .alone => handleAlone ctx st sid
  | .aloneWith other => handleAloneWith ctx st sid other
  | .aloneWithGender g => handleAloneWithGender ctx st sid g
  | .withPerson other room => handleWithPerson ctx st sid other room
  | .aheadOf other => handleAheadOf ctx st sid other
  | .victim => handleVictim ctx st sid
  | .inRoomWithPersonOnCellType g t =>
    handleInRoomWithPersonOnCellType ctx st sid g t
  | .inRoomWithPersonBesideCellType t =>
    handleInRoomWithPersonBesideCellType ctx st sid t
  | _ => none

/-- The suspect loop of `_applyRoomConstraints`. -/
def applyRoomConstraintsAux (ctx : SolverCtx) (st : SolverState) :
    List String → Option (SolveStep × SolverState)
  | [] => none
  | sid :: rest =>
    if (st.placed sid).isSome then applyRoomConstraintsAux ctx st rest
    else
      match (ctx.constraintsOf sid).firstM (roomConstraintResult ctx st sid) with
      | some r => some r
      | none => applyRoomConstraintsAux ctx st rest

/-- `_applyRoomConstraints()`. -/
def applyRoomConstraints (ctx : SolverCtx) (st : SolverState) :
    Option (SolveStep × SolverState) :=
  applyRoomConstraintsAux ctx st ctx.suspectIds

/-! ## Technique 5: only person on cell type (`_applyOnlyPersonConstraint`) -/

/-- The elimination loop for one `onlyPersonOnCellType` constraint: delete
the type's cells from every other unplaced suspect not itself required to be
on that type. -/
def onlyPersonEliminate (ctx : SolverCtx) (st : SolverState) (sid : String)
    (cellType : String) : SolverState × Nat :=
  ctx.suspectIds.foldl (fun acc otherSid =>
    if otherSid = sid ∨ (acc.1.placed otherSid).isSome then acc
    else
      let requiresType := (ctx.constraintsOf otherSid).any (fun c =>
        match c with
        | .onCellType t => t = cellType
        | _ => false)
      if requiresType then acc
      else
        let onType : String → Bool := fun k =>
          match alGet ctx.board.cellInfo k with
          | some info => info.type = cellType
          | none => false
        let otherCands := acc.1.candidates otherSid
        let removed := otherCands.filter onType
        let kept := otherCands.filter (fun k => ¬(onType k))
        ({ acc.1 with candidates := fun s =>
            if s = otherSid then kept else acc.1.candidates s },
          acc.2 + removed.length)) (st, 0)

/-- The constraint loop body of `_applyOnlyPersonConstraint` for one
suspect. -/
def onlyPersonForConstraint (ctx : SolverCtx) (st : SolverState)
    (sid : String) : Constraint → Option (SolveStep × SolverState)
  | .onlyPersonOnCellType cellType =>
    let r := onlyPersonEliminate ctx st sid cellType
    if r.2 > 0 then
      let step : SolveStep :=
        { technique := "onlyPersonOnType", suspectId := sid,
          message := s!"💡 {ctx.nameOf sid} is the only person allowed on a {cellType}. Eliminated {r.2} {cellType} cell(s) from other suspects.",
          highlightCells := r.1.candidates sid }
      some (step, propagateBasic ctx { r.1 with steps := r.1.steps ++ [step] })
    else none
  | _ => none

/-- The suspect loop of `_applyOnlyPersonConstraint`. -/
def applyOnlyPersonAux (ctx : SolverCtx) (st : SolverState) :
    List String → Option (SolveStep × SolverState)
  | [] => none
  | sid :: rest =>
    if (st.placed sid).isSome then applyOnlyPersonAux ctx st rest
    else
      match (ctx.constraintsOf sid).firstM
          (onlyPersonForConstraint ctx st sid) with
      | some r => some r
      | none => applyOnlyPersonAux ctx st rest

/-- `_applyOnlyPersonConstraint()`. -/
def applyOnlyPersonConstraint (ctx : SolverCtx) (st : SolverState) :
    Option (SolveStep × SolverState) :=
  applyOnlyPersonAux ctx st ctx.suspectIds

/-! ## Technique 6: relative row (`_applyRelativeRowConstraint`) -/

/-- The body of `_applyRelativeRowConstraint` for one `relativeRow`
constraint of one suspect. -/
def relativeRowForConstraint (ctx : SolverCtx) (st : SolverState)
    (sid : String) : Constraint → Option (SolveStep × SolverState)
  | .relativeRow otherSid offset =>
    let mkStep := fun (stFinal : SolverState) (eliminated : List String) =>
      let dir := if offset < 0 then "north" else "south"
      let step : SolveStep :=
        { technique := "relativeRowElimination", suspectId := sid,
          message := s!"💡 {ctx.nameOf sid} must be {offset.natAbs} row(s) {dir} of {ctx.nameOf otherSid}. Eliminated incompatible positions.",
          highlightCells := stFinal.candidates sid,
          eliminatedCells := eliminated }
      some (step, propagateBasic ctx
        { stFinal with steps := stFinal.steps ++ [step] })
    match st.placed otherSid with
    | some otherKey =>
      let targetRow : Int := ((parseKey otherKey).1 : Int) + offset
      let myCands := st.candidates sid
      let kept := myCands.filter (fun k => ((parseKey k).1 : Int) = targetRow)
      let eliminated := myCands.filter (fun k =>
        ¬(((parseKey k).1 : Int) = targetRow))
      if eliminated.length > 0 then
        let st1 : SolverState := { st with candidates := fun s =>
          if s = sid then kept else st.candidates s }
        mkStep st1 eliminated
      else none
    | none =>
      let myCands := st.candidates sid
      let validRows := (st.candidates otherSid).map (fun k =>
        ((parseKey k).1 : Int) + offset)
      let kept1 := myCands.filter (fun k =>
        validRows.contains ((parseKey k).1 : Int))
      let eliminated1 := myCands.filter (fun k =>
        ¬(validRows.contains ((parseKey k).1 : Int)))
      let st1 : SolverState := { st with candidates := fun s =>
        if s = sid then kept1 else st.candidates s }
      let myValidRows := (st1.candidates sid).map (fun k =>
        ((parseKey k).1 : Int) - offset)
      let otherCands := st1.candidates otherSid
      let kept2 := otherCands.filter (fun k =>
        myValidRows.contains ((parseKey k).1 : Int))
      let eliminated2 := otherCands.filter (fun k =>
        ¬(myValidRows.contains ((parseKey k).1 : Int)))
      let eliminated := eliminated1 ++ eliminated2
      if eliminated.length > 0 then
        let st2 : SolverState := { st1 with candidates := fun s =>
          if s = otherSid then kept2 else st1.candidates s }
        mkStep st2 eliminated
      else none
  | _ => none

/-- The suspect loop of `_applyRelativeRowConstraint`. -/
def applyRelativeRowAux (ctx : SolverCtx) (st : SolverState) :
    List String → Option (SolveStep × SolverState)
  | [] => none
  | sid :: rest =>
    if (st.placed sid).isSome then applyRelativeRowAux ctx st rest
    else
      match (ctx.constraintsOf sid).firstM
          (relativeRowForConstraint ctx st sid) with
      | some r => some r
      | none => applyRelativeRowAux ctx st rest

/-- `_applyRelativeRowConstraint()`. -/
def applyRelativeRowConstraint (ctx : SolverCtx) (st : SolverState) :
    Option (SolveStep × SolverState) :=
  applyRelativeRowAux ctx st ctx.suspectIds

/-! ## Technique 7: pointing group (`_findPointingGroup`) -/

/-- Group a candidate list by room (`byRoom`), keyed by the optional room of
each key, in insertion order. -/
def candsByRoom (ctx : SolverCtx) (cands : List String) :
    List (Option String × List String) :=
  cands.foldl (fun m k =>
    let room := ctx.roomOf k
    mapSet m room (alGetD m room [] ++ [k])) []

/-- The per-room body of `_findPointingGroup` for one suspect: try the
shared-row elimination, then the shared-column elimination. -/
def pointingForRoom (ctx : SolverCtx) (st : SolverState) (sid : String)
    (room : Option String) (roomKeys : List String) :
    Option (SolveStep × SolverState) :=
  if roomKeys.length < 2 then none
  else
    let cands := st.candidates sid
    let rowResult :=
      match roomKeys with
      | [] => none
      | k0 :: ks =>
        let sharedRow := (parseKey k0).1
        if ks.all (fun k => (parseKey k).1 = sharedRow) then
          let elim : String → Bool := fun k =>
            (parseKey k).1 = sharedRow ∧ ¬(ctx.roomOf k = room)
          let eliminated := cands.filter elim
          if eliminated.length > 0 then
            let kept := cands.filter (fun k => ¬(elim k))
            let st1 : SolverState := { st with candidates := fun s =>
              if s = sid then kept else st.candidates s }
            let step : SolveStep :=
              { technique := "pointingRow", suspectId := sid,
                message := s!"💡 {ctx.nameOf sid}'s candidates in the {roomDisplay ctx.puzzle room} are all in row {sharedRow + 1}. Eliminated from other rooms in that row.",
                highlightCells := roomKeys, eliminatedCells := eliminated }
            some (step, propagateBasic ctx
              { st1 with steps := st1.steps ++ [step] })
          else none
        else none
    match rowResult with
    | some r => some r
    | none =>
      match roomKeys with
      | [] => none
      | k0 :: ks =>
        let sharedCol := (parseKey k0).2
        if ks.all (fun k => (parseKey k).2 = sharedCol) then
          let elim : String → Bool := fun k =>
            (parseKey k).2 = sharedCol ∧ ¬(ctx.roomOf k = room)
          let eliminated := cands.filter elim
          if eliminated.length > 0 then
            let kept := cands.filter (fun k => ¬(elim k))
            let st1 : SolverState := { st with candidates := fun s =>
              if s = sid then kept else st.candidates s }
            let step : SolveStep :=
              { technique := "pointingCol", suspectId := sid,
                message := s!"💡 {ctx.nameOf sid}'s candidates in the {roomDisplay ctx.puzzle room} are all in column {sharedCol + 1}. Eliminated from other rooms in that column.",
                highlightCells := roomKeys, eliminatedCells := eliminated }
            some (step, propagateBasic ctx
              { st1 with steps := st1.steps ++ [step] })
          else none
        else none

/-- The suspect loop of `_findPointingGroup`. -/
def findPointingGroupAux (ctx : SolverCtx) (st : SolverState) :
    List String → Option (SolveStep × SolverState)
  | [] => none
  | sid :: rest =>
    if (st.placed sid).isSome ∨ (st.candidates sid).length ≤ 1 then
      findPointingGroupAux ctx st rest
    else
      let byRoom := candsByRoom ctx (st.candidates sid)
      match byRoom.firstM (fun p => pointingForRoom ctx st sid p.1 p.2) with
      | some r => some r
      | none => findPointingGroupAux ctx st rest

/-- `_findPointingGroup()`. -/
def findPointingGroup (ctx : SolverCtx) (st : SolverState) :
    Option (SolveStep × SolverState) :=
  findPointingGroupAux ctx st ctx.suspectIds

/-! ## Contradiction test (`_hasContradiction`) -/

/-- `_hasContradiction()`: an unplaced suspect with no candidates, or an
unfilled row or column in which no unplaced suspect has a candidate. -/
def hasContradiction (ctx : SolverCtx) (st : SolverState) : Bool :=
  let zeroCand := ctx.suspectIds.any (fun sid =>
    (st.placed sid).isNone ∧ (st.candidates sid).isEmpty)
  let placedKeys := ctx.suspectIds.filterMap (fun sid => st.placed sid)
  let filledRows := placedKeys.map (fun k => (parseKey k).1)
  let filledCols := placedKeys.map (fun k => (parseKey k).2)
  let orphanRow := (List.range ctx.board.rows).any (fun r =>
    ¬(filledRows.contains r) ∧
      ¬(ctx.suspectIds.any (fun sid =>
        (st.placed sid).isNone ∧
          (st.candidates sid).any (fun k => (parseKey k).1 = r))))
  let orphanCol := (List.range ctx.board.cols).any (fun c =>
    ¬(filledCols.contains c) ∧
      ¬(ctx.suspectIds.any (fun sid =>
        (st.placed sid).isNone ∧
          (st.candidates sid).any (fun k => (parseKey k).2 = c))))
  zeroCand || orphanRow || orphanCol

/-! ## Technique 8: hypothetical testing (`_findByContradiction`,
`_leadsToContradiction`, `_findByContradictionAtDepth`)

`_leadsToContradiction` snapshots the candidate map (deep, every entry),
the placed map and the step-log length, runs techniques on the tentative
placement, and restores all three.  The snapshot covers every key of both
maps and the run introduces no new keys, so the functional translation
restores the exact `candidates` and `placed` of the input state and
truncates the step log to its saved length.

The `depth` parameter strictly decreases along
`_leadsToContradiction(·,·,d) → _findByContradictionAtDepth(d−1) →
_leadsToContradiction(·,·,d−1)`, so the family is defined by recursion on
`depth`, with the nested tester passed as a closure. -/

/-- The technique chain run inside `_leadsToContradiction`'s `while` loop
(room constraints first). -/
def hypoChain (ctx : SolverCtx) (st : SolverState) :
    Option (SolveStep × SolverState) :=
  applyRoomConstraints ctx st <|>
  applyOnlyPersonConstraint ctx st <|>
  applyRelativeRowConstraint ctx st <|>
  findNakedSingle ctx st <|>
  findRowSingle ctx st <|>
  findColSingle ctx st <|>
  findRowClaiming ctx st <|>
  findColClaiming ctx st <|>
  findNakedRowSet ctx st <|>
  findNakedColSet ctx st <|>
  findPointingGroup ctx st

/-- The `while (!contradiction && safety-- > 0)` loop of
`_leadsToContradiction`; `nested` is the depth-limited contradiction search
tried when the chain makes no progress. -/
def leadsLoopWith (ctx : SolverCtx)
    (nested : Option (SolverState → Option (SolveStep × SolverState))) :
    Nat → SolverState → Bool × SolverState
  | 0, st => (false, st)
  | fuel + 1, st =>
    if hasContradiction ctx st then (true, st)
    else
      let step :=
        match hypoChain ctx st with
        | some r => some r
        | none =>
          match nested with
          | some f => f st
          | none => none
      match step with
      | some r => leadsLoopWith ctx nested fuel r.2
      | none => (false, st)

/-- `_leadsToContradiction(sid, cellKey, depth)` minus the recursive nested
search: snapshot, tentative placement, technique runs, final check,
restore. -/
def leadsCore (ctx : SolverCtx)
    (nested : Option (SolverState → Option (SolveStep × SolverState)))
    (st : SolverState) (sid cellKey : String) : Bool × SolverState :=
  let savedSteps := st.steps.length
  let st1 := placeSuspectNR st sid cellKey
  let r := leadsLoopWith ctx nested 100 st1
  let contradiction := r.1 || hasContradiction ctx r.2
  (contradiction,
    { candidates := st.candidates, placed := st.placed,
      steps := r.2.steps.take savedSteps })

/-- The inner `for (const testKey of testKeys)` loop, threading the state
returned by each test and collecting the keys that lead to contradiction. -/
def testKeysWith
    (tester : SolverState → String → String → Bool × SolverState)
    (testSid : String) :
    List String → SolverState → List String → SolverState × List String
  | [], st, elim => (st, elim)
  | k :: rest, st, elim =>
    let r := tester st testSid k
    testKeysWith tester testSid rest r.2
      (if r.1 then elim ++ [k] else elim)

/-- The suspect loop of `_findByContradictionAtDepth` (with its
`size > 6` search-space break). -/
def atDepthSuspectsWith (ctx : SolverCtx)
    (tester : SolverState → String → String → Bool × SolverState) :
    List String → SolverState → Option (SolveStep × SolverState)
  | [], _ => none
  | testSid :: rest, st =>
    if (st.candidates testSid).length > 6 then none
    else
      let r := testKeysWith tester testSid (st.candidates testSid) st []
      if r.2.isEmpty then atDepthSuspectsWith ctx tester rest r.1
      else
        let eliminated := r.2
        let cands := (r.1.candidates testSid).filter (fun k =>
          ¬(eliminated.contains k))
        let st1 : SolverState := { r.1 with candidates := fun s =>
          if s = testSid then cands else r.1.candidates s }
        let step : SolveStep :=
          { technique := "contradiction", suspectId := testSid,
            message := s!"💡 Deep testing for {ctx.nameOf testSid}: eliminated {eliminated.length} cell(s).",
            highlightCells := cands, eliminatedCells := eliminated }
        some (step, propagateBasic ctx
          { st1 with steps := st1.steps ++ [step] })

/-- `_findByContradictionAtDepth(depth)` given the tester for that depth. -/
def findByContradictionAtDepthWith (ctx : SolverCtx)
    (tester : SolverState → String → String → Bool × SolverState)
    (st : SolverState) : Option (SolveStep × SolverState) :=
  let sorted := sortByKey (fun sid => ((st.candidates sid).length : Int))
    (ctx.suspectIds.filter (fun sid =>
      (st.placed sid).isNone ∧ (st.candidates sid).length > 1))
  atDepthSuspectsWith ctx tester sorted st

/-- `_leadsToContradiction(sid, cellKey, depth)`, by recursion on `depth`. -/
def leadsToContradiction (ctx : SolverCtx) :
    Nat → SolverState → String → String → Bool × SolverState
  | 0, st, sid, key => leadsCore ctx none st sid key
  | d + 1, st, sid, key =>
    leadsCore ctx
      (some (findByContradictionAtDepthWith ctx (leadsToContradiction ctx d)))
      st sid key

/-- The suspect loop of `_findByContradiction` (no search-space break). -/
def topContradictionSuspects (ctx : SolverCtx)
    (tester : SolverState → String → String → Bool × SolverState) :
    List String → SolverState → Option (SolveStep × SolverState)
  | [], _ => none
  | testSid :: rest, st =>
    let r := testKeysWith tester testSid (st.candidates testSid) st []
    if r.2.isEmpty then topContradictionSuspects ctx tester rest r.1
    else
      let eliminated := r.2
      let cands := (r.1.candidates testSid).filter (fun k =>
        ¬(eliminated.contains k))
      let st1 : SolverState := { r.1 with candidates := fun s =>
        if s = testSid then cands else r.1.candidates s }
      let step : SolveStep :=
        { technique := "contradiction", suspectId := testSid,
          message := s!"💡 By testing possibilities for {ctx.nameOf testSid}, eliminated {eliminated.length} cell(s) that lead to contradictions.",
          highlightCells := cands, eliminatedCells := eliminated }
      some (step, propagateBasic ctx
        { st1 with steps := st1.steps ++ [step] })

/-- `_findByContradiction()` (the tentative tests run at `depth = 1`). -/
def findByContradiction (ctx : SolverCtx) (st : SolverState) :
    Option (SolveStep × SolverState) :=
  let sorted := sortByKey (fun sid => ((st.candidates sid).length : Int))
    (ctx.suspectIds.filter (fun sid =>
      (st.placed sid).isNone ∧ (st.candidates sid).length > 1))
  topContradictionSuspects ctx (leadsToContradiction ctx 1) sorted st

/-! ## The step pipeline (`solveStep`, `solve`) -/

/-- `solveStep()`: the fixed-order technique pipeline, first progress wins. -/
def solveStep (ctx : SolverCtx) (st : SolverState) :
    Option (SolveStep × SolverState) :=
  findNakedSingle ctx st <|>
  findRowSingle ctx st <|>
  findColSingle ctx st <|>
  findRowClaiming ctx st <|>
  findColClaiming ctx st <|>
  findNakedRowSet ctx st <|>
  findNakedColSet ctx st <|>
  applyRoomConstraints ctx st <|>
  applyOnlyPersonConstraint ctx st <|>
  applyRelativeRowConstraint ctx st <|>
  findPointingGroup ctx st <|>
  findByContradiction ctx st

/-- The `while` loop of `solve()` (`maxIterations = 200`). -/
def solveAux (ctx : SolverCtx) : Nat → SolverState → SolverState
  | 0, st => st
  | fuel + 1, st =>
    if isSolved ctx st then st
    else
      match solveStep ctx st with
      | some r => solveAux ctx fuel r.2
      | none => st

/-- `solve()`: run `solveStep` to completion or stall. -/
def solve (ctx : SolverCtx) (st : SolverState) : SolverState :=
  solveAux ctx 200 st

/-! ## Hint engine (`src/engine/hintEngine.js`) -/

/-- A hint envelope (`HintResult`). -/
structure HintResult where
  message : String
  highlightCells : List String
  suspect : Option String := none
  action : Option String := none
deriving DecidableEq, Repr

/-- JS truthiness of an optional string (`undefined` and `""` are falsy). -/
def strTruthy : Option String → Bool
  | some s => s ≠ ""
  | none => false

/-- `_filterByTarget(candidates, target, solver)` (the solver argument is
only used for its board). -/
def filterByTarget (candidates : List String) (target : Option Target)
    (board : Board) : List String :=
  match target with
  | none => candidates
  | some (.room tr) =>
    match alGet board.roomCells tr with
    | none => candidates
    | some roomCells =>
      candidates.foldl (fun result key =>
        if roomCells.contains key then addUnique result key else result) []
  | some (.rooms trs) =>
    candidates.foldl (fun result key =>
      match alGet board.cellInfo key with
      | some info =>
        if trs.contains info.room then addUnique result key else result
      | none => result) []
  | some (.cellType tt troom) =>
    candidates.foldl (fun result key =>
      match alGet board.cellInfo key with
      | some info =>
        if info.type = tt then
          if strTruthy troom ∧ ¬(some info.room = troom) then result
          else addUnique result key
        else result
      | none => result) []
  | some (.adjacentTo tt) =>
    let besideCells := getCellsBesideType board tt
    candidates.foldl (fun result key =>
      if besideCells.contains key then addUnique result key else result) []
  | some (.row tr) =>
    candidates.foldl (fun result key =>
      match alGet board.cellInfo key with
      | some info => if info.row = tr then addUnique result key else result
      | none => result) []
  | some .any => candidates

/-- `_checkRoomBlocking(hint, solver, puzzle)`: blocked and available room
names of the suspect's `inRooms` constraint, joined with `", "`. -/
def checkRoomBlocking (hint : CuratedHint) (board : Board)
    (solvedSt : SolverState) (puzzle : Puzzle) : Option (String × String) :=
  match puzzle.suspects.find? (fun s => s.id = hint.suspect) with
  | none => none
  | some suspect =>
    match suspect.constraints.find? (fun c =>
        match c with | .inRooms _ => true | _ => false) with
    | some (.inRooms rooms) =>
      let candidates := solvedSt.candidates hint.suspect
      let candidateRooms := candidates.foldl (fun acc k =>
        match alGet board.cellInfo k with
        | some info =>
          if acc.contains info.room then acc else acc ++ [info.room]
        | none => acc) []
      let blocked := (rooms.filter (fun room =>
        ¬(candidateRooms.contains room))).map (roomNameOf puzzle)
      let available := (rooms.filter (fun room =>
        candidateRooms.contains room)).map (roomNameOf puzzle)
      if blocked.length > 0 ∧ available.length > 0 then
        some (String.intercalate ", " blocked,
          String.intercalate ", " available)
      else none
    | _ => none

/-- The hint loop of `_findCuratedHint`, over the order-sorted hint list. -/
def findCuratedHintAux (puzzle : Puzzle) (board : Board)
    (rawSt solvedSt : SolverState) (placedIds : List String) :
    List CuratedHint → Option HintResult
  | [] => none
  | hint :: rest =>
    if placedIds.contains hint.suspect then
      findCuratedHintAux puzzle board rawSt solvedSt placedIds rest
    else if ¬(hint.prerequisites.all (fun p => placedIds.contains p)) then
      findCuratedHintAux puzzle board rawSt solvedSt placedIds rest
    else
      let solvedCandidates := solvedSt.candidates hint.suspect
      if solvedCandidates.isEmpty then
        findCuratedHintAux puzzle board rawSt solvedSt placedIds rest
      else
        let candidates := filterByTarget solvedCandidates hint.target board
        if candidates.isEmpty then
          findCuratedHintAux puzzle board rawSt solvedSt placedIds rest
        else
          let skip : Bool :=
            match hint.skipIfMoreThan with
            | some n =>
              -- `if (hint.skipIfMoreThan)`: 0 is falsy and disables the check
              n ≠ 0 ∧
                (filterByTarget (rawSt.candidates hint.suspect) hint.target
                  board).length > n
            | none => false
          if skip then
            findCuratedHintAux puzzle board rawSt solvedSt placedIds rest
          else
            let rawFiltered := filterByTarget (rawSt.candidates hint.suspect)
              hint.target board
            let isSingle := rawFiltered.length ≤ 1
            let message0 :=
              if isSingle ∧ strTruthy hint.messages.single then
                hint.messages.single.getD ""
              else if ¬isSingle ∧ strTruthy hint.messages.multiple then
                hint.messages.multiple.getD ""
              else if strTruthy hint.messages.single then
                hint.messages.single.getD ""
              else hint.messages.multiple.getD ""
            let message :=
              if ¬isSingle ∧ strTruthy hint.messages.roomBlocked then
                match checkRoomBlocking hint board solvedSt puzzle with
                | some (blocked, available) =>
                  (((hint.messages.roomBlocked.getD "").replace
                    "{blockedRooms}" blocked).replace
                    "{availableRoom}" available)
                | none => message0
              else message0
            some { message := message, highlightCells := candidates,
                   suspect := some hint.suspect,
                   action := some (if candidates.length = 1 ∧ isSingle
                     then "place" else "eliminate") }

/-- `_findCuratedHint(puzzle, rawSolver, solvedSolver, placedIds)`. -/
def findCuratedHint (puzzle : Puzzle) (board : Board)
    (rawSt solvedSt : SolverState) (placedIds : List String) :
    Option HintResult :=
  let sortedHints := sortByKey (fun h => h.order) puzzle.hints
  findCuratedHintAux puzzle board rawSt solvedSt placedIds sortedHints

/-- `_fallbackHint(puzzle, solver)`: the unplaced suspect with the fewest
(nonzero) candidates, echoing its clue. -/
def fallbackHint (puzzle : Puzzle) (st : SolverState) : HintResult :=
  let best := puzzle.suspects.foldl
    (fun (acc : Option (String × Nat × List String)) s =>
      if (st.placed s.id).isSome then acc
      else
        let cands := st.candidates s.id
        let better : Bool :=
          match acc with
          | none => cands.length > 0
          | some (_, c, _) => cands.length < c ∧ cands.length > 0
        if better then some (s.id, cands.length, cands) else acc) none
  match best with
  | some (bestSid, bestCount, bestCands) =>
    let name := suspectNameIn puzzle bestSid
    let clue := ((puzzle.suspects.find? (fun s => s.id = bestSid)).map
      (·.clue)).getD ""
    if bestCount ≤ 3 then
      let plural := if bestCount > 1 then "s" else ""
      { message := s!"💡 {name} has only {bestCount} possible position{plural}. Clue: \"{clue}\"",
        highlightCells := bestCands, suspect := some bestSid }
    else
      { message := s!"💡 Consider {name}'s clue: \"{clue}\" — they have {bestCount} possible positions remaining.",
        highlightCells := bestCands, suspect := some bestSid }
  | none =>
    { message := "💡 Try examining the clues more carefully and look for suspects with limited options.",
      highlightCells := [] }

/-- `getNextHint(puzzle, placements)`. -/
def getNextHint (puzzle : Puzzle) (placements : List (String × String)) :
    HintResult :=
  if placements.length ≥ puzzle.suspects.length then
    { message := "🎉 All suspects are placed! Try checking your solution.",
      highlightCells := [] }
  else
    let ctx := mkSolverCtx puzzle
    let rawSt := solverInit ctx placements
    let solvedSt := solve ctx (solverInit ctx placements)
    let placedIds := placements.map (·.2)
    let curated :=
      if puzzle.hints.length > 0 then
        findCuratedHint puzzle ctx.board rawSt solvedSt placedIds
      else none
    match curated with
    | some r => r
    | none =>
      match solveStep ctx rawSt with
      | some (step, _) =>
        { message := step.message, highlightCells := step.highlightCells,
          suspect := some step.suspectId,
          action := some (if step.cellKey.isSome then "place"
            else "eliminate") }
      | none => fallbackHint puzzle rawSt

/-- The eligibility test `_findCuratedHint` applies to each hint of the
order-sorted list: suspect unplaced, prerequisites placed, target-filtered
solved candidates non-empty, and the `skipIfMoreThan` check (skipped when
the bound is `0`, JS falsy) not firing. -/
def curatedEligible (board : Board) (rawSt solvedSt : SolverState)
    (placedIds : List String) (hint : CuratedHint) : Bool :=
  !(placedIds.contains hint.suspect) &&
  hint.prerequisites.all (fun p => placedIds.contains p) &&
  !(filterByTarget (solvedSt.candidates hint.suspect) hint.target
      board).isEmpty &&
  !(match hint.skipIfMoreThan with
    | some n =>
      (n ≠ 0 ∧
        (filterByTarget (rawSt.candidates hint.suspect) hint.target
          board).length > n : Bool)
    | none => false)

/-- The hint envelope `_findCuratedHint` builds for the first eligible
hint: `single` when the target-filtered raw candidate count is ≤ 1 and
`single` is set, else `multiple` when it is set, else whichever of
`single`/`multiple` is set — overridden by `roomBlocked` (with the
`{blockedRooms}`/`{availableRoom}` substitutions) when not single, the
message is set and room blocking is detected. -/
def curatedEnvelope (puzzle : Puzzle) (board : Board)
    (rawSt solvedSt : SolverState) (hint : CuratedHint) : HintResult :=
  let candidates := filterByTarget (solvedSt.candidates hint.suspect)
    hint.target board
  let rawFiltered := filterByTarget (rawSt.candidates hint.suspect)
    hint.target board
  let isSingle := rawFiltered.length ≤ 1
  let message0 :=
    if isSingle ∧ strTruthy hint.messages.single then
      hint.messages.single.getD ""
    else if ¬isSingle ∧ strTruthy hint.messages.multiple then
      hint.messages.multiple.getD ""
    else if strTruthy hint.messages.single then
      hint.messages.single.getD ""
    else hint.messages.multiple.getD ""
  let message :=
    if ¬isSingle ∧ strTruthy hint.messages.roomBlocked then
      match checkRoomBlocking hint board solvedSt puzzle with
      | some (blocked, available) =>
        (((hint.messages.roomBlocked.getD "").replace
          "{blockedRooms}" blocked).replace
          "{availableRoom}" available)
      | none => message0
    else message0
  { message := message, highlightCells := candidates,
    suspect := some hint.suspect,
    action := some (if candidates.length = 1 ∧ isSingle
      then "place" else "eliminate") }

/-! ## Reference puzzle: Car Repair (`src/data/puzzles/car-repair-easy.js`)

Only the fields read by `initialize` are embedded (suspects, rooms,
boardLayout).  In the checked-in `gameData.js` the constants `cellTypes.CAR`,
`cellTypes.OIL_SLICK` and `cellTypes.PLANT` are absent, so those board cells
carry the JS value `undefined` as their type; it is modelled by the marker
string `"undefined"`, which is likewise not occupiable and is referenced by
no constraint. -/

def carRepairLayout : List (List Cell) :=
  [[⟨"reception", "table"⟩, ⟨"reception", "chair"⟩, ⟨"reception", "table"⟩,
    ⟨"waitingArea", "tv"⟩, ⟨"storage", "empty"⟩, ⟨"storage", "shelf"⟩],
   [⟨"reception", "empty"⟩, ⟨"reception", "table"⟩, ⟨"reception", "table"⟩,
    ⟨"waitingArea", "empty"⟩, ⟨"waitingArea", "undefined"⟩,
    ⟨"storage", "empty"⟩],
   [⟨"reception", "empty"⟩, ⟨"reception", "empty"⟩, ⟨"reception", "shelf"⟩,
    ⟨"waitingArea", "chair"⟩, ⟨"waitingArea", "chair"⟩,
    ⟨"waitingArea", "empty"⟩],
   [⟨"reception", "empty"⟩, ⟨"garage", "empty"⟩, ⟨"garage", "empty"⟩,
    ⟨"garage", "shelf"⟩, ⟨"garage", "shelf"⟩, ⟨"garage", "empty"⟩],
   [⟨"garage", "empty"⟩, ⟨"garage", "undefined"⟩, ⟨"garage", "undefined"⟩,
    ⟨"garage", "undefined"⟩, ⟨"garage", "empty"⟩, ⟨"garage", "empty"⟩],
   [⟨"garage", "empty"⟩, ⟨"garage", "undefined"⟩, ⟨"garage", "empty"⟩,
    ⟨"garage", "undefined"⟩, ⟨"garage", "undefined"⟩, ⟨"garage", "empty"⟩]]

def carRepairPuzzle : Puzzle :=
  { suspects :=
      [{ id := "anthony", name := "Anthony", clue := "He was in a car." },
       { id := "brock", name := "Brock", clue := "He was on an oil slick." },
       { id := "crystal", name := "Crystal",
         clue := "She was sitting in a chair." },
       { id := "diane", name := "Diane",
         clue := "She was alone in the Waiting Area." },
       { id := "emilio", name := "Emilio", clue := "He was beside a shelf." },
       { id := "vaughn", name := "Vaughn",
         clue := "The Victim. He was alone with the murderer.",
         isVictim := true }],
    rooms :=
      [("reception", ⟨"Reception", "#9fc5e8"⟩),
       ("waitingArea", ⟨"Waiting Area", "#d5a6bd"⟩),
       ("storage", ⟨"Storage", "#c9daf8"⟩),
       ("garage", ⟨"Garage", "#d9ead3"⟩)],
    boardLayout := carRepairLayout,
    gridSize := 6 }

def carRepairCtx : SolverCtx := mkSolverCtx carRepairPuzzle

/-! ## Small test puzzles used by the theorems below -/

/-- 3×3 board, `roomA` on row 0, `roomB` on rows 1–2, every cell `empty`. -/
def aloneWithLayout : List (List Cell) :=
  [[⟨"roomA", "empty"⟩, ⟨"roomA", "empty"⟩, ⟨"roomA", "empty"⟩],
   [⟨"roomB", "empty"⟩, ⟨"roomB", "empty"⟩, ⟨"roomB", "empty"⟩],
   [⟨"roomB", "empty"⟩, ⟨"roomB", "empty"⟩, ⟨"roomB", "empty"⟩]]

/-- Alice must be alone with Bob; Bob and Carl are unconstrained. -/
def aloneWithPuzzle : Puzzle :=
  { suspects :=
      [{ id := "alice", name := "Alice", clue := "",
         constraints := [.aloneWith "bob"] },
       { id := "bob", name := "Bob", clue := "" },
       { id := "carl", name := "Carl", clue := "" }],
    rooms := [("roomA", ⟨"Room A", "#fff"⟩), ("roomB", ⟨"Room B", "#000"⟩)],
    boardLayout := aloneWithLayout,
    gridSize := 3 }

def aloneWithCtx : SolverCtx := mkSolverCtx aloneWithPuzzle

/-- 3×3 board, `roomA` on rows 0–1, `roomB` on row 2, every cell `empty`. -/
def nakedSetLayout : List (List Cell) :=
  [[⟨"roomA", "empty"⟩, ⟨"roomA", "empty"⟩, ⟨"roomA", "empty"⟩],
   [⟨"roomA", "empty"⟩, ⟨"roomA", "empty"⟩, ⟨"roomA", "empty"⟩],
   [⟨"roomB", "empty"⟩, ⟨"roomB", "empty"⟩, ⟨"roomB", "empty"⟩]]

/-- Bob and Amy (declared in that order, against lexicographic order) are
confined to `roomA` (rows 0–1); Carl is unconstrained. -/
def nakedSetPuzzle : Puzzle :=
  { suspects :=
      [{ id := "bob", name := "Bob", clue := "",
         constraints := [.inRoom "roomA"] },
       { id := "amy", name := "Amy", clue := "",
         constraints := [.inRoom "roomA"] },
       { id := "carl", name := "Carl", clue := "" }],
    rooms := [("roomA", ⟨"Room A", "#fff"⟩), ("roomB", ⟨"Room B", "#000"⟩)],
    boardLayout := nakedSetLayout,
    gridSize := 3 }

def nakedSetCtx : SolverCtx := mkSolverCtx nakedSetPuzzle

/-- 2×2 single-room board, every cell `empty`. -/
def tinyLayout : List (List Cell) :=
  [[⟨"r", "empty"⟩, ⟨"r", "empty"⟩],
   [⟨"r", "empty"⟩, ⟨"r", "empty"⟩]]

/-- One unconstrained suspect and one curated hint carrying only a
`single` message. -/
def tinyHintPuzzle : Puzzle :=
  { suspects := [{ id := "alice", name := "Alice", clue := "" }],
    rooms := [("r", ⟨"Room", "#fff"⟩)],
    boardLayout := tinyLayout,
    hints := [{ suspect := "alice", order := 1, target := some .any,
                messages := { single := some "S" } }],
    gridSize := 2 }

def tinyHintCtx : SolverCtx := mkSolverCtx tinyHintPuzzle

/-! ## Counting helpers for the propagation fixed point -/

/-- The number of suspects not yet placed. -/
def unplacedCount (ctx : SolverCtx) (st : SolverState) : Nat :=
  (ctx.suspectIds.filter (fun s => (st.placed s).isNone)).length

/-- The body of `_propagateBasic`'s suspect loop (the function folded by
`propagateRound`). -/
def propStep : SolverState × Bool → String → SolverState × Bool :=
  fun acc sid =>
    if (acc.1.placed sid).isSome then acc
    else match acc.1.candidates sid with
      | [k] => (placeSuspectNR acc.1 sid k, true)
      | _ => acc

/-- `_propagateBasic`'s exit condition: no unplaced suspect retains a
singleton candidate set. -/
def NoNakedSingle (ctx : SolverCtx) (st : SolverState) : Prop :=
  ∀ sid ∈ ctx.suspectIds, st.placed sid = none →
    ∀ c, st.candidates sid ≠ [c]

/-- Claim C3's freeness condition: `k`'s row and column clash with no
placed suspect's cell. -/
def RowColFree (ctx : SolverCtx) (st : SolverState) (k : String) : Bool :=
  ctx.suspectIds.all (fun t =>
    match st.placed t with
    | some c => ¬((parseKey k).1 = (parseKey c).1) ∧
        ¬((parseKey k).2 = (parseKey c).2)
    | none => true)

/-- The per-suspect invariant: a placed suspect's candidate set is
contained in the singleton of its cell; an unplaced suspect's candidates
are occupiable and row/column-free of every placed suspect. -/
def suspectInvB (ctx : SolverCtx) (st : SolverState) (s : String) : Bool :=
  match st.placed s with
  | some c => (st.candidates s).all (fun k => k = c)
  | none => (st.candidates s).all (fun k =>
      ctx.board.occupiableCells.contains k ∧ RowColFree ctx st k)

/-- The solver-state invariant of claim C3 (with the placed clause weakened
to containment: the `aloneWith` handler can empty a placed partner's
candidate set, see the counterexample). -/
def SolverInv (ctx : SolverCtx) (st : SolverState) : Prop :=
  ∀ s ∈ ctx.suspectIds, suspectInvB ctx st s = true

/-- `st'` differs from `st` only by pointwise-smaller candidate sets. -/
def ShrinkOf (st' st : SolverState) : Prop :=
  (∀ s, st'.placed s = st.placed s) ∧
  (∀ s k, k ∈ st'.candidates s → k ∈ st.candidates s)

/-- The enumeration order of `_findNakedRowSet`: unplaced suspects in
declaration order, stably sorted by ascending candidate-row-set size. -/
def nakedRowOrder (ctx : SolverCtx) (st : SolverState) :
    List (String × List Nat) :=
  sortByKey (fun p => (p.2.length : Int))
    ((ctx.suspectIds.filter (fun sid => (st.placed sid).isNone)).map
      (fun sid => (sid, rowsOfCands (st.candidates sid))))

/-- The enumeration order of `_findNakedColSet`. -/
def nakedColOrder (ctx : SolverCtx) (st : SolverState) :
    List (String × List Nat) :=
  sortByKey (fun p => (p.2.length : Int))
    ((ctx.suspectIds.filter (fun sid => (st.placed sid).isNone)).map
      (fun sid => (sid, colsOfCands (st.candidates sid))))

/-! ## Definitions written from the specification, for comparison

These are NOT translated from the source: each follows the words of a
specification claim, to be compared against the source-derived definition
above. -/

/-- The ten-element occupiable set claimed by the specification (§3). -/
def c1SpecSet : List String :=
  ["empty", "carpet", "chair", "pondWater", "horse", "path", "oilSlick",
   "car", "bed", "track"]

/-- Lexicographic (character-code) strict order on strings, structurally
recursive. -/
def strLtChars : List Char → List Char → Bool
  | [], [] => false
  | [], _ :: _ => true
  | _ :: _, [] => false
  | a :: as, b :: bs =>
    if a.toNat < b.toNat then true
    else if a.toNat = b.toNat then strLtChars as bs
    else false

/-- Lexicographic strict order on strings. -/
def strLt (a b : String) : Bool := strLtChars a.toList b.toList

/-- Modelled from the spec (claim C5): insertion into a list ordered by
ascending row-set size with ties broken by ascending lexicographic
suspect-id order. -/
def insLexSpec (x : String × List Nat) :
    List (String × List Nat) → List (String × List Nat)
  | [] => [x]
  | y :: ys =>
    if y.2.length < x.2.length ∨
        (y.2.length = x.2.length ∧ ¬(strLt x.1 y.1)) then
      y :: insLexSpec x ys
    else x :: y :: ys

/-- Modelled from the spec (claim C5): sort by ascending set size, ties by
lexicographic suspect id. -/
def sortLexSpec (l : List (String × List Nat)) : List (String × List Nat) :=
  l.foldl (fun acc x => insLexSpec x acc) []

/-- Modelled from the spec (claim C5): the naked row-set search with the
suspects ordered by ascending row-set size, ties broken lexicographically
by suspect id; everything else as the source. -/
def findNakedRowSetLexSpec (ctx : SolverCtx) (st : SolverState) :
    Option (SolveStep × SolverState) :=
  let suspectRows :=
    (ctx.suspectIds.filter (fun sid => (st.placed sid).isNone)).map
      (fun sid => (sid, rowsOfCands (st.candidates sid)))
  let sorted := sortLexSpec suspectRows
  let maxSize := min (sorted.length - 1) 6
  ((List.range (maxSize + 1)).drop 2).firstM
    (fun size => searchRowGroup ctx st sorted size sorted [] [])

/-! ## Claim C1 — the occupiable-type constant -/

/-- Claim C1 as stated is false: the constant `occupiableTypes` of
`gameData.js` is not the spec's ten-element set (for example `horse` is in
the spec's set but not in the code's constant), and `precomputeBoard` does
not treat a `horse` cell as occupiable. -/
theorem c1_counterexample :
    ("horse" ∈ c1SpecSet ∧ "horse" ∉ occupiableTypes) ∧
    (precomputeBoard [[⟨"stables", "horse"⟩]]).occupiableCells = [] := by
  decide

/-! ## Claim C2 — `initialize` and non-occupiable pre-placements -/

/-- Claim C2 as stated is false: on the Car Repair puzzle, placing
`crystal` at `"0-3"` (a `tv` cell, not occupiable) is not rejected by
`initialize`; the suspect is recorded as placed at that cell, with the
singleton candidate set. -/
theorem c2_counterexample :
    (solverInit carRepairCtx [("0-3", "crystal")]).placed "crystal"
        = some "0-3" ∧
    (solverInit carRepairCtx [("0-3", "crystal")]).candidates "crystal"
        = ["0-3"] ∧
    (alGet carRepairCtx.board.cellInfo "0-3").map (fun i => i.type)
        = some "tv" ∧
    "tv" ∉ occupiableTypes := by
  decide

/-! ## Claim C3 — the public-state invariant -/

/-- Claim C3 as stated is false: starting from the `aloneWith` test puzzle
with Bob pre-placed at `"0-0"`, one `solveStep` (an `aloneWithElimination`)
returns with Bob still placed but with an empty candidate set, so a placed
suspect's candidate set is not the singleton of its cell. -/
theorem c3_counterexample :
    (solveStep aloneWithCtx (solverInit aloneWithCtx [("0-0", "bob")])).map
        (fun r => (r.1.technique, r.2.placed "bob", r.2.candidates "bob"))
      = some ("aloneWithElimination", some "0-0", []) ∧
    "bob" ∈ aloneWithCtx.suspectIds := by
  decide

/-! ## Claim C5 — naked-set enumeration order -/

/-- Claim C5 as stated is false: on the naked-set test puzzle (suspects
declared Bob before Amy, both with row-set `{0, 1}`), the source emits the
step for the group enumerated in declaration order (`suspectId = "bob"`),
while the ordering the claim describes (ties broken lexicographically)
determines the step with `suspectId = "amy"`. -/
theorem c5_counterexample :
    (findNakedRowSet nakedSetCtx (solverInit nakedSetCtx [])).map
        (fun r => r.1.suspectId) = some "bob" ∧
    (findNakedRowSetLexSpec nakedSetCtx (solverInit nakedSetCtx [])).map
        (fun r => r.1.suspectId) = some "amy" ∧
    strLt "amy" "bob" = true := by
  decide

/-! ## Claim C9 — curated-hint traversal and message choice -/

/-- Claim C9 as stated is false: on the tiny hint puzzle the eligible hint
has four target-filtered raw candidates (more than one), yet the returned
message is `messages.single` (`"S"`), because `messages.multiple` is absent
and the source falls back to `single || multiple`. -/
theorem c9_counterexample :
    (findCuratedHint tinyHintPuzzle tinyHintCtx.board
        (solverInit tinyHintCtx [])
        (solve tinyHintCtx (solverInit tinyHintCtx [])) []).map
      (fun h => h.message) = some "S" ∧
    (filterByTarget ((solverInit tinyHintCtx []).candidates "alice")
        (some .any) tinyHintCtx.board).length = 4 ∧
    (tinyHintPuzzle.hints.map (fun h => h.messages.multiple)) = [none] ∧
    (tinyHintPuzzle.hints.map (fun h => h.messages.single)) = [some "S"] := by
  decide

/-! ## Claim C4 — the technique pipeline order -/

/-- The twelve techniques of `solveStep`, in source order. -/
def techniqueList (ctx : SolverCtx) :
    List (SolverState → Option (SolveStep × SolverState)) :=
  [findNakedSingle ctx, findRowSingle ctx, findColSingle ctx,
   findRowClaiming ctx, findColClaiming ctx, findNakedRowSet ctx,
   findNakedColSet ctx, applyRoomConstraints ctx,
   applyOnlyPersonConstraint ctx, applyRelativeRowConstraint ctx,
   findPointingGroup ctx, findByContradiction ctx]

/-- The result of the first technique in the list that makes progress. -/
def firstProgress :
    List (SolverState → Option (SolveStep × SolverState)) → SolverState →
      Option (SolveStep × SolverState)
  | [], _ => none
  | t :: ts, st =>
    match t st with
    | some r => some r
    | none => firstProgress ts st

theorem firstProgress_eq_none_iff
    (ts : List (SolverState → Option (SolveStep × SolverState)))
    (st : SolverState) :
    firstProgress ts st = none ↔ ∀ t ∈ ts, t st = none := by
  induction ts with
  | nil => simp [firstProgress]
  | cons t ts ih =>
    simp only [firstProgress]
    cases h : t st with
    | some r => simp [h]
    | none => simpa [h] using ih

/-- C4: `solveStep` consults the techniques in exactly the fixed source
order, returns the result of the first that makes progress, and returns
`null` iff no technique makes progress. -/
theorem c4_pipeline (ctx : SolverCtx) (st : SolverState) :
    solveStep ctx st = firstProgress (techniqueList ctx) st ∧
    (solveStep ctx st = none ↔
      ∀ t ∈ techniqueList ctx, t st = none) := by
  have heq : solveStep ctx st = firstProgress (techniqueList ctx) st := by
    simp only [solveStep, techniqueList, firstProgress]
    cases findNakedSingle ctx st <;>
    cases findRowSingle ctx st <;>
    cases findColSingle ctx st <;>
    cases findRowClaiming ctx st <;>
    cases findColClaiming ctx st <;>
    cases findNakedRowSet ctx st <;>
    cases findNakedColSet ctx st <;>
    cases applyRoomConstraints ctx st <;>
    cases applyOnlyPersonConstraint ctx st <;>
    cases applyRelativeRowConstraint ctx st <;>
    cases findPointingGroup ctx st <;>
    cases findByContradiction ctx st <;>
    rfl
  exact ⟨heq, heq ▸ firstProgress_eq_none_iff (techniqueList ctx) st⟩

/-! ## Claim C7 — the contradiction test -/

/-- C7: `_hasContradiction` is true iff some unplaced suspect has an empty
candidate set, or some row with no placed suspect has no candidate of any
unplaced suspect, or the same holds for some column. -/
theorem c7_contradiction_iff (ctx : SolverCtx) (st : SolverState) :
    hasContradiction ctx st = true ↔
      (∃ sid ∈ ctx.suspectIds,
        st.placed sid = none ∧ st.candidates sid = []) ∨
      (∃ r, r < ctx.board.rows ∧
        (¬ ∃ p ∈ ctx.suspectIds, ∃ kp,
          st.placed p = some kp ∧ (parseKey kp).1 = r) ∧
        (¬ ∃ sid ∈ ctx.suspectIds, st.placed sid = none ∧
          ∃ k ∈ st.candidates sid, (parseKey k).1 = r)) ∨
      (∃ c, c < ctx.board.cols ∧
        (¬ ∃ p ∈ ctx.suspectIds, ∃ kp,
          st.placed p = some kp ∧ (parseKey kp).2 = c) ∧
        (¬ ∃ sid ∈ ctx.suspectIds, st.placed sid = none ∧
          ∃ k ∈ st.candidates sid, (parseKey k).2 = c)) := by
  simp only [hasContradiction, Bool.or_eq_true, List.any_eq_true,
    decide_eq_true_eq, Bool.and_eq_true, List.mem_range,
    Option.isNone_iff_eq_none, List.isEmpty_iff, Bool.not_eq_true',
    decide_eq_false_iff_not, List.elem_iff,
    List.mem_map, List.mem_filterMap]
  constructor
  · rintro ((h | h) | h)
    · exact Or.inl h
    · obtain ⟨r, hr, hnf, hnc⟩ := h
      refine Or.inr (Or.inl ⟨r, hr, ?_, ?_⟩)
      · rintro ⟨p, hp, kp, hkp, hrow⟩
        exact hnf ⟨kp, ⟨p, hp, hkp⟩, hrow⟩
      · rintro ⟨sid, hmem, hnone, k, hk, hrow⟩
        exact hnc ⟨sid, hmem, hnone, k, hk, hrow⟩
    · obtain ⟨c, hc, hnf, hnc⟩ := h
      refine Or.inr (Or.inr ⟨c, hc, ?_, ?_⟩)
      · rintro ⟨p, hp, kp, hkp, hcol⟩
        exact hnf ⟨kp, ⟨p, hp, hkp⟩, hcol⟩
      · rintro ⟨sid, hmem, hnone, k, hk, hcol⟩
        exact hnc ⟨sid, hmem, hnone, k, hk, hcol⟩
  · rintro (h | h | h)
    · exact Or.inl (Or.inl h)
    · obtain ⟨r, hr, hnf, hnc⟩ := h
      refine Or.inl (Or.inr ⟨r, hr, ?_, ?_⟩)
      · rintro ⟨x, ⟨p, hp, hkp⟩, hrow⟩
        exact hnf ⟨p, hp, x, hkp, hrow⟩
      · rintro ⟨sid, hmem, hnone, k, hk, hrow⟩
        exact hnc ⟨sid, hmem, hnone, k, hk, hrow⟩
    · obtain ⟨c, hc, hnf, hnc⟩ := h
      refine Or.inr ⟨c, hc, ?_, ?_⟩
      · rintro ⟨x, ⟨p, hp, hkp⟩, hcol⟩
        exact hnf ⟨p, hp, x, hkp, hcol⟩
      · rintro ⟨sid, hmem, hnone, k, hk, hcol⟩
        exact hnc ⟨sid, hmem, hnone, k, hk, hcol⟩

/-! ## Step-log lemmas

Every mutating primitive leaves the step log unchanged, and every technique
that returns a step appends exactly that step.  These facts drive claim C8
(snapshot/restore) and are reused by the state-invariant proofs. -/

/-- Fold preservation for a predicate on the state component of a pair. -/
theorem foldl_fst_preserve {β ι : Type} (P : SolverState → Prop)
    (f : SolverState × β → ι → SolverState × β)
    (hf : ∀ p x, P p.1 → P (f p x).1) :
    ∀ (l : List ι) (p : SolverState × β), P p.1 → P ((l.foldl f p).1) := by
  intro l
  induction l with
  | nil => intro p hp; exact hp
  | cons x xs ih => intro p hp; exact ih (f p x) (hf p x hp)

/-- Fold preservation for a predicate on a plain state accumulator. -/
theorem foldl_preserve {σ ι : Type} (P : σ → Prop) (f : σ → ι → σ)
    (l : List ι) (hf : ∀ s x, x ∈ l → P s → P (f s x)) :
    ∀ s, P s → P (l.foldl f s) := by
  induction l with
  | nil => intro s hs; exact hs
  | cons x xs ih =>
    intro s hs
    exact ih (fun s y hy => hf s y (List.mem_cons_of_mem x hy))
      (f s x) (hf s x (List.mem_cons_self x xs) hs)

theorem placeSuspectNR_steps (st : SolverState) (s k : String) :
    (placeSuspectNR st s k).steps = st.steps := rfl

theorem propagateRound_steps (ctx : SolverCtx) (st : SolverState) :
    (propagateRound ctx st).1.steps = st.steps := by
  refine foldl_fst_preserve (fun s => s.steps = st.steps) _ ?_
    ctx.suspectIds (st, false) rfl
  intro p x hp
  dsimp only
  split
  · exact hp
  · split
    · simpa [placeSuspectNR_steps] using hp
    · exact hp

theorem propagateBasicAux_steps (ctx : SolverCtx) :
    ∀ (fuel : Nat) (st : SolverState),
      (propagateBasicAux ctx fuel st).steps = st.steps := by
  intro fuel
  induction fuel with
  | zero => intro st; rfl
  | succ n ih =>
    intro st
    simp only [propagateBasicAux]
    split
    · rw [ih, propagateRound_steps]
    · exact propagateRound_steps ctx st

theorem propagateBasic_steps (ctx : SolverCtx) (st : SolverState) :
    (propagateBasic ctx st).steps = st.steps :=
  propagateBasicAux_steps ctx 100 st

theorem placeSuspect_steps (ctx : SolverCtx) (st : SolverState)
    (s k : String) : (placeSuspect ctx st s k).steps = st.steps := by
  unfold placeSuspect
  rw [propagateBasic_steps, placeSuspectNR_steps]

/-- A technique appends exactly the step it returns. -/
def AppendsStep (f : SolverState → Option (SolveStep × SolverState)) : Prop :=
  ∀ st step st', f st = some (step, st') → st'.steps = st.steps ++ [step]

theorem findNakedSingleAux_appends (ctx : SolverCtx) (st : SolverState) :
    ∀ (l : List String) (step : SolveStep) (st' : SolverState),
      findNakedSingleAux ctx st l = some (step, st') →
        st'.steps = st.steps ++ [step] := by
  intro l
  induction l with
  | nil => intro step st' h; simp [findNakedSingleAux] at h
  | cons sid rest ih =>
    intro step st' h
    rw [findNakedSingleAux] at h
    split at h
    · exact ih step st' h
    · split at h
      · simp only [Option.some.injEq, Prod.mk.injEq] at h
        obtain ⟨hstep, hst⟩ := h
        subst hstep; subst hst
        simp [placeSuspect_steps]
      · exact ih step st' h

theorem findNakedSingle_appends (ctx : SolverCtx) :
    AppendsStep (findNakedSingle ctx) := by
  intro st step st' h
  exact findNakedSingleAux_appends ctx st ctx.suspectIds step st' h

theorem findRowSingleAux_appends (ctx : SolverCtx) (st : SolverState) :
    ∀ (l : List Nat) (step : SolveStep) (st' : SolverState),
      findRowSingleAux ctx st l = some (step, st') →
        st'.steps = st.steps ++ [step] := by
  intro l
  induction l with
  | nil => intro step st' h; simp [findRowSingleAux] at h
  | cons r rest ih =>
    intro step st' h
    rw [findRowSingleAux] at h
    split at h
    · exact ih step st' h
    · dsimp only at h
      split at h
      · split at h
        · simp only [Option.some.injEq, Prod.mk.injEq] at h
          obtain ⟨hstep, hst⟩ := h
          subst hstep; subst hst
          simp [placeSuspect_steps]
        · split at h
          · simp only [Option.some.injEq, Prod.mk.injEq] at h
            obtain ⟨hstep, hst⟩ := h
            subst hstep; subst hst
            simp [propagateBasic_steps]
          · exact ih step st' h
      · exact ih step st' h

theorem findRowSingle_appends (ctx : SolverCtx) :
    AppendsStep (findRowSingle ctx) := by
  intro st step st' h
  exact findRowSingleAux_appends ctx st (List.range ctx.board.rows) step st' h

theorem findColSingleAux_appends (ctx : SolverCtx) (st : SolverState) :
    ∀ (l : List Nat) (step : SolveStep) (st' : SolverState),
      findColSingleAux ctx st l = some (step, st') →
        st'.steps = st.steps ++ [step] := by
  intro l
  induction l with
  | nil => intro step st' h; simp [findColSingleAux] at h
  | cons c rest ih =>
    intro step st' h
    rw [findColSingleAux] at h
    split at h
    · exact ih step st' h
    · dsimp only at h
      split at h
      · split at h
        · simp only [Option.some.injEq, Prod.mk.injEq] at h
          obtain ⟨hstep, hst⟩ := h
          subst hstep; subst hst
          simp [placeSuspect_steps]
        · split at h
          · simp only [Option.some.injEq, Prod.mk.injEq] at h
            obtain ⟨hstep, hst⟩ := h
            subst hstep; subst hst
            simp [propagateBasic_steps]
          · exact ih step st' h
      · exact ih step st' h

theorem findColSingle_appends (ctx : SolverCtx) :
    AppendsStep (findColSingle ctx) := by
  intro st step st' h
  exact findColSingleAux_appends ctx st (List.range ctx.board.cols) step st' h

theorem rowClaimingEliminate_steps (ctx : SolverCtx) (st : SolverState)
    (sid : String) (r : Nat) :
    (rowClaimingEliminate ctx st sid r).1.steps = st.steps := by
  refine foldl_fst_preserve (fun s => s.steps = st.steps) _ ?_
    ctx.suspectIds (st, 0) rfl
  intro p x hp
  dsimp only
  split
  · exact hp
  · exact hp

theorem colClaimingEliminate_steps (ctx : SolverCtx) (st : SolverState)
    (sid : String) (c : Nat) :
    (colClaimingEliminate ctx st sid c).1.steps = st.steps := by
  refine foldl_fst_preserve (fun s => s.steps = st.steps) _ ?_
    ctx.suspectIds (st, 0) rfl
  intro p x hp
  dsimp only
  split
  · exact hp
  · exact hp

theorem findRowClaimingAux_appends (ctx : SolverCtx) (st : SolverState) :
    ∀ (l : List String) (step : SolveStep) (st' : SolverState),
      findRowClaimingAux ctx st l = some (step, st') →
        st'.steps = st.steps ++ [step] := by
  intro l
  induction l with
  | nil => intro step st' h; simp [findRowClaimingAux] at h
  | cons sid rest ih =>
    intro step st' h
    rw [findRowClaimingAux] at h
    split at h
    · exact ih step st' h
    · split at h
      · exact ih step st' h
      · dsimp only at h
        split at h
        · split at h
          · simp only [Option.some.injEq, Prod.mk.injEq] at h
            obtain ⟨hstep, hst⟩ := h
            subst hstep; subst hst
            simp [propagateBasic_steps, rowClaimingEliminate_steps]
          · exact ih step st' h
        · exact ih step st' h

theorem findRowClaiming_appends (ctx : SolverCtx) :
    AppendsStep (findRowClaiming ctx) := by
  intro st step st' h
  exact findRowClaimingAux_appends ctx st ctx.suspectIds step st' h

theorem findColClaimingAux_appends (ctx : SolverCtx) (st : SolverState) :
    ∀ (l : List String) (step : SolveStep) (st' : SolverState),
      findColClaimingAux ctx st l = some (step, st') →
        st'.steps = st.steps ++ [step] := by
  intro l
  induction l with
  | nil => intro step st' h; simp [findColClaimingAux] at h
  | cons sid rest ih =>
    intro step st' h
    rw [findColClaimingAux] at h
    split at h
    · exact ih step st' h
    · split at h
      · exact ih step st' h
      · dsimp only at h
        split at h
        · split at h
          · simp only [Option.some.injEq, Prod.mk.injEq] at h
            obtain ⟨hstep, hst⟩ := h
            subst hstep; subst hst
            simp [propagateBasic_steps, colClaimingEliminate_steps]
          · exact ih step st' h
        · exact ih step st' h

theorem findColClaiming_appends (ctx : SolverCtx) :
    AppendsStep (findColClaiming ctx) := by
  intro st step st' h
  exact findColClaimingAux_appends ctx st ctx.suspectIds step st' h

theorem rowSetEliminate_steps (st : SolverState)
    (allSuspects : List (String × List Nat)) (group : List String)
    (rowUnion : List Nat) :
    (rowSetEliminate st allSuspects group rowUnion).1.steps = st.steps := by
  refine foldl_fst_preserve (fun s => s.steps = st.steps) _ ?_
    allSuspects (st, 0) rfl
  intro p x hp
  dsimp only
  split
  · exact hp
  · exact hp

theorem rowSetForced_steps (acc0 : SolverState × Nat)
    (allSuspects : List (String × List Nat)) (group : List String)
    (rowUnion : List Nat) :
    (rowSetForced acc0 allSuspects group rowUnion).1.steps = acc0.1.steps := by
  refine foldl_fst_preserve (fun s => s.steps = acc0.1.steps) _ ?_
    rowUnion acc0 rfl
  intro p x hp
  dsimp only
  split
  · refine foldl_fst_preserve (fun s => s.steps = acc0.1.steps) _ ?_
      allSuspects p hp
    intro q y hq
    dsimp only
    split
    · exact hq
    · exact hq
  · exact hp

theorem searchRowGroup_appends (ctx : SolverCtx) (st : SolverState)
    (allSuspects : List (String × List Nat)) (targetSize : Nat) :
    ∀ (remaining : List (String × List Nat)) (group : List String)
      (rowUnion : List Nat) (step : SolveStep) (st' : SolverState),
      searchRowGroup ctx st allSuspects targetSize remaining group rowUnion
          = some (step, st') →
        st'.steps = st.steps ++ [step] := by
  intro remaining
  induction remaining with
  | nil =>
    intro group rowUnion step st' h
    rw [searchRowGroup] at h
    split at h
    · split at h
      · simp at h
      · dsimp only at h
        split at h
        · simp only [Option.some.injEq, Prod.mk.injEq] at h
          obtain ⟨hstep, hst⟩ := h
          subst hstep; subst hst
          simp [propagateBasic_steps, rowSetForced_steps, rowSetEliminate_steps]
        · simp at h
    · simp at h
  | cons p rest ih =>
    intro group rowUnion step st' h
    rw [searchRowGroup] at h
    split at h
    · split at h
      · simp at h
      · dsimp only at h
        split at h
        · simp only [Option.some.injEq, Prod.mk.injEq] at h
          obtain ⟨hstep, hst⟩ := h
          subst hstep; subst hst
          simp [propagateBasic_steps, rowSetForced_steps, rowSetEliminate_steps]
        · simp at h
    · dsimp only at h
      split at h
      · simp only [Option.some.injEq] at h
        subst h
        rename_i r heq
        split at heq
        · exact ih _ _ _ _ heq
        · simp at heq
      · exact ih _ _ _ _ h

/-- If `firstM` succeeds, some list element succeeded. -/
theorem firstM_some_exists {α β : Type} (g : α → Option β) :
    ∀ (l : List α) (r : β), l.firstM g = some r → ∃ x ∈ l, g x = some r := by
  intro l
  induction l with
  | nil => intro r h; simp [List.firstM] at h
  | cons x xs ih =>
    intro r h
    simp only [List.firstM] at h
    cases hx : g x with
    | some v =>
      rw [hx] at h; simp at h
      exact ⟨x, List.mem_cons_self x xs, by rw [hx, h]⟩
    | none =>
      rw [hx] at h; simp at h
      obtain ⟨y, hy, hgy⟩ := ih r h
      exact ⟨y, List.mem_cons_of_mem x hy, hgy⟩

theorem findNakedRowSet_appends (ctx : SolverCtx) :
    AppendsStep (findNakedRowSet ctx) := by
  intro st step st' h
  unfold findNakedRowSet at h
  obtain ⟨size, -, hs⟩ := firstM_some_exists _ _ _ h
  exact searchRowGroup_appends ctx st _ size _ [] [] step st' hs

theorem colSetEliminate_steps (st : SolverState)
    (allSuspects : List (String × List Nat)) (group : List String)
    (colUnion : List Nat) :
    (colSetEliminate st allSuspects group colUnion).1.steps = st.steps := by
  refine foldl_fst_preserve (fun s => s.steps = st.steps) _ ?_
    allSuspects (st, 0) rfl
  intro p x hp
  dsimp only
  split
  · exact hp
  · exact hp

theorem colSetForced_steps (acc0 : SolverState × Nat)
    (allSuspects : List (String × List Nat)) (group : List String)
    (colUnion : List Nat) :
    (colSetForced acc0 allSuspects group colUnion).1.steps = acc0.1.steps := by
  refine foldl_fst_preserve (fun s => s.steps = acc0.1.steps) _ ?_
    colUnion acc0 rfl
  intro p x hp
  dsimp only
  split
  · refine foldl_fst_preserve (fun s => s.steps = acc0.1.steps) _ ?_
      allSuspects p hp
    intro q y hq
    dsimp only
    split
    · exact hq
    · exact hq
  · exact hp

theorem searchColGroup_appends (ctx : SolverCtx) (st : SolverState)
    (allSuspects : List (String × List Nat)) (targetSize : Nat) :
    ∀ (remaining : List (String × List Nat)) (group : List String)
      (colUnion : List Nat) (step : SolveStep) (st' : SolverState),
      searchColGroup ctx st allSuspects targetSize remaining group colUnion
          = some (step, st') →
        st'.steps = st.steps ++ [step] := by
  intro remaining
  induction remaining with
  | nil =>
    intro group colUnion step st' h
    rw [searchColGroup] at h
    split at h
    · split at h
      · simp at h
      · dsimp only at h
        split at h
        · simp only [Option.some.injEq, Prod.mk.injEq] at h
          obtain ⟨hstep, hst⟩ := h
          subst hstep; subst hst
          simp [propagateBasic_steps, colSetForced_steps, colSetEliminate_steps]
        · simp at h
    · simp at h
  | cons p rest ih =>
    intro group colUnion step st' h
    rw [searchColGroup] at h
    split at h
    · split at h
      · simp at h
      · dsimp only at h
        split at h
        · simp only [Option.some.injEq, Prod.mk.injEq] at h
          obtain ⟨hstep, hst⟩ := h
          subst hstep; subst hst
          simp [propagateBasic_steps, colSetForced_steps, colSetEliminate_steps]
        · simp at h
    · dsimp only at h
      split at h
      · simp only [Option.some.injEq] at h
        subst h
        rename_i r heq
        split at heq
        · exact ih _ _ _ _ heq
        · simp at heq
      · exact ih _ _ _ _ h

theorem findNakedColSet_appends (ctx : SolverCtx) :
    AppendsStep (findNakedColSet ctx) := by
  intro st step st' h
  unfold findNakedColSet at h
  obtain ⟨size, -, hs⟩ := firstM_some_exists _ _ _ h
  exact searchColGroup_appends ctx st _ size _ [] [] step st' hs

theorem handleAlone_appends (ctx : SolverCtx) (sid : String) :
    AppendsStep (fun st => handleAlone ctx st sid) := by
  intro st step st' h
  unfold handleAlone at h
  dsimp only at h
  repeat' split at h
  all_goals
    first
      | (simp only [Option.some.injEq, Prod.mk.injEq] at h
         obtain ⟨hstep, hst⟩ := h
         subst hstep; subst hst
         simp [propagateBasic_steps])
      | simp at h

theorem handleAloneWith_appends (ctx : SolverCtx) (sid otherSid : String) :
    AppendsStep (fun st => handleAloneWith ctx st sid otherSid) := by
  intro st step st' h
  unfold handleAloneWith at h
  dsimp only at h
  repeat' split at h
  all_goals
    first
      | (simp only [Option.some.injEq, Prod.mk.injEq] at h
         obtain ⟨hstep, hst⟩ := h
         subst hstep; subst hst
         simp [propagateBasic_steps])
      | simp at h

theorem handleAloneWithGender_appends (ctx : SolverCtx) (sid g : String) :
    AppendsStep (fun st => handleAloneWithGender ctx st sid g) := by
  intro st step st' h
  unfold handleAloneWithGender at h
  dsimp only at h
  repeat' split at h
  all_goals
    first
      | (simp only [Option.some.injEq, Prod.mk.injEq] at h
         obtain ⟨hstep, hst⟩ := h
         subst hstep; subst hst
         simp [propagateBasic_steps])
      | simp at h

theorem handleWithPerson_appends (ctx : SolverCtx) (sid otherSid room : String) :
    AppendsStep (fun st => handleWithPerson ctx st sid otherSid room) := by
  intro st step st' h
  unfold handleWithPerson at h
  dsimp only at h
  repeat' split at h
  all_goals
    first
      | (simp only [Option.some.injEq, Prod.mk.injEq] at h
         obtain ⟨hstep, hst⟩ := h
         subst hstep; subst hst
         simp [propagateBasic_steps])
      | simp at h

theorem handleAheadOf_appends (ctx : SolverCtx) (sid behindSid : String) :
    AppendsStep (fun st => handleAheadOf ctx st sid behindSid) := by
  intro st step st' h
  unfold handleAheadOf at h
  dsimp only at h
  repeat' split at h
  all_goals
    first
      | (simp only [Option.some.injEq, Prod.mk.injEq] at h
         obtain ⟨hstep, hst⟩ := h
         subst hstep; subst hst
         simp [propagateBasic_steps])
      | simp at h

theorem handleVictim_appends (ctx : SolverCtx) (sid : String) :
    AppendsStep (fun st => handleVictim ctx st sid) := by
  intro st step st' h
  unfold handleVictim at h
  dsimp only at h
  repeat' split at h
  all_goals
    first
      | (simp only [Option.some.injEq, Prod.mk.injEq] at h
         obtain ⟨hstep, hst⟩ := h
         subst hstep; subst hst
         simp [propagateBasic_steps])
      | simp at h

theorem handleInRoomWithPersonOnCellType_appends (ctx : SolverCtx) (sid g t : String) :
    AppendsStep (fun st => handleInRoomWithPersonOnCellType ctx st sid g t) := by
  intro st step st' h
  unfold handleInRoomWithPersonOnCellType at h
  dsimp only at h
  repeat' split at h
  all_goals
    first
      | (simp only [Option.some.injEq, Prod.mk.injEq] at h
         obtain ⟨hstep, hst⟩ := h
         subst hstep; subst hst
         simp [propagateBasic_steps])
      | simp at h

theorem handleInRoomWithPersonBesideCellType_appends (ctx : SolverCtx) (sid t : String) :
    AppendsStep (fun st => handleInRoomWithPersonBesideCellType ctx st sid t) := by
  intro st step st' h
  unfold handleInRoomWithPersonBesideCellType at h
  dsimp only at h
  repeat' split at h
  all_goals
    first
      | (simp only [Option.some.injEq, Prod.mk.injEq] at h
         obtain ⟨hstep, hst⟩ := h
         subst hstep; subst hst
         simp [propagateBasic_steps])
      | simp at h

theorem roomConstraintResult_appends (ctx : SolverCtx) (sid : String)
    (c : Constraint) :
    AppendsStep (fun st => roomConstraintResult ctx st sid c) := by
  intro st step st' h
  cases c <;> simp only [roomConstraintResult] at h
  case alone => exact handleAlone_appends ctx sid st step st' h
  case aloneWith o => exact handleAloneWith_appends ctx sid o st step st' h
  case aloneWithGender g =>
    exact handleAloneWithGender_appends ctx sid g st step st' h
  case withPerson o room =>
    exact handleWithPerson_appends ctx sid o room st step st' h
  case aheadOf o => exact handleAheadOf_appends ctx sid o st step st' h
  case victim => exact handleVictim_appends ctx sid st step st' h
  case inRoomWithPersonOnCellType g t =>
    exact handleInRoomWithPersonOnCellType_appends ctx sid g t st step st' h
  case inRoomWithPersonBesideCellType t =>
    exact handleInRoomWithPersonBesideCellType_appends ctx sid t st step st' h
  all_goals simp at h

theorem applyRoomConstraintsAux_appends (ctx : SolverCtx) (st : SolverState) :
    ∀ (l : List String) (step : SolveStep) (st' : SolverState),
      applyRoomConstraintsAux ctx st l = some (step, st') →
        st'.steps = st.steps ++ [step] := by
  intro l
  induction l with
  | nil => intro step st' h; simp [applyRoomConstraintsAux] at h
  | cons sid rest ih =>
    intro step st' h
    rw [applyRoomConstraintsAux] at h
    split at h
    · exact ih step st' h
    · split at h
      · rename_i r heq
        simp only [Option.some.injEq] at h
        subst h
        obtain ⟨c, -, hc⟩ := firstM_some_exists _ _ _ heq
        exact roomConstraintResult_appends ctx sid c st step st' hc
      · exact ih step st' h

theorem applyRoomConstraints_appends (ctx : SolverCtx) :
    AppendsStep (applyRoomConstraints ctx) := by
  intro st step st' h
  exact applyRoomConstraintsAux_appends ctx st ctx.suspectIds step st' h

theorem onlyPersonEliminate_steps (ctx : SolverCtx) (st : SolverState)
    (sid t : String) :
    (onlyPersonEliminate ctx st sid t).1.steps = st.steps := by
  refine foldl_fst_preserve (fun s => s.steps = st.steps) _ ?_
    ctx.suspectIds (st, 0) rfl
  intro p x hp
  dsimp only
  repeat' split
  all_goals exact hp

theorem onlyPersonForConstraint_appends (ctx : SolverCtx) (sid : String)
    (c : Constraint) :
    AppendsStep (fun st => onlyPersonForConstraint ctx st sid c) := by
  intro st step st' h
  cases c <;> simp only [onlyPersonForConstraint] at h <;> try simp at h
  case onlyPersonOnCellType t =>
    obtain ⟨-, hstep, hst⟩ := h
    subst hstep; subst hst
    simp [propagateBasic_steps, onlyPersonEliminate_steps]

theorem applyOnlyPersonAux_appends (ctx : SolverCtx) (st : SolverState) :
    ∀ (l : List String) (step : SolveStep) (st' : SolverState),
      applyOnlyPersonAux ctx st l = some (step, st') →
        st'.steps = st.steps ++ [step] := by
  intro l
  induction l with
  | nil => intro step st' h; simp [applyOnlyPersonAux] at h
  | cons sid rest ih =>
    intro step st' h
    rw [applyOnlyPersonAux] at h
    split at h
    · exact ih step st' h
    · split at h
      · rename_i r heq
        simp only [Option.some.injEq] at h
        subst h
        obtain ⟨c, -, hc⟩ := firstM_some_exists _ _ _ heq
        exact onlyPersonForConstraint_appends ctx sid c st step st' hc
      · exact ih step st' h

theorem applyOnlyPersonConstraint_appends (ctx : SolverCtx) :
    AppendsStep (applyOnlyPersonConstraint ctx) := by
  intro st step st' h
  exact applyOnlyPersonAux_appends ctx st ctx.suspectIds step st' h

theorem relativeRowForConstraint_appends (ctx : SolverCtx) (sid : String)
    (c : Constraint) :
    AppendsStep (fun st => relativeRowForConstraint ctx st sid c) := by
  intro st step st' h
  cases c <;> simp only [relativeRowForConstraint] at h <;> try simp at h
  case relativeRow o off =>
    dsimp only at h
    repeat' split at h
    all_goals
      first
        | (simp only [Option.some.injEq, Prod.mk.injEq] at h
           obtain ⟨hstep, hst⟩ := h
           subst hstep; subst hst
           simp [propagateBasic_steps])
        | simp at h

theorem applyRelativeRowAux_appends (ctx : SolverCtx) (st : SolverState) :
    ∀ (l : List String) (step : SolveStep) (st' : SolverState),
      applyRelativeRowAux ctx st l = some (step, st') →
        st'.steps = st.steps ++ [step] := by
  intro l
  induction l with
  | nil => intro step st' h; simp [applyRelativeRowAux] at h
  | cons sid rest ih =>
    intro step st' h
    rw [applyRelativeRowAux] at h
    split at h
    · exact ih step st' h
    · split at h
      · rename_i r heq
        simp only [Option.some.injEq] at h
        subst h
        obtain ⟨c, -, hc⟩ := firstM_some_exists _ _ _ heq
        exact relativeRowForConstraint_appends ctx sid c st step st' hc
      · exact ih step st' h

theorem applyRelativeRowConstraint_appends (ctx : SolverCtx) :
    AppendsStep (applyRelativeRowConstraint ctx) := by
  intro st step st' h
  exact applyRelativeRowAux_appends ctx st ctx.suspectIds step st' h

theorem pointingForRoom_appends (ctx : SolverCtx) (sid : String)
    (room : Option String) (roomKeys : List String) :
    AppendsStep (fun st => pointingForRoom ctx st sid room roomKeys) := by
  intro st step st' h
  unfold pointingForRoom at h
  split at h
  · simp at h
  · dsimp only at h
    split at h
    · rename_i r heq
      simp only [Option.some.injEq] at h
      subst h
      repeat' split at heq
      all_goals
        first
          | (simp only [Option.some.injEq, Prod.mk.injEq] at heq
             obtain ⟨hstep, hst⟩ := heq
             subst hstep; subst hst
             simp [propagateBasic_steps])
          | simp at heq
    · repeat' split at h
      all_goals
        first
          | (simp only [Option.some.injEq, Prod.mk.injEq] at h
             obtain ⟨hstep, hst⟩ := h
             subst hstep; subst hst
             simp [propagateBasic_steps])
          | simp at h

theorem findPointingGroupAux_appends (ctx : SolverCtx) (st : SolverState) :
    ∀ (l : List String) (step : SolveStep) (st' : SolverState),
      findPointingGroupAux ctx st l = some (step, st') →
        st'.steps = st.steps ++ [step] := by
  intro l
  induction l with
  | nil => intro step st' h; simp [findPointingGroupAux] at h
  | cons sid rest ih =>
    intro step st' h
    rw [findPointingGroupAux] at h
    split at h
    · exact ih step st' h
    · dsimp only at h
      split at h
      · rename_i r heq
        simp only [Option.some.injEq] at h
        subst h
        obtain ⟨p, -, hp⟩ := firstM_some_exists _ _ _ heq
        exact pointingForRoom_appends ctx sid p.1 p.2 st step st' hp
      · exact ih step st' h

theorem findPointingGroup_appends (ctx : SolverCtx) :
    AppendsStep (findPointingGroup ctx) := by
  intro st step st' h
  exact findPointingGroupAux_appends ctx st ctx.suspectIds step st' h

/-- The eleven-technique chain of `_leadsToContradiction` appends the step
it returns. -/
theorem hypoChain_appends (ctx : SolverCtx) : AppendsStep (hypoChain ctx) := by
  intro st step st' h
  unfold hypoChain at h
  rcases h1 : applyRoomConstraints ctx st with _ | r1
  rotate_left
  · rw [h1] at h; simp at h; subst h
    exact applyRoomConstraints_appends ctx st step st' h1
  rw [h1] at h; simp only [Option.none_orElse] at h
  rcases h2 : applyOnlyPersonConstraint ctx st with _ | r2
  rotate_left
  · rw [h2] at h; simp at h; subst h
    exact applyOnlyPersonConstraint_appends ctx st step st' h2
  rw [h2] at h; simp only [Option.none_orElse] at h
  rcases h3 : applyRelativeRowConstraint ctx st with _ | r3
  rotate_left
  · rw [h3] at h; simp at h; subst h
    exact applyRelativeRowConstraint_appends ctx st step st' h3
  rw [h3] at h; simp only [Option.none_orElse] at h
  rcases h4 : findNakedSingle ctx st with _ | r4
  rotate_left
  · rw [h4] at h; simp at h; subst h
    exact findNakedSingle_appends ctx st step st' h4
  rw [h4] at h; simp only [Option.none_orElse] at h
  rcases h5 : findRowSingle ctx st with _ | r5
  rotate_left
  · rw [h5] at h; simp at h; subst h
    exact findRowSingle_appends ctx st step st' h5
  rw [h5] at h; simp only [Option.none_orElse] at h
  rcases h6 : findColSingle ctx st with _ | r6
  rotate_left
  · rw [h6] at h; simp at h; subst h
    exact findColSingle_appends ctx st step st' h6
  rw [h6] at h; simp only [Option.none_orElse] at h
  rcases h7 : findRowClaiming ctx st with _ | r7
  rotate_left
  · rw [h7] at h; simp at h; subst h
    exact findRowClaiming_appends ctx st step st' h7
  rw [h7] at h; simp only [Option.none_orElse] at h
  rcases h8 : findColClaiming ctx st with _ | r8
  rotate_left
  · rw [h8] at h; simp at h; subst h
    exact findColClaiming_appends ctx st step st' h8
  rw [h8] at h; simp only [Option.none_orElse] at h
  rcases h9 : findNakedRowSet ctx st with _ | r9
  rotate_left
  · rw [h9] at h; simp at h; subst h
    exact findNakedRowSet_appends ctx st step st' h9
  rw [h9] at h; simp only [Option.none_orElse] at h
  rcases h10 : findNakedColSet ctx st with _ | r10
  rotate_left
  · rw [h10] at h; simp at h; subst h
    exact findNakedColSet_appends ctx st step st' h10
  rw [h10] at h; simp only [Option.none_orElse] at h
  exact findPointingGroup_appends ctx st step st' h

/-! ## C8: the hypothetical test restores the state it started from -/

/-- A well-behaved nested tester only appends to the step log. -/
def NestedOk
    (nested : Option (SolverState → Option (SolveStep × SolverState))) :
    Prop :=
  ∀ f st step st', nested = some f → f st = some (step, st') →
    ∃ Δ, st'.steps = st.steps ++ Δ

theorem leadsLoopWith_steps (ctx : SolverCtx)
    (nested : Option (SolverState → Option (SolveStep × SolverState)))
    (hn : NestedOk nested) :
    ∀ (fuel : Nat) (st : SolverState),
      ∃ Δ, (leadsLoopWith ctx nested fuel st).2.steps = st.steps ++ Δ := by
  intro fuel
  induction fuel with
  | zero => intro st; exact ⟨[], by simp [leadsLoopWith]⟩
  | succ n ih =>
    intro st
    simp only [leadsLoopWith]
    split
    · exact ⟨[], by simp⟩
    · cases hc : hypoChain ctx st with
      | some r =>
        show ∃ Δ, (leadsLoopWith ctx nested n r.2).2.steps = st.steps ++ Δ
        obtain ⟨Δ, hΔ⟩ := ih r.2
        refine ⟨[r.1] ++ Δ, ?_⟩
        rw [hΔ, hypoChain_appends ctx st r.1 r.2 (by rw [hc]),
          List.append_assoc]
      | none =>
        rcases nested with _ | f
        · exact ⟨[], by simp⟩
        · show ∃ Δ, (match f st with
            | some r => leadsLoopWith ctx (some f) n r.2
            | none => ((false, st) : Bool × SolverState)).2.steps =
              st.steps ++ Δ
          cases hf : f st with
          | none => exact ⟨[], by simp⟩
          | some r =>
            obtain ⟨Δ, hΔ⟩ := ih r.2
            obtain ⟨Δ₀, hΔ₀⟩ := hn f st r.1 r.2 rfl (by rw [hf])
            refine ⟨Δ₀ ++ Δ, ?_⟩
            show (leadsLoopWith ctx (some f) n r.2).2.steps =
              st.steps ++ (Δ₀ ++ Δ)
            rw [hΔ, hΔ₀, List.append_assoc]

/-- `_leadsToContradiction` hands back exactly the snapshotted state: the
restore overwrites candidates and placed and truncates the step log to its
saved length. -/
theorem leadsCore_state (ctx : SolverCtx)
    (nested : Option (SolverState → Option (SolveStep × SolverState)))
    (hn : NestedOk nested) (st : SolverState) (sid k : String) :
    (leadsCore ctx nested st sid k).2 = st := by
  obtain ⟨Δ, hΔ⟩ :=
    leadsLoopWith_steps ctx nested hn 100 (placeSuspectNR st sid k)
  show ({ candidates := st.candidates, placed := st.placed,
          steps := (leadsLoopWith ctx nested 100
            (placeSuspectNR st sid k)).2.steps.take st.steps.length } :
          SolverState) = st
  rw [hΔ, placeSuspectNR_steps, List.take_left]

/-- A tester that restores its input state makes the inner key loop leave
the state untouched. -/
theorem testKeysWith_state
    (tester : SolverState → String → String → Bool × SolverState)
    (h : ∀ st sid k, (tester st sid k).2 = st) (testSid : String) :
    ∀ (keys : List String) (st : SolverState) (elim : List String),
      (testKeysWith tester testSid keys st elim).1 = st := by
  intro keys
  induction keys with
  | nil => intro st elim; rfl
  | cons k rest ih =>
    intro st elim
    simp only [testKeysWith]
    rw [h st testSid k]
    exact ih st _

theorem atDepthSuspectsWith_appends (ctx : SolverCtx)
    (tester : SolverState → String → String → Bool × SolverState)
    (h : ∀ st sid k, (tester st sid k).2 = st) :
    ∀ (l : List String) (st : SolverState) (step : SolveStep)
      (st' : SolverState),
      atDepthSuspectsWith ctx tester l st = some (step, st') →
        st'.steps = st.steps ++ [step] := by
  intro l
  induction l with
  | nil => intro st step st' hh; simp [atDepthSuspectsWith] at hh
  | cons sid rest ih =>
    intro st step st' hh
    simp only [atDepthSuspectsWith] at hh
    have hr : (testKeysWith tester sid (st.candidates sid) st []).1 = st :=
      testKeysWith_state tester h sid (st.candidates sid) st []
    split at hh
    · simp at hh
    · split at hh
      · have := ih _ step st' hh
        rwa [hr] at this
      · simp only [Option.some.injEq, Prod.mk.injEq] at hh
        obtain ⟨hstep, hst⟩ := hh
        subst hstep
        subst hst
        simp [propagateBasic_steps, hr]

theorem topContradictionSuspects_appends (ctx : SolverCtx)
    (tester : SolverState → String → String → Bool × SolverState)
    (h : ∀ st sid k, (tester st sid k).2 = st) :
    ∀ (l : List String) (st : SolverState) (step : SolveStep)
      (st' : SolverState),
      topContradictionSuspects ctx tester l st = some (step, st') →
        st'.steps = st.steps ++ [step] := by
  intro l
  induction l with
  | nil => intro st step st' hh; simp [topContradictionSuspects] at hh
  | cons sid rest ih =>
    intro st step st' hh
    simp only [topContradictionSuspects] at hh
    have hr : (testKeysWith tester sid (st.candidates sid) st []).1 = st :=
      testKeysWith_state tester h sid (st.candidates sid) st []
    split at hh
    · have := ih _ step st' hh
      rwa [hr] at this
    · simp only [Option.some.injEq, Prod.mk.injEq] at hh
      obtain ⟨hstep, hst⟩ := hh
      subst hstep
      subst hst
      simp [propagateBasic_steps, hr]

/-- At every depth, `_leadsToContradiction` returns with the solver's
candidate map, placed map and step log exactly as before the call. -/
theorem leadsToContradiction_state (ctx : SolverCtx) :
    ∀ (d : Nat) (st : SolverState) (sid k : String),
      (leadsToContradiction ctx d st sid k).2 = st := by
  intro d
  induction d with
  | zero =>
    intro st sid k
    refine leadsCore_state ctx none ?_ st sid k
    intro f st0 step st' hf
    simp at hf
  | succ n ih =>
    intro st sid k
    refine leadsCore_state ctx _ ?_ st sid k
    intro f st0 step st' hf hfs
    simp only [Option.some.injEq] at hf
    subst hf
    refine ⟨[step], ?_⟩
    unfold findByContradictionAtDepthWith at hfs
    exact atDepthSuspectsWith_appends ctx (leadsToContradiction ctx n)
      (fun s i c => ih s i c) _ st0 step st' hfs

/-- C8: after the hypothetical test `_leadsToContradiction(s, k)` returns
(snapshot, tentative placement, technique runs, restore), the solver's
observable state — the candidate map with element-wise equal sets, the
placed map, and the step-log length — equals its state immediately before
the call, at every nesting depth. -/
theorem c8_snapshot_roundtrip (ctx : SolverCtx) (d : Nat) (st : SolverState)
    (sid k : String) :
    (∀ s, (leadsToContradiction ctx d st sid k).2.candidates s =
      st.candidates s) ∧
    (∀ s, (leadsToContradiction ctx d st sid k).2.placed s =
      st.placed s) ∧
    (leadsToContradiction ctx d st sid k).2.steps.length =
      st.steps.length := by
  rw [leadsToContradiction_state ctx d st sid k]
  exact ⟨fun s => rfl, fun s => rfl, rfl⟩

theorem findByContradiction_appends (ctx : SolverCtx) :
    AppendsStep (findByContradiction ctx) := by
  intro st step st' h
  unfold findByContradiction at h
  exact topContradictionSuspects_appends ctx (leadsToContradiction ctx 1)
    (fun s i c => leadsToContradiction_state ctx 1 s i c) _ st step st' h

/-! ## C6: the place primitive and the propagation fixed point -/

theorem filter_length_mono {α : Type} (p q : α → Bool)
    (hle : ∀ x, q x = true → p x = true) :
    ∀ l : List α, (l.filter q).length ≤ (l.filter p).length := by
  intro l
  induction l with
  | nil => exact Nat.le_refl 0
  | cons a as ih =>
    by_cases hq : q a = true
    · have hp := hle a hq
      simp only [List.filter_cons, hq, hp, if_true, List.length_cons]
      exact Nat.succ_le_succ ih
    · simp only [List.filter_cons, hq, if_false]
      by_cases hp : p a = true
      · simp only [hp, if_true, List.length_cons]
        exact Nat.le_succ_of_le ih
      · simp only [hp, if_false]
        exact ih

theorem filter_length_strict {α : Type} (p q : α → Bool)
    (hle : ∀ x, q x = true → p x = true) (a : α) (hpa : p a = true)
    (hqa : q a = false) :
    ∀ l : List α, a ∈ l → (l.filter q).length < (l.filter p).length := by
  intro l
  induction l with
  | nil => intro h; cases h
  | cons b bs ih =>
    intro hmem
    rcases List.mem_cons.mp hmem with rfl | hmem
    · simp only [List.filter_cons, hpa, hqa, if_true, if_false,
        List.length_cons]
      exact Nat.lt_succ_of_le (filter_length_mono p q hle bs)
    · by_cases hq : q b = true
      · have hp := hle b hq
        simp only [List.filter_cons, hq, hp, if_true, List.length_cons]
        exact Nat.succ_lt_succ (ih hmem)
      · simp only [List.filter_cons, hq, if_false]
        by_cases hp : p b = true
        · simp only [hp, if_true, List.length_cons]
          exact Nat.lt_succ_of_lt (ih hmem)
        · simp only [hp, if_false]
          exact ih hmem

theorem placeSuspectNR_placed_self (st : SolverState) (s k : String) :
    (placeSuspectNR st s k).placed s = some k := by
  simp [placeSuspectNR]

theorem placeSuspectNR_placed_other (st : SolverState) (s k o : String)
    (ho : o ≠ s) : (placeSuspectNR st s k).placed o = st.placed o := by
  simp [placeSuspectNR, ho]

theorem placeSuspectNR_count_le (ctx : SolverCtx) (st : SolverState)
    (s k : String) :
    unplacedCount ctx (placeSuspectNR st s k) ≤ unplacedCount ctx st := by
  unfold unplacedCount
  apply filter_length_mono
  intro x hx
  by_cases hxs : x = s
  · subst hxs
    rw [placeSuspectNR_placed_self] at hx
    simp at hx
  · rwa [placeSuspectNR_placed_other st s k x hxs] at hx

theorem unplacedCount_place_lt (ctx : SolverCtx) (st : SolverState)
    (s k : String) (hs : s ∈ ctx.suspectIds) (hnone : st.placed s = none) :
    unplacedCount ctx (placeSuspectNR st s k) < unplacedCount ctx st := by
  unfold unplacedCount
  refine filter_length_strict _ _ ?_ s ?_ ?_ ctx.suspectIds hs
  · intro x hx
    by_cases hxs : x = s
    · subst hxs
      rw [placeSuspectNR_placed_self] at hx
      simp at hx
    · rwa [placeSuspectNR_placed_other st s k x hxs] at hx
  · rw [hnone]; rfl
  · rw [placeSuspectNR_placed_self]; rfl

theorem propStep_snd_mono (l : List String) (acc : SolverState × Bool)
    (h : acc.2 = true) : (l.foldl propStep acc).2 = true := by
  refine foldl_preserve (fun a => a.2 = true) propStep l ?_ acc h
  intro a x hx ha
  unfold propStep
  split
  · exact ha
  · split
    · rfl
    · exact ha

theorem foldProp_false :
    ∀ (l : List String) (st : SolverState),
      (l.foldl propStep (st, false)).2 = false →
        (l.foldl propStep (st, false)).1 = st ∧
        ∀ sid ∈ l, st.placed sid = none → ∀ c, st.candidates sid ≠ [c] := by
  intro l
  induction l with
  | nil =>
    intro st h
    exact ⟨rfl, by intro sid hm; cases hm⟩
  | cons sid rest ih =>
    intro st h
    rw [List.foldl_cons] at h ⊢
    by_cases hps : (st.placed sid).isSome = true
    · rw [show propStep (st, false) sid = (st, false) from by
        unfold propStep; simp [hps]] at h ⊢
      obtain ⟨h1, h2⟩ := ih st h
      refine ⟨h1, ?_⟩
      intro x hx hnone c
      rcases List.mem_cons.mp hx with rfl | hx
      · rw [hnone] at hps; simp at hps
      · exact h2 x hx hnone c
    · rcases hc : st.candidates sid with _ | ⟨k, _ | ⟨k2, ks⟩⟩
      · rw [show propStep (st, false) sid = (st, false) from by
          unfold propStep; simp [hps, hc]] at h ⊢
        obtain ⟨h1, h2⟩ := ih st h
        refine ⟨h1, ?_⟩
        intro x hx hx2 c
        rcases List.mem_cons.mp hx with rfl | hx
        · rw [hc]; simp
        · exact h2 x hx hx2 c
      · exfalso
        rw [show propStep (st, false) sid = (placeSuspectNR st sid k, true)
            from by unfold propStep; simp [hps, hc]] at h
        rw [propStep_snd_mono rest _ rfl] at h
        simp at h
      · rw [show propStep (st, false) sid = (st, false) from by
          unfold propStep; simp [hps, hc]] at h ⊢
        obtain ⟨h1, h2⟩ := ih st h
        refine ⟨h1, ?_⟩
        intro x hx hx2 c
        rcases List.mem_cons.mp hx with rfl | hx
        · rw [hc]; simp
        · exact h2 x hx hx2 c

theorem foldProp_count_le (ctx : SolverCtx) :
    ∀ (l : List String) (acc : SolverState × Bool),
      unplacedCount ctx (l.foldl propStep acc).1 ≤
        unplacedCount ctx acc.1 := by
  intro l
  induction l with
  | nil => intro acc; exact Nat.le_refl _
  | cons sid rest ih =>
    intro acc
    rw [List.foldl_cons]
    refine Nat.le_trans (ih (propStep acc sid)) ?_
    unfold propStep
    split
    · exact Nat.le_refl _
    · split
      · exact placeSuspectNR_count_le ctx acc.1 sid _
      · exact Nat.le_refl _

theorem foldProp_count_lt (ctx : SolverCtx) :
    ∀ (l : List String) (st : SolverState),
      (∀ x ∈ l, x ∈ ctx.suspectIds) →
      (l.foldl propStep (st, false)).2 = true →
      unplacedCount ctx (l.foldl propStep (st, false)).1 <
        unplacedCount ctx st := by
  intro l
  induction l with
  | nil => intro st hmem h; simp at h
  | cons sid rest ih =>
    intro st hmem h
    rw [List.foldl_cons] at h ⊢
    by_cases hps : (st.placed sid).isSome = true
    · rw [show propStep (st, false) sid = (st, false) from by
        unfold propStep; simp [hps]] at h ⊢
      exact ih st (fun x hx => hmem x (List.mem_cons_of_mem sid hx)) h
    · have hnone : st.placed sid = none := by
        cases hp2 : st.placed sid
        · rfl
        · rw [hp2] at hps; simp at hps
      rcases hc : st.candidates sid with _ | ⟨k, _ | ⟨k2, ks⟩⟩
      · rw [show propStep (st, false) sid = (st, false) from by
          unfold propStep; simp [hps, hc]] at h ⊢
        exact ih st (fun x hx => hmem x (List.mem_cons_of_mem sid hx)) h
      · rw [show propStep (st, false) sid = (placeSuspectNR st sid k, true)
            from by unfold propStep; simp [hps, hc]] at h ⊢
        calc unplacedCount ctx (rest.foldl propStep
              (placeSuspectNR st sid k, true)).1
            ≤ unplacedCount ctx (placeSuspectNR st sid k) :=
              foldProp_count_le ctx rest _
          _ < unplacedCount ctx st :=
              unplacedCount_place_lt ctx st sid k
                (hmem sid (List.mem_cons_self sid rest)) hnone
      · rw [show propStep (st, false) sid = (st, false) from by
          unfold propStep; simp [hps, hc]] at h ⊢
        exact ih st (fun x hx => hmem x (List.mem_cons_of_mem sid hx)) h

theorem propagateRound_eq_fold (ctx : SolverCtx) (st : SolverState) :
    propagateRound ctx st = ctx.suspectIds.foldl propStep (st, false) := rfl

/-- With more fuel than unplaced suspects, `_propagateBasic` reaches its
fixed point: no unplaced suspect keeps a singleton candidate set. -/
theorem propagateBasicAux_fix (ctx : SolverCtx) :
    ∀ (fuel : Nat) (st : SolverState),
      unplacedCount ctx st < fuel →
      NoNakedSingle ctx (propagateBasicAux ctx fuel st) := by
  intro fuel
  induction fuel with
  | zero => intro st h; exact absurd h (Nat.not_lt_zero _)
  | succ n ih =>
    intro st h
    simp only [propagateBasicAux]
    by_cases h2 : (propagateRound ctx st).2 = true
    · rw [if_pos h2]
      refine ih _ ?_
      have hlt := foldProp_count_lt ctx ctx.suspectIds st (fun x hx => hx)
        (by rw [← propagateRound_eq_fold]; exact h2)
      rw [← propagateRound_eq_fold] at hlt
      omega
    · rw [if_neg h2]
      have h2' : (ctx.suspectIds.foldl propStep (st, false)).2 = false := by
        rw [← propagateRound_eq_fold]
        cases hb : (propagateRound ctx st).2
        · rfl
        · exact absurd hb h2
      obtain ⟨h1, hprop⟩ := foldProp_false ctx.suspectIds st h2'
      rw [propagateRound_eq_fold, h1]
      intro sid hsid
      exact hprop sid hsid

/-- C6: the place primitive records the placement, narrows the suspect's
candidate set to the singleton, removes the cell and every cell sharing its
row or column from every other unplaced suspect's candidate set, and then
runs basic propagation — repeated naked-single placement — until no
unplaced suspect has a singleton candidate set (the safety bound 100
suffices whenever fewer than 100 suspects remain unplaced). -/
theorem c6_place_primitive (ctx : SolverCtx) (st : SolverState)
    (s k : String)
    (hfuel : unplacedCount ctx (placeSuspectNR st s k) < 100) :
    (placeSuspectNR st s k).placed s = some k ∧
    (placeSuspectNR st s k).candidates s = [k] ∧
    (∀ o, o ≠ s → st.placed o = none →
      (placeSuspectNR st s k).candidates o =
        ((st.candidates o).filter (fun j => j ≠ k)).filter (fun j =>
          ¬((parseKey j).1 = (parseKey k).1 ∨
            (parseKey j).2 = (parseKey k).2))) ∧
    placeSuspect ctx st s k = propagateBasic ctx (placeSuspectNR st s k) ∧
    NoNakedSingle ctx (placeSuspect ctx st s k) := by
  refine ⟨placeSuspectNR_placed_self st s k, ?_, ?_, rfl, ?_⟩
  · simp [placeSuspectNR]
  · intro o ho hnone
    simp [placeSuspectNR, ho, hnone]
  · exact propagateBasicAux_fix ctx 100 (placeSuspectNR st s k) hfuel

theorem c6_place_primitive_witness :
    unplacedCount tinyHintCtx (placeSuspectNR (solverInit tinyHintCtx [])
        "alice" "0-0") < 100 ∧
    ((placeSuspectNR (solverInit tinyHintCtx []) "alice" "0-0").placed
        "alice" = some "0-0" ∧
     (placeSuspectNR (solverInit tinyHintCtx []) "alice" "0-0").candidates
        "alice" = ["0-0"] ∧
     (∀ o, o ≠ "alice" → (solverInit tinyHintCtx []).placed o = none →
       (placeSuspectNR (solverInit tinyHintCtx []) "alice" "0-0").candidates
           o =
         (((solverInit tinyHintCtx []).candidates o).filter
             (fun j => j ≠ "0-0")).filter (fun j =>
           ¬((parseKey j).1 = (parseKey "0-0").1 ∨
             (parseKey j).2 = (parseKey "0-0").2))) ∧
     placeSuspect tinyHintCtx (solverInit tinyHintCtx []) "alice" "0-0" =
       propagateBasic tinyHintCtx
         (placeSuspectNR (solverInit tinyHintCtx []) "alice" "0-0") ∧
     NoNakedSingle tinyHintCtx
       (placeSuspect tinyHintCtx (solverInit tinyHintCtx [])
         "alice" "0-0")) :=
  ⟨by decide, c6_place_primitive tinyHintCtx (solverInit tinyHintCtx [])
    "alice" "0-0" (by decide)⟩

/-! ## C2 (amended): `initialize` records pre-placements unconditionally -/

theorem propStep_placed_preserve (s k : String)
    (p : SolverState × Bool) (sid : String)
    (hp : p.1.placed s = some k) : (propStep p sid).1.placed s = some k := by
  unfold propStep
  split
  · exact hp
  · split
    · rename_i hps c hc
      by_cases hss : sid = s
      · subst hss
        simp_all
      · show (placeSuspectNR p.1 sid c).placed s = some k
        rw [placeSuspectNR_placed_other p.1 sid c s
          (fun hh => hss hh.symm)]
        exact hp
    · exact hp

theorem propagateRound_placed_preserve (ctx : SolverCtx) (st : SolverState)
    (s k : String) (hp : st.placed s = some k) :
    (propagateRound ctx st).1.placed s = some k := by
  rw [propagateRound_eq_fold]
  refine foldl_preserve (fun a => a.1.placed s = some k) propStep
    ctx.suspectIds ?_ (st, false) hp
  intro a x hx ha
  exact propStep_placed_preserve s k a x ha

theorem propagateBasicAux_placed_preserve (ctx : SolverCtx) (s k : String) :
    ∀ (fuel : Nat) (st : SolverState), st.placed s = some k →
      (propagateBasicAux ctx fuel st).placed s = some k := by
  intro fuel
  induction fuel with
  | zero => intro st hp; exact hp
  | succ n ih =>
    intro st hp
    simp only [propagateBasicAux]
    split
    · exact ih _ (propagateRound_placed_preserve ctx st s k hp)
    · exact propagateRound_placed_preserve ctx st s k hp

theorem foldPlace_placed (s k : String) :
    ∀ (l : List (String × String)) (st : SolverState),
      (k, s) ∈ l → (∀ p ∈ l, p.2 = s → p.1 = k) →
      (l.foldl (fun st pk => placeSuspectNR st pk.2 pk.1) st).placed s =
        some k := by
  intro l
  induction l with
  | nil => intro st h; cases h
  | cons p rest ih =>
    intro st hmem hall
    rw [List.foldl_cons]
    rcases List.mem_cons.mp hmem with heq | hmem
    · have h0 : (placeSuspectNR st p.2 p.1).placed s = some k := by
        rw [← heq]
        exact placeSuspectNR_placed_self st s k
      refine foldl_preserve (fun st => st.placed s = some k)
        (fun st pk => placeSuspectNR st pk.2 pk.1) rest ?_ _ h0
      intro st1 q hq hP
      show (placeSuspectNR st1 q.2 q.1).placed s = some k
      by_cases hqs : q.2 = s
      · have hqk : q.1 = k := hall q (List.mem_cons_of_mem p hq) hqs
        rw [hqs, hqk]
        exact placeSuspectNR_placed_self st1 s k
      · rw [placeSuspectNR_placed_other st1 q.2 q.1 s
          (fun hh => hqs hh.symm)]
        exact hP
    · exact ih _ hmem (fun q hq => hall q (List.mem_cons_of_mem p hq))

/-- C2 corrected: `initialize` performs no occupiability check on
pre-placements.  Whatever the cell's type (occupiable or not), the suspect
is recorded as placed at that cell — nothing is rejected, before or after
propagation. -/
theorem c2_no_rejection (ctx : SolverCtx)
    (placements : List (String × String)) (k s : String)
    (hmem : (k, s) ∈ placements)
    (huniq : ∀ p ∈ placements, p.2 = s → p.1 = k) :
    (solverInit ctx placements).placed s = some k := by
  unfold solverInit propagateBasic
  exact propagateBasicAux_placed_preserve ctx s k 100 _
    (foldPlace_placed s k placements _ hmem huniq)

theorem c2_no_rejection_witness :
    (("0-3", "crystal") ∈ [("0-3", "crystal")] ∧
     ∀ p ∈ [("0-3", "crystal")], p.2 = "crystal" → p.1 = "0-3") ∧
    (solverInit carRepairCtx [("0-3", "crystal")]).placed "crystal" =
      some "0-3" :=
  ⟨by decide, c2_no_rejection carRepairCtx [("0-3", "crystal")] "0-3"
    "crystal" (by decide) (by decide)⟩

/-! ## C9 (amended): the curated-hint traversal -/

theorem filterByTarget_nil (t : Option Target) (b : Board) :
    filterByTarget [] t b = [] := by
  rcases t with _ | tgt
  · rfl
  · cases tgt with
    | room tr =>
      simp only [filterByTarget]
      cases alGet b.roomCells tr <;> rfl
    | rooms trs => rfl
    | cellType tt tr => rfl
    | adjacentTo tt => rfl
    | row tr => rfl
    | any => rfl

theorem findCuratedHintAux_eq_find (puzzle : Puzzle) (board : Board)
    (rawSt solvedSt : SolverState) (placedIds : List String) :
    ∀ l : List CuratedHint,
      findCuratedHintAux puzzle board rawSt solvedSt placedIds l =
        (l.find? (curatedEligible board rawSt solvedSt placedIds)).map
          (curatedEnvelope puzzle board rawSt solvedSt) := by
  intro l
  induction l with
  | nil => rfl
  | cons hint rest ih =>
    by_cases h1 : placedIds.contains hint.suspect = true
    · have he : ¬(curatedEligible board rawSt solvedSt placedIds hint
          = true) := by
        simp only [curatedEligible, Bool.and_eq_true, Bool.not_eq_true']
        intro hh
        exact Bool.noConfusion (h1 ▸ hh.1.1.1)
      rw [List.find?_cons_of_neg _ he]
      simp only [findCuratedHintAux]
      rw [if_pos h1]
      exact ih
    · by_cases h2 : hint.prerequisites.all
          (fun p => placedIds.contains p) = true
      · by_cases h3 : (solvedSt.candidates hint.suspect).isEmpty = true
        · have hnil : solvedSt.candidates hint.suspect = [] :=
            List.isEmpty_iff.mp h3
          have he : ¬(curatedEligible board rawSt solvedSt placedIds hint
              = true) := by
            simp [curatedEligible, hnil, filterByTarget_nil]
          rw [List.find?_cons_of_neg _ he]
          simp only [findCuratedHintAux]
          rw [if_neg h1, if_neg (fun hh => hh h2), if_pos h3]
          exact ih
        · by_cases h4 : (filterByTarget (solvedSt.candidates hint.suspect)
              hint.target board).isEmpty = true
          · have he : ¬(curatedEligible board rawSt solvedSt placedIds hint
                = true) := by
              simp [curatedEligible, h4]
            rw [List.find?_cons_of_neg _ he]
            simp only [findCuratedHintAux]
            rw [if_neg h1, if_neg (fun hh => hh h2), if_neg h3, if_pos h4]
            exact ih
          · by_cases h5 : (match hint.skipIfMoreThan with
              | some n =>
                (n ≠ 0 ∧
                  (filterByTarget (rawSt.candidates hint.suspect)
                    hint.target board).length > n : Bool)
              | none => false) = true
            · have he : ¬(curatedEligible board rawSt solvedSt placedIds
                  hint = true) := by
                simp only [curatedEligible, Bool.and_eq_true,
                  Bool.not_eq_true']
                intro hh
                exact Bool.noConfusion (h5 ▸ hh.2)
              rw [List.find?_cons_of_neg _ he]
              simp only [findCuratedHintAux]
              rw [if_neg h1, if_neg (fun hh => hh h2), if_neg h3,
                if_neg h4, if_pos h5]
              exact ih
            · have hel : curatedEligible board rawSt solvedSt placedIds
                  hint = true := by
                simp only [curatedEligible, Bool.and_eq_true,
                  Bool.not_eq_true']
                exact ⟨⟨⟨Bool.eq_false_iff.mpr h1, h2⟩,
                  Bool.eq_false_iff.mpr h4⟩, Bool.eq_false_iff.mpr h5⟩
              rw [List.find?_cons_of_pos _ hel]
              simp only [findCuratedHintAux]
              rw [if_neg h1, if_neg (fun hh => hh h2), if_neg h3,
                if_neg h4, if_neg h5]
              rfl
      · have he : ¬(curatedEligible board rawSt solvedSt placedIds hint
            = true) := by
          simp only [curatedEligible, Bool.and_eq_true, Bool.not_eq_true']
          intro hh
          exact h2 hh.1.1.2
        rw [List.find?_cons_of_neg _ he]
        simp only [findCuratedHintAux]
        rw [if_neg h1, if_pos h2]
        exact ih

/-- C9 corrected: `_findCuratedHint` traverses the hints in ascending
`order` (stable for ties) and returns the envelope of the first hint whose
suspect is unplaced, whose prerequisites are all placed, whose
target-filtered solved-solver candidates are non-empty, and whose
`skipIfMoreThan` check does not fire (the bound `0` is JS-falsy and
disables the check); the message is `messages.single` when the
target-filtered raw count is ≤ 1 and `single` is set, else
`messages.multiple` when it is set, else whichever of the two is set —
with the `roomBlocked` substitution overriding in the non-single blocked
case.  (The claim's unconditional `single`/`multiple` choice by raw count
alone is what fails: see the counterexample.) -/
theorem c9_curated_traversal (puzzle : Puzzle) (board : Board)
    (rawSt solvedSt : SolverState) (placedIds : List String) :
    findCuratedHint puzzle board rawSt solvedSt placedIds =
      ((sortByKey (fun h => h.order) puzzle.hints).find?
        (curatedEligible board rawSt solvedSt placedIds)).map
        (curatedEnvelope puzzle board rawSt solvedSt) :=
  findCuratedHintAux_eq_find puzzle board rawSt solvedSt placedIds
    (sortByKey (fun h => h.order) puzzle.hints)

/-! ## C5 (amended): the naked-set sort is stable, ties in declaration
order -/

theorem insByKey_mem {α : Type} (key : α → Int) (x : α) :
    ∀ (l : List α) (z : α), z ∈ insByKey key x l ↔ z = x ∨ z ∈ l := by
  intro l
  induction l with
  | nil => intro z; simp [insByKey]
  | cons y ys ih =>
    intro z
    simp only [insByKey]
    split
    · simp only [List.mem_cons, ih z]
      tauto
    · simp only [List.mem_cons]

theorem insByKey_pairwise {α : Type} (key : α → Int) (x : α) :
    ∀ l : List α, l.Pairwise (fun a b => key a ≤ key b) →
      (insByKey key x l).Pairwise (fun a b => key a ≤ key b) := by
  intro l
  induction l with
  | nil => intro h; simp [insByKey]
  | cons y ys ih =>
    intro h
    rw [List.pairwise_cons] at h
    obtain ⟨hy, hys⟩ := h
    simp only [insByKey]
    split
    · rename_i hle
      rw [List.pairwise_cons]
      refine ⟨?_, ih hys⟩
      intro z hz
      rcases (insByKey_mem key x ys z).mp hz with rfl | hz
      · exact hle
      · exact hy z hz
    · rename_i hgt
      rw [List.pairwise_cons]
      refine ⟨?_, List.pairwise_cons.mpr ⟨hy, hys⟩⟩
      intro z hz
      rcases List.mem_cons.mp hz with rfl | hz
      · exact le_of_not_le hgt
      · exact le_trans (le_of_not_le hgt) (hy z hz)

theorem insByKey_filter {α : Type} (key : α → Int) (x : α) (v : Int) :
    ∀ l : List α, l.Pairwise (fun a b => key a ≤ key b) →
      (insByKey key x l).filter (fun z => key z = v) =
        (if key x = v then
          l.filter (fun z => key z = v) ++ [x]
        else l.filter (fun z => key z = v)) := by
  intro l
  induction l with
  | nil =>
    intro _
    by_cases hx : key x = v
    · simp [insByKey, hx]
    · simp [insByKey, hx]
  | cons y ys ih =>
    intro h
    rw [List.pairwise_cons] at h
    obtain ⟨hy, hys⟩ := h
    simp only [insByKey]
    split
    · rename_i hle
      by_cases hx : key x = v <;> by_cases hyv : key y = v <;>
        simp [List.filter_cons, ih hys, hx, hyv]
    · rename_i hgt
      by_cases hx : key x = v
      · have hz : ∀ z ∈ y :: ys, ¬(key z = v) := by
          intro z hzz
          rcases List.mem_cons.mp hzz with rfl | hzz
          · exact fun hzv => hgt (le_of_eq (by rw [hzv, hx]))
          · exact fun hzv =>
              hgt (le_trans (hy z hzz) (le_of_eq (by rw [hzv, hx])))
        have hfil : (y :: ys).filter (fun z => (key z = v : Bool)) = [] := by
          rw [List.filter_eq_nil_iff]
          intro z hzz
          simp only [decide_eq_true_eq]
          exact hz z hzz
        simp [List.filter_cons, hx, hfil]
      · simp [List.filter_cons, hx]

theorem sortFold_pairwise {α : Type} (key : α → Int) :
    ∀ (l : List α) (acc : List α),
      acc.Pairwise (fun a b => key a ≤ key b) →
      (l.foldl (fun acc x => insByKey key x acc) acc).Pairwise
        (fun a b => key a ≤ key b) := by
  intro l
  induction l with
  | nil => intro acc h; exact h
  | cons x xs ih =>
    intro acc h
    rw [List.foldl_cons]
    exact ih _ (insByKey_pairwise key x acc h)

theorem sortByKey_pairwise {α : Type} (key : α → Int) (l : List α) :
    (sortByKey key l).Pairwise (fun a b => key a ≤ key b) :=
  sortFold_pairwise key l [] List.Pairwise.nil

theorem sortFold_filter {α : Type} (key : α → Int) (v : Int) :
    ∀ (l : List α) (acc : List α),
      acc.Pairwise (fun a b => key a ≤ key b) →
      (l.foldl (fun acc x => insByKey key x acc) acc).filter
          (fun z => key z = v) =
        acc.filter (fun z => key z = v) ++
          l.filter (fun z => key z = v) := by
  intro l
  induction l with
  | nil => intro acc h; simp
  | cons x xs ih =>
    intro acc h
    rw [List.foldl_cons, ih _ (insByKey_pairwise key x acc h),
      insByKey_filter key x v acc h]
    by_cases hx : key x = v
    · simp [List.filter_cons, hx]
    · simp [List.filter_cons, hx]

/-- Stability of `sortByKey`: the subsequence of entries with any fixed
key value is exactly the input subsequence, in input order. -/
theorem sortByKey_filter {α : Type} (key : α → Int) (v : Int) (l : List α) :
    (sortByKey key l).filter (fun z => key z = v) =
      l.filter (fun z => key z = v) := by
  unfold sortByKey
  rw [sortFold_filter key v l [] List.Pairwise.nil]
  rfl

/-- C5 corrected: both naked-set searches enumerate groups over the
unplaced suspects ordered by ascending candidate row-set (resp. column-set)
size, but ties are NOT broken lexicographically: the sort is stable, so
suspects with equal set sizes stay in the puzzle's declaration order.  The
ordering is ascending on the key (Pairwise), and for every key value the
subsequence with that key equals the declaration-order subsequence; the
emitted step is the one determined by that ordering. -/
theorem c5_enumeration_order (ctx : SolverCtx) (st : SolverState) :
    (findNakedRowSet ctx st =
      ((List.range (min ((nakedRowOrder ctx st).length - 1) 6 + 1)).drop
        2).firstM (fun size => searchRowGroup ctx st
          (nakedRowOrder ctx st) size (nakedRowOrder ctx st) [] [])) ∧
    (nakedRowOrder ctx st).Pairwise
      (fun a b => (a.2.length : Int) ≤ (b.2.length : Int)) ∧
    (∀ v : Int, (nakedRowOrder ctx st).filter
        (fun p => ((p.2.length : Int) = v)) =
      ((ctx.suspectIds.filter (fun sid => (st.placed sid).isNone)).map
        (fun sid => (sid, rowsOfCands (st.candidates sid)))).filter
        (fun p => ((p.2.length : Int) = v))) ∧
    (findNakedColSet ctx st =
      ((List.range (min ((nakedColOrder ctx st).length - 1) 6 + 1)).drop
        2).firstM (fun size => searchColGroup ctx st
          (nakedColOrder ctx st) size (nakedColOrder ctx st) [] [])) ∧
    (nakedColOrder ctx st).Pairwise
      (fun a b => (a.2.length : Int) ≤ (b.2.length : Int)) ∧
    (∀ v : Int, (nakedColOrder ctx st).filter
        (fun p => ((p.2.length : Int) = v)) =
      ((ctx.suspectIds.filter (fun sid => (st.placed sid).isNone)).map
        (fun sid => (sid, colsOfCands (st.candidates sid)))).filter
        (fun p => ((p.2.length : Int) = v))) :=
  ⟨rfl, sortByKey_pairwise _ _, fun v => sortByKey_filter _ v _,
   rfl, sortByKey_pairwise _ _, fun v => sortByKey_filter _ v _⟩

/-! ## C1 (amended): the four-type occupiable constant and
`precomputeBoard` membership -/

theorem addUnique_mem (l : List String) (k z : String) :
    z ∈ addUnique l k ↔ z ∈ l ∨ z = k := by
  by_cases h : l.contains k = true
  · rw [addUnique, if_pos h]
    have hk : k ∈ l := by simpa using h
    constructor
    · exact Or.inl
    · rintro (h2 | rfl)
      · exact h2
      · exact hk
  · rw [addUnique, if_neg h]
    simp [List.mem_append]

theorem firstPassStep_occ (acc : Board) (rcc : Nat × Nat × Cell) :
    (firstPassStep acc rcc).occupiableCells =
      if occupiableTypes.contains rcc.2.2.type then
        addUnique acc.occupiableCells (createCellKey rcc.1 rcc.2.1)
      else acc.occupiableCells := by
  simp only [firstPassStep]
  split <;> rfl

theorem foldFirst_occ_mem :
    ∀ (l : List (Nat × Nat × Cell)) (acc : Board) (key : String),
      key ∈ (l.foldl firstPassStep acc).occupiableCells ↔
        key ∈ acc.occupiableCells ∨
        ∃ rcc ∈ l, key = createCellKey rcc.1 rcc.2.1 ∧
          rcc.2.2.type ∈ occupiableTypes := by
  intro l
  induction l with
  | nil => intro acc key; simp
  | cons rcc rest ih =>
    intro acc key
    rw [List.foldl_cons, ih]
    by_cases hocc : occupiableTypes.contains rcc.2.2.type = true
    · rw [firstPassStep_occ, if_pos hocc, addUnique_mem]
      have hocc2 : rcc.2.2.type ∈ occupiableTypes := by simpa using hocc
      simp only [List.mem_cons]
      constructor
      · rintro ((h | rfl) | ⟨x, hx, hrest⟩)
        · exact Or.inl h
        · exact Or.inr ⟨rcc, Or.inl rfl, rfl, hocc2⟩
        · exact Or.inr ⟨x, Or.inr hx, hrest⟩
      · rintro (h | ⟨x, (rfl | hx), hkey, htype⟩)
        · exact Or.inl (Or.inl h)
        · exact Or.inl (Or.inr hkey)
        · exact Or.inr ⟨x, hx, hkey, htype⟩
    · rw [firstPassStep_occ, if_neg hocc]
      have hocc2 : rcc.2.2.type ∉ occupiableTypes := by simpa using hocc
      simp only [List.mem_cons]
      constructor
      · rintro (h | ⟨x, hx, hrest⟩)
        · exact Or.inl h
        · exact Or.inr ⟨x, Or.inr hx, hrest⟩
      · rintro (h | ⟨x, (rfl | hx), hkey, htype⟩)
        · exact Or.inl h
        · exact absurd htype hocc2
        · exact Or.inr ⟨x, hx, hkey, htype⟩

/-- C1 corrected: the single occupiable-type constant of `gameData.js` has
four elements — empty, carpet, chair, pondWater — not the spec's ten; and
for every board layout, `precomputeBoard` puts a key into
`occupiableCells` exactly when some indexed layout cell yields that key
and its type belongs to the constant. -/
theorem c1_occupiable (boardLayout : List (List Cell)) (key : String) :
    occupiableTypes = ["empty", "carpet", "chair", "pondWater"] ∧
    (key ∈ (precomputeBoard boardLayout).occupiableCells ↔
      ∃ rcc ∈ indexedCells 0 boardLayout,
        key = createCellKey rcc.1 rcc.2.1 ∧
        rcc.2.2.type ∈ occupiableTypes) := by
  refine ⟨rfl, ?_⟩
  show key ∈ ((indexedCells 0 boardLayout).foldl firstPassStep
      ⟨boardLayout.length, (boardLayout.headD []).length,
        [], [], [], [], [], [], []⟩).occupiableCells ↔ _
  rw [foldFirst_occ_mem]
  simp

/-! ## C10: room targets missing from the board's `roomCells` index -/

theorem alGet_cons {κ α : Type} [DecidableEq κ] (p : κ × α)
    (m : List (κ × α)) (x : κ) :
    alGet (p :: m) x = if p.1 = x then some p.2 else alGet m x := by
  by_cases h : p.1 = x
  · rw [if_pos h]
    unfold alGet
    rw [List.find?_cons_of_pos _ (by simpa using h)]
    rfl
  · rw [if_neg h]
    unfold alGet
    rw [List.find?_cons_of_neg _ (by simpa using h)]

theorem alGet_map_update {κ α : Type} [DecidableEq κ] (k : κ) (v : α)
    (x : κ) :
    ∀ m : List (κ × α),
      alGet (m.map (fun p => if p.1 = k then (k, v) else p)) x =
        if x = k then (alGet m k).map (fun _ => v) else alGet m x := by
  intro m
  induction m with
  | nil => by_cases h : x = k <;> simp [alGet, h]
  | cons p m ih =>
    rw [List.map_cons]
    by_cases hpk : p.1 = k
    · by_cases hxk : x = k
      · simp [alGet_cons, hpk, hxk]
      · have hkx : ¬(k = x) := fun hh => hxk hh.symm
        simp [alGet_cons, hpk, hkx, hxk, ih]
    · by_cases hxk : x = k
      · have hpx : ¬(p.1 = x) := fun hh => hpk (hh.trans hxk)
        subst hxk
        simp [alGet_cons, hpk, hpx, ih]
      · simp [alGet_cons, hpk, hxk, ih]

theorem alGet_append_single {κ α : Type} [DecidableEq κ] (k : κ) (v : α)
    (x : κ) :
    ∀ m : List (κ × α),
      alGet (m ++ [(k, v)]) x =
        match alGet m x with
        | some w => some w
        | none => if k = x then some v else none := by
  intro m
  induction m with
  | nil => simp [alGet_cons, alGet]
  | cons p m ih =>
    rw [List.cons_append, alGet_cons, alGet_cons]
    by_cases hpx : p.1 = x
    · rw [if_pos hpx, if_pos hpx]
    · rw [if_neg hpx, if_neg hpx, ih]

theorem alGet_none_of_any_false {κ α : Type} [DecidableEq κ] (k : κ)
    (m : List (κ × α)) (h : m.any (fun p => p.1 = k) = false) :
    alGet m k = none := by
  unfold alGet
  rw [List.find?_eq_none.mpr]
  · rfl
  · intro p hp
    have := (List.any_eq_false.mp h) p hp
    simpa using this

theorem alGet_isSome_of_any {κ α : Type} [DecidableEq κ] (k : κ) :
    ∀ m : List (κ × α), m.any (fun p => p.1 = k) = true →
      (alGet m k).isSome = true := by
  intro m
  induction m with
  | nil => intro h; cases h
  | cons p m ih =>
    intro h
    rw [alGet_cons]
    by_cases hpk : p.1 = k
    · rw [if_pos hpk]
      rfl
    · rw [if_neg hpk]
      rw [List.any_cons] at h
      rcases (Bool.or_eq_true _ _).mp h with h1 | h2
      · exact absurd (by simpa using h1) hpk
      · exact ih h2

theorem alGet_mapSet {κ α : Type} [DecidableEq κ] (m : List (κ × α))
    (k : κ) (v : α) (x : κ) :
    alGet (mapSet m k v) x = if x = k then some v else alGet m x := by
  unfold mapSet
  by_cases hany : m.any (fun p => p.1 = k) = true
  · rw [if_pos hany, alGet_map_update]
    by_cases hxk : x = k
    · rw [if_pos hxk, if_pos hxk]
      have hs := alGet_isSome_of_any k m hany
      rcases hmk : alGet m k with _ | w
      · rw [hmk] at hs
        cases hs
      · rfl
    · rw [if_neg hxk, if_neg hxk]
  · rw [if_neg hany, alGet_append_single]
    have hnone : alGet m k = none := alGet_none_of_any_false k m (by
      cases hb : m.any (fun p => p.1 = k)
      · rfl
      · exact absurd hb hany)
    by_cases hxk : x = k
    · subst hxk
      rw [hnone]
    · have hkx : ¬(k = x) := fun hh => hxk hh.symm
      rcases hmx : alGet m x with _ | w
      · simp [hkx, hxk]
      · simp [hxk]

theorem firstPassStep_cellInfo (acc : Board) (rcc : Nat × Nat × Cell) :
    (firstPassStep acc rcc).cellInfo =
      mapSet acc.cellInfo (createCellKey rcc.1 rcc.2.1)
        ⟨rcc.1, rcc.2.1, rcc.2.2.room, rcc.2.2.type⟩ := by
  simp only [firstPassStep]
  split <;> rfl

theorem firstPassStep_roomCells (acc : Board) (rcc : Nat × Nat × Cell) :
    (firstPassStep acc rcc).roomCells =
      if occupiableTypes.contains rcc.2.2.type then
        mapSet acc.roomCells rcc.2.2.room
          (addUnique (alGetD acc.roomCells rcc.2.2.room [])
            (createCellKey rcc.1 rcc.2.1))
      else acc.roomCells := by
  simp only [firstPassStep]
  split <;> rfl

theorem foldFirst_room_inv :
    ∀ (l : List (Nat × Nat × Cell)) (acc : Board),
      (∀ rcc ∈ l, alGet acc.cellInfo (createCellKey rcc.1 rcc.2.1) = none)
      → (l.map (fun rcc => createCellKey rcc.1 rcc.2.1)).Nodup →
      (∀ key ∈ acc.occupiableCells, ∃ info,
        alGet acc.cellInfo key = some info ∧
        (alGet acc.roomCells info.room).isSome = true) →
      ∀ key ∈ (l.foldl firstPassStep acc).occupiableCells, ∃ info,
        alGet (l.foldl firstPassStep acc).cellInfo key = some info ∧
        (alGet (l.foldl firstPassStep acc).roomCells info.room).isSome
          = true := by
  intro l
  induction l with
  | nil => intro acc _ _ hinv; exact hinv
  | cons rcc rest ih =>
    intro acc hfresh hnodup hinv
    rw [List.map_cons, List.nodup_cons] at hnodup
    obtain ⟨hhead, htail⟩ := hnodup
    rw [List.foldl_cons]
    refine ih (firstPassStep acc rcc) ?_ htail ?_
    · intro rcc2 hmem
      rw [firstPassStep_cellInfo, alGet_mapSet]
      rw [if_neg (fun hh : createCellKey rcc2.1 rcc2.2.1 =
          createCellKey rcc.1 rcc.2.1 => hhead (hh ▸ List.mem_map_of_mem
        (fun r => createCellKey r.1 r.2.1) hmem))]
      exact hfresh rcc2 (List.mem_cons_of_mem rcc hmem)
    · intro key hkey
      rw [firstPassStep_cellInfo, firstPassStep_roomCells]
      rw [firstPassStep_occ] at hkey
      have hf0 : alGet acc.cellInfo (createCellKey rcc.1 rcc.2.1) = none :=
        hfresh rcc (List.mem_cons_self rcc rest)
      by_cases hocc : occupiableTypes.contains rcc.2.2.type = true
      · rw [if_pos hocc] at hkey ⊢
        rcases (addUnique_mem acc.occupiableCells _ key).mp hkey with
          hold | rfl
        · obtain ⟨info, hci, hrc⟩ := hinv key hold
          have hne : key ≠ createCellKey rcc.1 rcc.2.1 := by
            intro hh
            rw [hh, hf0] at hci
            cases hci
          refine ⟨info, ?_, ?_⟩
          · rw [alGet_mapSet, if_neg hne]
            exact hci
          · rw [alGet_mapSet]
            by_cases hr : info.room = rcc.2.2.room
            · rw [if_pos hr]; rfl
            · rw [if_neg hr]; exact hrc
        · refine ⟨⟨rcc.1, rcc.2.1, rcc.2.2.room, rcc.2.2.type⟩, ?_, ?_⟩
          · rw [alGet_mapSet, if_pos rfl]
          · rw [alGet_mapSet, if_pos rfl]; rfl
      · rw [if_neg hocc] at hkey ⊢
        obtain ⟨info, hci, hrc⟩ := hinv key hkey
        have hne : key ≠ createCellKey rcc.1 rcc.2.1 := by
          intro hh
          rw [hh, hf0] at hci
          cases hci
        refine ⟨info, ?_, hrc⟩
        rw [alGet_mapSet, if_neg hne]
        exact hci

theorem roomsFold_nil (b : Board) (trs : List String)
    (l : List String)
    (h : ∀ k ∈ l, ∀ info, alGet b.cellInfo k = some info →
      trs.contains info.room = false) :
    l.foldl (fun result key =>
      match alGet b.cellInfo key with
      | some info =>
        if trs.contains info.room then addUnique result key else result
      | none => result) [] = [] := by
  refine foldl_preserve (fun res => res = []) _ l ?_ [] rfl
  intro res key hkey hres
  subst hres
  cases hci : alGet b.cellInfo key with
  | none => simp [hci]
  | some info =>
    simp only [hci]
    rw [if_neg]
    intro hcc
    rw [h key hkey info hci] at hcc
    cases hcc

/-- C10: a hint target of type `room` naming a room absent from the
board's `roomCells` index leaves the candidate set unchanged (so such a
hint is not skipped for emptiness and highlights all the suspect's solver
candidates), while a `rooms` target listing only such rooms yields the
empty set — provided the layout's cell keys are distinct and the
candidates are occupiable cells of the board, as the solver guarantees. -/
theorem c10_missing_room_target (boardLayout : List (List Cell))
    (candidates : List String) (tr : String) (trs : List String)
    (hnodup : ((indexedCells 0 boardLayout).map
      (fun rcc => createCellKey rcc.1 rcc.2.1)).Nodup)
    (hroom : alGet (precomputeBoard boardLayout).roomCells tr = none)
    (hcand : ∀ k ∈ candidates,
      k ∈ (precomputeBoard boardLayout).occupiableCells)
    (htrs : ∀ r ∈ trs,
      alGet (precomputeBoard boardLayout).roomCells r = none) :
    filterByTarget candidates (some (.room tr))
        (precomputeBoard boardLayout) = candidates ∧
    filterByTarget candidates (some (.rooms trs))
        (precomputeBoard boardLayout) = [] := by
  have hinv : ∀ key ∈ (precomputeBoard boardLayout).occupiableCells,
      ∃ info,
        alGet (precomputeBoard boardLayout).cellInfo key = some info ∧
        (alGet (precomputeBoard boardLayout).roomCells info.room).isSome
          = true :=
    foldFirst_room_inv (indexedCells 0 boardLayout)
      ⟨boardLayout.length, (boardLayout.headD []).length,
        [], [], [], [], [], [], []⟩
      (fun _ _ => rfl) hnodup (fun k hk => absurd hk (List.not_mem_nil k))
  constructor
  · simp only [filterByTarget]
    rw [hroom]
  · simp only [filterByTarget]
    refine roomsFold_nil (precomputeBoard boardLayout) trs candidates ?_
    intro k hk info hci
    obtain ⟨info2, hci2, hrc2⟩ := hinv k (hcand k hk)
    rw [hci] at hci2
    injection hci2 with he
    subst he
    cases hcc : trs.contains info.room
    · rfl
    · exfalso
      have hmem : info.room ∈ trs := by simpa using hcc
      rw [htrs info.room hmem] at hrc2
      cases hrc2

theorem c10_missing_room_target_witness :
    ((((indexedCells 0 tinyLayout).map
        (fun rcc => createCellKey rcc.1 rcc.2.1)).Nodup) ∧
     alGet (precomputeBoard tinyLayout).roomCells "nowhere" = none ∧
     (∀ k ∈ (solverInit tinyHintCtx []).candidates "alice",
       k ∈ (precomputeBoard tinyLayout).occupiableCells) ∧
     (∀ r ∈ ["nowhere"],
       alGet (precomputeBoard tinyLayout).roomCells r = none)) ∧
    (filterByTarget ((solverInit tinyHintCtx []).candidates "alice")
        (some (.room "nowhere")) (precomputeBoard tinyLayout) =
      (solverInit tinyHintCtx []).candidates "alice" ∧
     filterByTarget ((solverInit tinyHintCtx []).candidates "alice")
        (some (.rooms ["nowhere"])) (precomputeBoard tinyLayout) = []) :=
  ⟨⟨by decide, by decide, by decide, by decide⟩,
   c10_missing_room_target tinyLayout
     ((solverInit tinyHintCtx []).candidates "alice") "nowhere"
     ["nowhere"] (by decide) (by decide) (by decide) (by decide)⟩

/-! ## C3 (amended): core invariant machinery -/

theorem foldAdd_subset (Q : String → Prop)
    (f : List String → String → List String) :
    ∀ (l : List String),
      (∀ res k, k ∈ l → ∀ z ∈ f res k, z ∈ res ∨ (z = k ∧ Q k)) →
      ∀ (init : List String) (z : String), z ∈ l.foldl f init →
        z ∈ init ∨ ∃ k ∈ l, z = k ∧ Q k := by
  intro l
  induction l with
  | nil => intro _ init z hz; exact Or.inl hz
  | cons a as ih =>
    intro hf init z hz
    rw [List.foldl_cons] at hz
    rcases ih (fun res k hk => hf res k (List.mem_cons_of_mem a hk))
        (f init a) z hz with h1 | ⟨k, hk, hzk⟩
    · rcases hf init a (List.mem_cons_self a as) z h1 with h2 | h2
      · exact Or.inl h2
      · exact Or.inr ⟨a, List.mem_cons_self a as, h2⟩
    · exact Or.inr ⟨k, List.mem_cons_of_mem a hk, hzk⟩

theorem foldAdd_source (f : List String → String → List String)
    (l : List String) (hf : ∀ res k, ∀ z ∈ f res k, z ∈ res ∨ z = k) :
    ∀ z ∈ l.foldl f [], z ∈ l := by
  intro z hz
  rcases foldAdd_subset (fun _ => True) f l
      (fun res k _ z hz => (hf res k z hz).imp id (fun h => ⟨h, trivial⟩))
      [] z hz with h | ⟨k, hk, rfl, -⟩
  · cases h
  · exact hk

theorem interFold_subset (src other : List String) :
    ∀ z ∈ src.foldl (fun result item =>
        if other.contains item then addUnique result item else result) [],
      z ∈ src ∧ z ∈ other := by
  intro z hz
  have hf : ∀ res k, k ∈ src →
      ∀ y ∈ (if other.contains k then addUnique res k else res),
        y ∈ res ∨ (y = k ∧ other.contains k = true) := by
    intro res k _ y hy
    by_cases hck : other.contains k = true
    · rw [if_pos hck] at hy
      rcases (addUnique_mem res k y).mp hy with h | h
      · exact Or.inl h
      · exact Or.inr ⟨h, hck⟩
    · rw [if_neg hck] at hy
      exact Or.inl hy
  rcases foldAdd_subset (fun k => other.contains k = true) _ src hf [] z hz
    with h | ⟨k, hk, rfl, hQ⟩
  · cases h
  · exact ⟨hk, by simpa using hQ⟩

theorem intersection_subset (a b : List String) :
    ∀ z ∈ intersection a b, z ∈ a ∧ z ∈ b := by
  intro z hz
  unfold intersection at hz
  by_cases hab : a.length ≤ b.length
  · rw [if_pos hab] at hz
    exact interFold_subset a b z hz
  · rw [if_neg hab] at hz
    have h := interFold_subset b a z hz
    exact ⟨h.2, h.1⟩

theorem staticFilter_subset (cands : List String) (c : Constraint)
    (board : Board) : ∀ z ∈ staticFilter cands c board, z ∈ cands := by
  intro z hz
  cases c
  case inRoom room =>
    simp only [staticFilter] at hz
    rcases halg : alGet board.roomCells room with _ | rc
    · rw [halg] at hz
      cases hz
    · rw [halg] at hz
      exact (intersection_subset cands rc z hz).1
  case inRooms rooms =>
    simp only [staticFilter] at hz
    refine foldl_preserve (fun valid => ∀ y ∈ valid, y ∈ cands) _ rooms
      ?_ [] (fun y hy => absurd hy (List.not_mem_nil y)) z hz
    intro valid room _ hP
    rcases halg : alGet board.roomCells room with _ | rc
    · exact hP
    · intro y hy
      have hy2 : y ∈ rc.foldl (fun valid key =>
          if cands.contains key then addUnique valid key else valid)
          valid := hy
      have hf : ∀ res k, k ∈ rc →
          ∀ w ∈ (if cands.contains k then addUnique res k else res),
            w ∈ res ∨ (w = k ∧ cands.contains k = true) := by
        intro res k _ w hw
        by_cases hck : cands.contains k = true
        · rw [if_pos hck] at hw
          rcases (addUnique_mem res k w).mp hw with h | h
          · exact Or.inl h
          · exact Or.inr ⟨h, hck⟩
        · rw [if_neg hck] at hw
          exact Or.inl hw
      rcases foldAdd_subset (fun k => cands.contains k = true) _ rc hf
          valid y hy2 with h1 | ⟨k, _, rfl, hQ⟩
      · exact hP y h1
      · simpa using hQ
  case onCellType t =>
    simp only [staticFilter] at hz
    refine foldAdd_source _ cands ?_ z hz
    intro res k y hy
    rcases halg : alGet board.cellInfo k with _ | info
    · rw [halg] at hy
      exact Or.inl hy
    · rw [halg] at hy
      have hy2 : y ∈ (if info.type = t then addUnique res k else res) := hy
      by_cases ht : info.type = t
      · rw [if_pos ht] at hy2
        exact (addUnique_mem res k y).mp hy2
      · rw [if_neg ht] at hy2
        exact Or.inl hy2
  case notOnCellType t =>
    simp only [staticFilter] at hz
    refine foldAdd_source _ cands ?_ z hz
    intro res k y hy
    rcases halg : alGet board.cellInfo k with _ | info
    · rw [halg] at hy
      exact Or.inl hy
    · rw [halg] at hy
      have hy2 : y ∈ (if info.type ≠ t then addUnique res k else res) := hy
      by_cases ht : info.type ≠ t
      · rw [if_pos ht] at hy2
        exact (addUnique_mem res k y).mp hy2
      · rw [if_neg ht] at hy2
        exact Or.inl hy2
  case beside t =>
    exact (intersection_subset cands (getCellsBesideType board t) z hz).1
  case notBeside t =>
    simp only [staticFilter] at hz
    refine foldAdd_source _ cands ?_ z hz
    intro res k y hy
    by_cases hb : (getCellsBesideType board t).contains k = true
    · rw [if_pos hb] at hy
      exact Or.inl hy
    · rw [if_neg hb] at hy
      exact (addUnique_mem res k y).mp hy
  case inColumns columns =>
    simp only [staticFilter] at hz
    refine foldAdd_source _ cands ?_ z hz
    intro res k y hy
    by_cases hb : columns.contains (parseKey k).2 = true
    · rw [if_pos hb] at hy
      exact (addUnique_mem res k y).mp hy
    · rw [if_neg hb] at hy
      exact Or.inl hy
  case inRow r =>
    simp only [staticFilter] at hz
    refine foldAdd_source _ cands ?_ z hz
    intro res k y hy
    by_cases hb : (parseKey k).1 = r
    · rw [if_pos hb] at hy
      exact (addUnique_mem res k y).mp hy
    · rw [if_neg hb] at hy
      exact Or.inl hy
  all_goals exact hz

theorem computeInitialCandidates_subset (cs : List Constraint)
    (board : Board) :
    ∀ z ∈ computeInitialCandidates cs board, z ∈ board.occupiableCells := by
  unfold computeInitialCandidates
  refine foldl_preserve (fun cands => ∀ z ∈ cands, z ∈ board.occupiableCells)
    _ cs ?_ board.occupiableCells (fun z hz => hz)
  intro cands c _ hP z hz
  exact hP z (staticFilter_subset cands c board z hz)

theorem RowColFree_congr (ctx : SolverCtx) (st st' : SolverState)
    (hp : ∀ t, st'.placed t = st.placed t) (k : String) :
    RowColFree ctx st' k = RowColFree ctx st k := by
  unfold RowColFree
  congr 1
  funext t
  rw [hp t]

/-- A state with the same placements and pointwise-smaller candidate sets
keeps the invariant. -/
theorem inv_of_shrink (ctx : SolverCtx) (st st' : SolverState)
    (hinv : SolverInv ctx st)
    (hp : ∀ s, st'.placed s = st.placed s)
    (hc : ∀ s k, k ∈ st'.candidates s → k ∈ st.candidates s) :
    SolverInv ctx st' := by
  intro s hs
  have h := hinv s hs
  unfold suspectInvB at h ⊢
  rw [hp s]
  rcases hps : st.placed s with _ | c
  · rw [hps] at h
    rw [List.all_eq_true] at h ⊢
    intro k hk
    have h2 := h k (hc s k hk)
    simp only [decide_eq_true_eq] at h2 ⊢
    exact ⟨h2.1, by rw [RowColFree_congr ctx st st' hp k]; exact h2.2⟩
  · rw [hps] at h
    rw [List.all_eq_true] at h ⊢
    intro k hk
    exact h k (hc s k hk)

theorem placeSuspectNR_cands_self (st : SolverState) (s0 k0 : String) :
    (placeSuspectNR st s0 k0).candidates s0 = [k0] := by
  simp [placeSuspectNR]

theorem placeSuspectNR_cands (st : SolverState) (s0 k0 s : String)
    (hss : s ≠ s0) :
    (placeSuspectNR st s0 k0).candidates s =
      if (st.placed s).isNone then
        ((st.candidates s).filter (fun k => k ≠ k0)).filter (fun k =>
          ¬((parseKey k).1 = (parseKey k0).1 ∨
            (parseKey k).2 = (parseKey k0).2))
      else (st.candidates s).filter (fun k => k ≠ k0) := by
  simp only [placeSuspectNR]
  by_cases hp : (st.placed s).isNone = true
  · rw [if_pos hp, if_pos ⟨hss, by rw [if_neg hss]; exact hp⟩,
      if_neg hss]
  · rw [if_neg hp,
      if_neg (fun hand : _ ∧ _ => hp (by
        have h2 := hand.2
        rwa [if_neg hss] at h2)),
      if_neg hss]

/-- The place primitive preserves the invariant (no hypotheses: the placed
cell itself is exempt from the unplaced clause). -/
theorem placeSuspectNR_inv (ctx : SolverCtx) (st : SolverState)
    (s0 k0 : String) (hinv : SolverInv ctx st) :
    SolverInv ctx (placeSuspectNR st s0 k0) := by
  intro s hs
  have h := hinv s hs
  unfold suspectInvB at h ⊢
  by_cases hss : s = s0
  · subst hss
    rw [placeSuspectNR_placed_self, placeSuspectNR_cands_self]
    simp
  · rw [placeSuspectNR_placed_other st s0 k0 s hss,
      placeSuspectNR_cands st s0 k0 s hss]
    rcases hps : st.placed s with _ | c
    · rw [hps] at h
      rw [if_pos (by rfl)]
      rw [List.all_eq_true] at h ⊢
      intro k hk
      rw [List.mem_filter] at hk
      obtain ⟨hk1, hk2⟩ := hk
      rw [List.mem_filter] at hk1
      obtain ⟨hk0, -⟩ := hk1
      have h2 := h k hk0
      simp only [decide_eq_true_eq] at h2 ⊢
      refine ⟨h2.1, ?_⟩
      unfold RowColFree
      rw [List.all_eq_true]
      intro t ht
      by_cases hts : t = s0
      · subst hts
        rw [placeSuspectNR_placed_self]
        simp only [decide_eq_true_eq] at hk2 ⊢
        exact ⟨fun hr => hk2 (Or.inl hr), fun hc2 => hk2 (Or.inr hc2)⟩
      · rw [placeSuspectNR_placed_other st s0 k0 t hts]
        have h3 := h2.2
        unfold RowColFree at h3
        rw [List.all_eq_true] at h3
        exact h3 t ht
    · rw [hps] at h
      rw [if_neg (by simp)]
      rw [List.all_eq_true] at h ⊢
      intro k hk
      rw [List.mem_filter] at hk
      exact h k hk.1

theorem propStep_inv (ctx : SolverCtx) (p : SolverState × Bool)
    (sid : String) (h : SolverInv ctx p.1) :
    SolverInv ctx (propStep p sid).1 := by
  unfold propStep
  split
  · exact h
  · split
    · exact placeSuspectNR_inv ctx p.1 sid _ h
    · exact h

theorem propagateRound_inv (ctx : SolverCtx) (st : SolverState)
    (h : SolverInv ctx st) : SolverInv ctx (propagateRound ctx st).1 := by
  rw [propagateRound_eq_fold]
  refine foldl_preserve (fun a => SolverInv ctx a.1) propStep
    ctx.suspectIds ?_ (st, false) h
  intro a x _ ha
  exact propStep_inv ctx a x ha

theorem propagateBasicAux_inv (ctx : SolverCtx) :
    ∀ (fuel : Nat) (st : SolverState), SolverInv ctx st →
      SolverInv ctx (propagateBasicAux ctx fuel st) := by
  intro fuel
  induction fuel with
  | zero => intro st h; exact h
  | succ n ih =>
    intro st h
    simp only [propagateBasicAux]
    split
    · exact ih _ (propagateRound_inv ctx st h)
    · exact propagateRound_inv ctx st h

theorem propagateBasic_inv (ctx : SolverCtx) (st : SolverState)
    (h : SolverInv ctx st) : SolverInv ctx (propagateBasic ctx st) :=
  propagateBasicAux_inv ctx 100 st h

theorem placeSuspect_inv (ctx : SolverCtx) (st : SolverState)
    (s0 k0 : String) (h : SolverInv ctx st) :
    SolverInv ctx (placeSuspect ctx st s0 k0) :=
  propagateBasic_inv ctx _ (placeSuspectNR_inv ctx st s0 k0 h)

/-- `initialize` establishes the invariant, for every placements list. -/
theorem solverInit_inv (ctx : SolverCtx)
    (placements : List (String × String)) :
    SolverInv ctx (solverInit ctx placements) := by
  unfold solverInit
  refine propagateBasic_inv ctx _ ?_
  refine foldl_preserve (SolverInv ctx)
    (fun st pk => placeSuspectNR st pk.2 pk.1) placements ?_ _ ?_
  · intro st1 pk _ h1
    exact placeSuspectNR_inv ctx st1 pk.2 pk.1 h1
  · intro s hs
    unfold suspectInvB
    show ((if ctx.suspectIds.contains s then
        computeInitialCandidates (ctx.constraintsOf s) ctx.board
      else []).all _) = true
    rw [if_pos (by simpa using hs)]
    rw [List.all_eq_true]
    intro k hk
    simp only [decide_eq_true_eq]
    refine ⟨by simpa using
      computeInitialCandidates_subset (ctx.constraintsOf s) ctx.board k hk,
      ?_⟩
    unfold RowColFree
    rw [List.all_eq_true]
    intro t _
    rfl

/-! ## C3 (amended): per-technique invariant preservation -/

theorem shrink_refl (st : SolverState) : ShrinkOf st st :=
  ⟨fun _ => rfl, fun _ _ h => h⟩

theorem shrink_trans {st2 st1 st : SolverState} (h2 : ShrinkOf st2 st1)
    (h1 : ShrinkOf st1 st) : ShrinkOf st2 st :=
  ⟨fun s => (h2.1 s).trans (h1.1 s),
   fun s k hk => h1.2 s k (h2.2 s k hk)⟩

theorem inv_of_shrinkOf (ctx : SolverCtx) {st st' : SolverState}
    (hinv : SolverInv ctx st) (h : ShrinkOf st' st) : SolverInv ctx st' :=
  inv_of_shrink ctx st st' hinv h.1 h.2

theorem shrink_point_filter (st : SolverState) (sid : String)
    (p : String → Bool) :
    ShrinkOf { st with candidates := fun s =>
                 if s = sid then (st.candidates sid).filter p
                 else st.candidates s } st := by
  refine ⟨fun _ => rfl, ?_⟩
  intro s k hk
  have hk2 : k ∈ (if s = sid then (st.candidates sid).filter p
      else st.candidates s) := hk
  by_cases hs : s = sid
  · rw [if_pos hs] at hk2
    subst hs
    exact (List.mem_filter.mp hk2).1
  · rw [if_neg hs] at hk2
    exact hk2

theorem inv_point_filter (ctx : SolverCtx) (st : SolverState) (sid : String)
    (p : String → Bool) (hinv : SolverInv ctx st) :
    SolverInv ctx { st with candidates := fun s =>
                      if s = sid then (st.candidates sid).filter p
                      else st.candidates s } :=
  inv_of_shrinkOf ctx hinv (shrink_point_filter st sid p)

theorem findNakedSingleAux_inv (ctx : SolverCtx) (st : SolverState)
    (hinv : SolverInv ctx st) :
    ∀ (l : List String) (step : SolveStep) (st' : SolverState),
      findNakedSingleAux ctx st l = some (step, st') →
        SolverInv ctx st' := by
  intro l
  induction l with
  | nil => intro step st' h; simp [findNakedSingleAux] at h
  | cons sid rest ih =>
    intro step st' h
    rw [findNakedSingleAux] at h
    split at h
    · exact ih step st' h
    · split at h
      · simp only [Option.some.injEq, Prod.mk.injEq] at h
        obtain ⟨hstep, hst⟩ := h
        subst hstep; subst hst
        exact placeSuspect_inv ctx st sid _ hinv
      · exact ih step st' h

theorem findNakedSingle_inv (ctx : SolverCtx) (st : SolverState)
    (step : SolveStep) (st' : SolverState) (hinv : SolverInv ctx st)
    (h : findNakedSingle ctx st = some (step, st')) : SolverInv ctx st' :=
  findNakedSingleAux_inv ctx st hinv ctx.suspectIds step st' h

theorem findRowSingleAux_inv (ctx : SolverCtx) (st : SolverState)
    (hinv : SolverInv ctx st) :
    ∀ (l : List Nat) (step : SolveStep) (st' : SolverState),
      findRowSingleAux ctx st l = some (step, st') → SolverInv ctx st' := by
  intro l
  induction l with
  | nil => intro step st' h; simp [findRowSingleAux] at h
  | cons r rest ih =>
    intro step st' h
    rw [findRowSingleAux] at h
    split at h
    · exact ih step st' h
    · dsimp only at h
      split at h
      · split at h
        · simp only [Option.some.injEq, Prod.mk.injEq] at h
          obtain ⟨hstep, hst⟩ := h
          subst hstep; subst hst
          exact placeSuspect_inv ctx _ _ _ (inv_point_filter ctx st _ _ hinv)
        · split at h
          · simp only [Option.some.injEq, Prod.mk.injEq] at h
            obtain ⟨hstep, hst⟩ := h
            subst hstep; subst hst
            exact propagateBasic_inv ctx _ (inv_point_filter ctx st _ _ hinv)
          · exact ih step st' h
      · exact ih step st' h

theorem findRowSingle_inv (ctx : SolverCtx) (st : SolverState)
    (step : SolveStep) (st' : SolverState) (hinv : SolverInv ctx st)
    (h : findRowSingle ctx st = some (step, st')) : SolverInv ctx st' :=
  findRowSingleAux_inv ctx st hinv (List.range ctx.board.rows) step st' h

theorem findColSingleAux_inv (ctx : SolverCtx) (st : SolverState)
    (hinv : SolverInv ctx st) :
    ∀ (l : List Nat) (step : SolveStep) (st' : SolverState),
      findColSingleAux ctx st l = some (step, st') → SolverInv ctx st' := by
  intro l
  induction l with
  | nil => intro step st' h; simp [findColSingleAux] at h
  | cons c rest ih =>
    intro step st' h
    rw [findColSingleAux] at h
    split at h
    · exact ih step st' h
    · dsimp only at h
      split at h
      · split at h
        · simp only [Option.some.injEq, Prod.mk.injEq] at h
          obtain ⟨hstep, hst⟩ := h
          subst hstep; subst hst
          exact placeSuspect_inv ctx _ _ _ (inv_point_filter ctx st _ _ hinv)
        · split at h
          · simp only [Option.some.injEq, Prod.mk.injEq] at h
            obtain ⟨hstep, hst⟩ := h
            subst hstep; subst hst
            exact propagateBasic_inv ctx _ (inv_point_filter ctx st _ _ hinv)
          · exact ih step st' h
      · exact ih step st' h

theorem findColSingle_inv (ctx : SolverCtx) (st : SolverState)
    (step : SolveStep) (st' : SolverState) (hinv : SolverInv ctx st)
    (h : findColSingle ctx st = some (step, st')) : SolverInv ctx st' :=
  findColSingleAux_inv ctx st hinv (List.range ctx.board.cols) step st' h

theorem rowClaimingEliminate_shrink (ctx : SolverCtx) (st : SolverState)
    (sid : String) (r : Nat) :
    ShrinkOf (rowClaimingEliminate ctx st sid r).1 st := by
  refine foldl_fst_preserve (fun s => ShrinkOf s st) _ ?_ ctx.suspectIds
    (st, 0) (shrink_refl st)
  intro p x hp
  dsimp only
  split
  · exact hp
  · exact shrink_trans (shrink_point_filter p.1 x _) hp

theorem colClaimingEliminate_shrink (ctx : SolverCtx) (st : SolverState)
    (sid : String) (c : Nat) :
    ShrinkOf (colClaimingEliminate ctx st sid c).1 st := by
  refine foldl_fst_preserve (fun s => ShrinkOf s st) _ ?_ ctx.suspectIds
    (st, 0) (shrink_refl st)
  intro p x hp
  dsimp only
  split
  · exact hp
  · exact shrink_trans (shrink_point_filter p.1 x _) hp

theorem findRowClaimingAux_inv (ctx : SolverCtx) (st : SolverState)
    (hinv : SolverInv ctx st) :
    ∀ (l : List String) (step : SolveStep) (st' : SolverState),
      findRowClaimingAux ctx st l = some (step, st') →
        SolverInv ctx st' := by
  intro l
  induction l with
  | nil => intro step st' h; simp [findRowClaimingAux] at h
  | cons sid rest ih =>
    intro step st' h
    rw [findRowClaimingAux] at h
    split at h
    · exact ih step st' h
    · split at h
      · exact ih step st' h
      · dsimp only at h
        split at h
        · split at h
          · simp only [Option.some.injEq, Prod.mk.injEq] at h
            obtain ⟨hstep, hst⟩ := h
            subst hstep; subst hst
            exact propagateBasic_inv ctx _ (inv_of_shrinkOf ctx hinv
              (rowClaimingEliminate_shrink ctx st sid _))
          · exact ih step st' h
        · exact ih step st' h

theorem findRowClaiming_inv (ctx : SolverCtx) (st : SolverState)
    (step : SolveStep) (st' : SolverState) (hinv : SolverInv ctx st)
    (h : findRowClaiming ctx st = some (step, st')) : SolverInv ctx st' :=
  findRowClaimingAux_inv ctx st hinv ctx.suspectIds step st' h

theorem findColClaimingAux_inv (ctx : SolverCtx) (st : SolverState)
    (hinv : SolverInv ctx st) :
    ∀ (l : List String) (step : SolveStep) (st' : SolverState),
      findColClaimingAux ctx st l = some (step, st') →
        SolverInv ctx st' := by
  intro l
  induction l with
  | nil => intro step st' h; simp [findColClaimingAux] at h
  | cons sid rest ih =>
    intro step st' h
    rw [findColClaimingAux] at h
    split at h
    · exact ih step st' h
    · split at h
      · exact ih step st' h
      · dsimp only at h
        split at h
        · split at h
          · simp only [Option.some.injEq, Prod.mk.injEq] at h
            obtain ⟨hstep, hst⟩ := h
            subst hstep; subst hst
            exact propagateBasic_inv ctx _ (inv_of_shrinkOf ctx hinv
              (colClaimingEliminate_shrink ctx st sid _))
          · exact ih step st' h
        · exact ih step st' h

theorem findColClaiming_inv (ctx : SolverCtx) (st : SolverState)
    (step : SolveStep) (st' : SolverState) (hinv : SolverInv ctx st)
    (h : findColClaiming ctx st = some (step, st')) : SolverInv ctx st' :=
  findColClaimingAux_inv ctx st hinv ctx.suspectIds step st' h

theorem rowSetEliminate_shrink (st : SolverState)
    (allSuspects : List (String × List Nat)) (group : List String)
    (rowUnion : List Nat) :
    ShrinkOf (rowSetEliminate st allSuspects group rowUnion).1 st := by
  refine foldl_fst_preserve (fun s => ShrinkOf s st) _ ?_
    allSuspects (st, 0) (shrink_refl st)
  intro p x hp
  dsimp only
  split
  · exact hp
  · exact shrink_trans (shrink_point_filter _ _ _) hp

theorem rowSetForced_shrink (acc0 : SolverState × Nat)
    (allSuspects : List (String × List Nat)) (group : List String)
    (rowUnion : List Nat) :
    ShrinkOf (rowSetForced acc0 allSuspects group rowUnion).1 acc0.1 := by
  refine foldl_fst_preserve (fun s => ShrinkOf s acc0.1) _ ?_
    rowUnion acc0 (shrink_refl acc0.1)
  intro p x hp
  dsimp only
  split
  · refine foldl_fst_preserve (fun s => ShrinkOf s acc0.1) _ ?_
      allSuspects p hp
    intro q y hq
    dsimp only
    split
    · exact hq
    · exact shrink_trans (shrink_point_filter _ _ _) hq
  · exact hp

theorem searchRowGroup_inv (ctx : SolverCtx) (st : SolverState)
    (allSuspects : List (String × List Nat)) (targetSize : Nat)
    (hinv : SolverInv ctx st) :
    ∀ (remaining : List (String × List Nat)) (group : List String)
      (rowUnion : List Nat) (step : SolveStep) (st' : SolverState),
      searchRowGroup ctx st allSuspects targetSize remaining group rowUnion
          = some (step, st') →
        SolverInv ctx st' := by
  intro remaining
  induction remaining with
  | nil =>
    intro group rowUnion step st' h
    rw [searchRowGroup] at h
    split at h
    · split at h
      · simp at h
      · dsimp only at h
        split at h
        · simp only [Option.some.injEq, Prod.mk.injEq] at h
          obtain ⟨hstep, hst⟩ := h
          subst hstep; subst hst
          exact propagateBasic_inv ctx _ (inv_of_shrinkOf ctx hinv
            (shrink_trans (rowSetForced_shrink _ allSuspects group rowUnion)
              (rowSetEliminate_shrink st allSuspects group rowUnion)))
        · simp at h
    · simp at h
  | cons p rest ih =>
    intro group rowUnion step st' h
    rw [searchRowGroup] at h
    split at h
    · split at h
      · simp at h
      · dsimp only at h
        split at h
        · simp only [Option.some.injEq, Prod.mk.injEq] at h
          obtain ⟨hstep, hst⟩ := h
          subst hstep; subst hst
          exact propagateBasic_inv ctx _ (inv_of_shrinkOf ctx hinv
            (shrink_trans (rowSetForced_shrink _ allSuspects group rowUnion)
              (rowSetEliminate_shrink st allSuspects group rowUnion)))
        · simp at h
    · dsimp only at h
      split at h
      · simp only [Option.some.injEq] at h
        subst h
        rename_i r heq
        split at heq
        · exact ih _ _ _ _ heq
        · simp at heq
      · exact ih _ _ _ _ h

theorem findNakedRowSet_inv (ctx : SolverCtx) (st : SolverState)
    (step : SolveStep) (st' : SolverState) (hinv : SolverInv ctx st)
    (h : findNakedRowSet ctx st = some (step, st')) : SolverInv ctx st' := by
  unfold findNakedRowSet at h
  obtain ⟨size, -, hs⟩ := firstM_some_exists _ _ _ h
  exact searchRowGroup_inv ctx st _ size hinv _ [] [] step st' hs

theorem colSetEliminate_shrink (st : SolverState)
    (allSuspects : List (String × List Nat)) (group : List String)
    (colUnion : List Nat) :
    ShrinkOf (colSetEliminate st allSuspects group colUnion).1 st := by
  refine foldl_fst_preserve (fun s => ShrinkOf s st) _ ?_
    allSuspects (st, 0) (shrink_refl st)
  intro p x hp
  dsimp only
  split
  · exact hp
  · exact shrink_trans (shrink_point_filter _ _ _) hp

theorem colSetForced_shrink (acc0 : SolverState × Nat)
    (allSuspects : List (String × List Nat)) (group : List String)
    (colUnion : List Nat) :
    ShrinkOf (colSetForced acc0 allSuspects group colUnion).1 acc0.1 := by
  refine foldl_fst_preserve (fun s => ShrinkOf s acc0.1) _ ?_
    colUnion acc0 (shrink_refl acc0.1)
  intro p x hp
  dsimp only
  split
  · refine foldl_fst_preserve (fun s => ShrinkOf s acc0.1) _ ?_
      allSuspects p hp
    intro q y hq
    dsimp only
    split
    · exact hq
    · exact shrink_trans (shrink_point_filter _ _ _) hq
  · exact hp

theorem searchColGroup_inv (ctx : SolverCtx) (st : SolverState)
    (allSuspects : List (String × List Nat)) (targetSize : Nat)
    (hinv : SolverInv ctx st) :
    ∀ (remaining : List (String × List Nat)) (group : List String)
      (colUnion : List Nat) (step : SolveStep) (st' : SolverState),
      searchColGroup ctx st allSuspects targetSize remaining group colUnion
          = some (step, st') →
        SolverInv ctx st' := by
  intro remaining
  induction remaining with
  | nil =>
    intro group colUnion step st' h
    rw [searchColGroup] at h
    split at h
    · split at h
      · simp at h
      · dsimp only at h
        split at h
        · simp only [Option.some.injEq, Prod.mk.injEq] at h
          obtain ⟨hstep, hst⟩ := h
          subst hstep; subst hst
          exact propagateBasic_inv ctx _ (inv_of_shrinkOf ctx hinv
            (shrink_trans (colSetForced_shrink _ allSuspects group colUnion)
              (colSetEliminate_shrink st allSuspects group colUnion)))
        · simp at h
    · simp at h
  | cons p rest ih =>
    intro group colUnion step st' h
    rw [searchColGroup] at h
    split at h
    · split at h
      · simp at h
      · dsimp only at h
        split at h
        · simp only [Option.some.injEq, Prod.mk.injEq] at h
          obtain ⟨hstep, hst⟩ := h
          subst hstep; subst hst
          exact propagateBasic_inv ctx _ (inv_of_shrinkOf ctx hinv
            (shrink_trans (colSetForced_shrink _ allSuspects group colUnion)
              (colSetEliminate_shrink st allSuspects group colUnion)))
        · simp at h
    · dsimp only at h
      split at h
      · simp only [Option.some.injEq] at h
        subst h
        rename_i r heq
        split at heq
        · exact ih _ _ _ _ heq
        · simp at heq
      · exact ih _ _ _ _ h

theorem findNakedColSet_inv (ctx : SolverCtx) (st : SolverState)
    (step : SolveStep) (st' : SolverState) (hinv : SolverInv ctx st)
    (h : findNakedColSet ctx st = some (step, st')) : SolverInv ctx st' := by
  unfold findNakedColSet at h
  obtain ⟨size, -, hs⟩ := firstM_some_exists _ _ _ h
  exact searchColGroup_inv ctx st _ size hinv _ [] [] step st' hs

theorem ite_some_none_eq {α : Type} (c : Prop) [Decidable c] (a b : α) :
    ((if c then some a else none) = some b) ↔ c ∧ a = b := by
  by_cases hc : c
  · rw [if_pos hc]
    simp [hc]
  · rw [if_neg hc]
    simp [hc]

theorem handleAlone_inv (ctx : SolverCtx) (sid : String) (st : SolverState)
    (step : SolveStep) (st' : SolverState) (hinv : SolverInv ctx st)
    (h : handleAlone ctx st sid = some (step, st')) : SolverInv ctx st' := by
  unfold handleAlone at h
  dsimp only at h
  repeat' split at h
  all_goals
    first
      | (simp only [Option.some.injEq, Prod.mk.injEq] at h
         obtain ⟨hstep, hst⟩ := h
         subst hstep; subst hst
         exact propagateBasic_inv ctx _ (inv_point_filter ctx st _ _ hinv))
      | (simp only [Option.some.injEq, Prod.mk.injEq] at h
         obtain ⟨hstep, hst⟩ := h
         subst hstep; subst hst
         exact propagateBasic_inv ctx _ (inv_point_filter ctx _ _ _
           (inv_point_filter ctx st _ _ hinv)))
      | simp at h

theorem handleAloneWith_inv (ctx : SolverCtx) (sid otherSid : String)
    (st : SolverState) (step : SolveStep) (st' : SolverState)
    (hinv : SolverInv ctx st)
    (h : handleAloneWith ctx st sid otherSid = some (step, st')) :
    SolverInv ctx st' := by
  unfold handleAloneWith at h
  dsimp only at h
  rw [ite_some_none_eq] at h
  simp only [Prod.mk.injEq] at h
  obtain ⟨-, hstep, hst⟩ := h
  subst hstep; subst hst
  exact propagateBasic_inv ctx _ (inv_point_filter ctx _ _ _
    (inv_point_filter ctx st _ _ hinv))

theorem handleAloneWithGender_inv (ctx : SolverCtx) (sid g : String)
    (st : SolverState) (step : SolveStep) (st' : SolverState)
    (hinv : SolverInv ctx st)
    (h : handleAloneWithGender ctx st sid g = some (step, st')) :
    SolverInv ctx st' := by
  unfold handleAloneWithGender at h
  dsimp only at h
  repeat' split at h
  all_goals
    first
      | (simp only [Option.some.injEq, Prod.mk.injEq] at h
         obtain ⟨hstep, hst⟩ := h
         subst hstep; subst hst
         exact propagateBasic_inv ctx _ (inv_point_filter ctx st _ _ hinv))
      | simp at h

theorem handleWithPerson_inv (ctx : SolverCtx) (sid otherSid room : String)
    (st : SolverState) (step : SolveStep) (st' : SolverState)
    (hinv : SolverInv ctx st)
    (h : handleWithPerson ctx st sid otherSid room = some (step, st')) :
    SolverInv ctx st' := by
  unfold handleWithPerson at h
  dsimp only at h
  rw [ite_some_none_eq] at h
  simp only [Prod.mk.injEq] at h
  obtain ⟨-, hstep, hst⟩ := h
  subst hstep; subst hst
  exact propagateBasic_inv ctx _ (inv_point_filter ctx _ _ _
    (inv_point_filter ctx st _ _ hinv))

theorem handleAheadOf_inv (ctx : SolverCtx) (sid behindSid : String)
    (st : SolverState) (step : SolveStep) (st' : SolverState)
    (hinv : SolverInv ctx st)
    (h : handleAheadOf ctx st sid behindSid = some (step, st')) :
    SolverInv ctx st' := by
  unfold handleAheadOf at h
  rcases htp : ctx.puzzle.trackPositions with _ | tps
  · rw [htp] at h
    simp at h
  · rw [htp] at h
    simp only [ite_some_none_eq, Prod.mk.injEq] at h
    obtain ⟨-, hstep, hst⟩ := h
    subst hstep; subst hst
    exact propagateBasic_inv ctx _ (inv_point_filter ctx _ _ _
      (inv_point_filter ctx st _ _ hinv))

theorem handleVictim_inv (ctx : SolverCtx) (sid : String) (st : SolverState)
    (step : SolveStep) (st' : SolverState) (hinv : SolverInv ctx st)
    (h : handleVictim ctx st sid = some (step, st')) : SolverInv ctx st' := by
  unfold handleVictim at h
  dsimp only at h
  repeat' split at h
  all_goals
    first
      | (simp only [Option.some.injEq, Prod.mk.injEq] at h
         obtain ⟨hstep, hst⟩ := h
         subst hstep; subst hst
         exact propagateBasic_inv ctx _ (inv_point_filter ctx st _ _ hinv))
      | simp at h

theorem handleInRoomWithPersonOnCellType_inv (ctx : SolverCtx)
    (sid g t : String) (st : SolverState) (step : SolveStep)
    (st' : SolverState) (hinv : SolverInv ctx st)
    (h : handleInRoomWithPersonOnCellType ctx st sid g t = some (step, st')) :
    SolverInv ctx st' := by
  unfold handleInRoomWithPersonOnCellType at h
  dsimp only at h
  repeat' split at h
  all_goals
    first
      | (simp only [Option.some.injEq, Prod.mk.injEq] at h
         obtain ⟨hstep, hst⟩ := h
         subst hstep; subst hst
         exact propagateBasic_inv ctx _ (inv_point_filter ctx st _ _ hinv))
      | simp at h

theorem handleInRoomWithPersonBesideCellType_inv (ctx : SolverCtx)
    (sid t : String) (st : SolverState) (step : SolveStep)
    (st' : SolverState) (hinv : SolverInv ctx st)
    (h : handleInRoomWithPersonBesideCellType ctx st sid t
      = some (step, st')) :
    SolverInv ctx st' := by
  unfold handleInRoomWithPersonBesideCellType at h
  dsimp only at h
  repeat' split at h
  all_goals
    first
      | (simp only [Option.some.injEq, Prod.mk.injEq] at h
         obtain ⟨hstep, hst⟩ := h
         subst hstep; subst hst
         exact propagateBasic_inv ctx _ (inv_point_filter ctx st _ _ hinv))
      | simp at h

theorem roomConstraintResult_inv (ctx : SolverCtx) (sid : String)
    (c : Constraint) (st : SolverState) (step : SolveStep)
    (st' : SolverState) (hinv : SolverInv ctx st)
    (h : roomConstraintResult ctx st sid c = some (step, st')) :
    SolverInv ctx st' := by
  cases c <;> simp only [roomConstraintResult] at h
  case alone => exact handleAlone_inv ctx sid st step st' hinv h
  case aloneWith o => exact handleAloneWith_inv ctx sid o st step st' hinv h
  case aloneWithGender g =>
    exact handleAloneWithGender_inv ctx sid g st step st' hinv h
  case withPerson o room =>
    exact handleWithPerson_inv ctx sid o room st step st' hinv h
  case aheadOf o => exact handleAheadOf_inv ctx sid o st step st' hinv h
  case victim => exact handleVictim_inv ctx sid st step st' hinv h
  case inRoomWithPersonOnCellType g t =>
    exact handleInRoomWithPersonOnCellType_inv ctx sid g t st step st' hinv h
  case inRoomWithPersonBesideCellType t =>
    exact handleInRoomWithPersonBesideCellType_inv ctx sid t st step st'
      hinv h
  all_goals simp at h

theorem applyRoomConstraintsAux_inv (ctx : SolverCtx) (st : SolverState)
    (hinv : SolverInv ctx st) :
    ∀ (l : List String) (step : SolveStep) (st' : SolverState),
      applyRoomConstraintsAux ctx st l = some (step, st') →
        SolverInv ctx st' := by
  intro l
  induction l with
  | nil => intro step st' h; simp [applyRoomConstraintsAux] at h
  | cons sid rest ih =>
    intro step st' h
    rw [applyRoomConstraintsAux] at h
    split at h
    · exact ih step st' h
    · split at h
      · rename_i r heq
        simp only [Option.some.injEq] at h
        subst h
        obtain ⟨c, -, hc⟩ := firstM_some_exists _ _ _ heq
        exact roomConstraintResult_inv ctx sid c st step st' hinv hc
      · exact ih step st' h

theorem applyRoomConstraints_inv (ctx : SolverCtx) (st : SolverState)
    (step : SolveStep) (st' : SolverState) (hinv : SolverInv ctx st)
    (h : applyRoomConstraints ctx st = some (step, st')) :
    SolverInv ctx st' :=
  applyRoomConstraintsAux_inv ctx st hinv ctx.suspectIds step st' h

theorem onlyPersonEliminate_shrink (ctx : SolverCtx) (st : SolverState)
    (sid t : String) :
    ShrinkOf (onlyPersonEliminate ctx st sid t).1 st := by
  refine foldl_fst_preserve (fun s => ShrinkOf s st) _ ?_
    ctx.suspectIds (st, 0) (shrink_refl st)
  intro p x hp
  dsimp only
  repeat' split
  all_goals first
    | exact hp
    | exact shrink_trans (shrink_point_filter _ _ _) hp

theorem onlyPersonForConstraint_inv (ctx : SolverCtx) (sid : String)
    (c : Constraint) (st : SolverState) (step : SolveStep)
    (st' : SolverState) (hinv : SolverInv ctx st)
    (h : onlyPersonForConstraint ctx st sid c = some (step, st')) :
    SolverInv ctx st' := by
  cases c <;> simp only [onlyPersonForConstraint] at h <;> try simp at h
  case onlyPersonOnCellType t =>
    obtain ⟨-, hstep, hst⟩ := h
    subst hstep; subst hst
    exact propagateBasic_inv ctx _ (inv_of_shrinkOf ctx hinv
      (onlyPersonEliminate_shrink ctx st sid t))

theorem applyOnlyPersonAux_inv (ctx : SolverCtx) (st : SolverState)
    (hinv : SolverInv ctx st) :
    ∀ (l : List String) (step : SolveStep) (st' : SolverState),
      applyOnlyPersonAux ctx st l = some (step, st') →
        SolverInv ctx st' := by
  intro l
  induction l with
  | nil => intro step st' h; simp [applyOnlyPersonAux] at h
  | cons sid rest ih =>
    intro step st' h
    rw [applyOnlyPersonAux] at h
    split at h
    · exact ih step st' h
    · split at h
      · rename_i r heq
        simp only [Option.some.injEq] at h
        subst h
        obtain ⟨c, -, hc⟩ := firstM_some_exists _ _ _ heq
        exact onlyPersonForConstraint_inv ctx sid c st step st' hinv hc
      · exact ih step st' h

theorem applyOnlyPersonConstraint_inv (ctx : SolverCtx) (st : SolverState)
    (step : SolveStep) (st' : SolverState) (hinv : SolverInv ctx st)
    (h : applyOnlyPersonConstraint ctx st = some (step, st')) :
    SolverInv ctx st' :=
  applyOnlyPersonAux_inv ctx st hinv ctx.suspectIds step st' h

theorem relativeRowForConstraint_inv (ctx : SolverCtx) (sid : String)
    (c : Constraint) (st : SolverState) (step : SolveStep)
    (st' : SolverState) (hinv : SolverInv ctx st)
    (h : relativeRowForConstraint ctx st sid c = some (step, st')) :
    SolverInv ctx st' := by
  cases c <;> simp only [relativeRowForConstraint] at h <;> try simp at h
  case relativeRow o off =>
    rcases hpl : st.placed o with _ | otherKey
    · rw [hpl] at h
      simp only [ite_some_none_eq, Prod.mk.injEq] at h
      obtain ⟨-, hstep, hst⟩ := h
      subst hstep; subst hst
      exact propagateBasic_inv ctx _ (inv_point_filter ctx _ _ _
        (inv_point_filter ctx st _ _ hinv))
    · rw [hpl] at h
      simp only [ite_some_none_eq, Prod.mk.injEq] at h
      obtain ⟨-, hstep, hst⟩ := h
      subst hstep; subst hst
      exact propagateBasic_inv ctx _ (inv_point_filter ctx st _ _ hinv)

theorem applyRelativeRowAux_inv (ctx : SolverCtx) (st : SolverState)
    (hinv : SolverInv ctx st) :
    ∀ (l : List String) (step : SolveStep) (st' : SolverState),
      applyRelativeRowAux ctx st l = some (step, st') →
        SolverInv ctx st' := by
  intro l
  induction l with
  | nil => intro step st' h; simp [applyRelativeRowAux] at h
  | cons sid rest ih =>
    intro step st' h
    rw [applyRelativeRowAux] at h
    split at h
    · exact ih step st' h
    · split at h
      · rename_i r heq
        simp only [Option.some.injEq] at h
        subst h
        obtain ⟨c, -, hc⟩ := firstM_some_exists _ _ _ heq
        exact relativeRowForConstraint_inv ctx sid c st step st' hinv hc
      · exact ih step st' h

theorem applyRelativeRowConstraint_inv (ctx : SolverCtx) (st : SolverState)
    (step : SolveStep) (st' : SolverState) (hinv : SolverInv ctx st)
    (h : applyRelativeRowConstraint ctx st = some (step, st')) :
    SolverInv ctx st' :=
  applyRelativeRowAux_inv ctx st hinv ctx.suspectIds step st' h

theorem pointingForRoom_inv (ctx : SolverCtx) (sid : String)
    (room : Option String) (roomKeys : List String) (st : SolverState)
    (step : SolveStep) (st' : SolverState) (hinv : SolverInv ctx st)
    (h : pointingForRoom ctx st sid room roomKeys = some (step, st')) :
    SolverInv ctx st' := by
  unfold pointingForRoom at h
  split at h
  · simp at h
  · dsimp only at h
    split at h
    · rename_i r heq
      simp only [Option.some.injEq] at h
      subst h
      repeat' split at heq
      all_goals
        first
          | (simp only [Option.some.injEq, Prod.mk.injEq] at heq
             obtain ⟨hstep, hst⟩ := heq
             subst hstep; subst hst
             exact propagateBasic_inv ctx _
               (inv_point_filter ctx st _ _ hinv))
          | simp at heq
    · repeat' split at h
      all_goals
        first
          | (simp only [Option.some.injEq, Prod.mk.injEq] at h
             obtain ⟨hstep, hst⟩ := h
             subst hstep; subst hst
             exact propagateBasic_inv ctx _
               (inv_point_filter ctx st _ _ hinv))
          | simp at h

theorem findPointingGroupAux_inv (ctx : SolverCtx) (st : SolverState)
    (hinv : SolverInv ctx st) :
    ∀ (l : List String) (step : SolveStep) (st' : SolverState),
      findPointingGroupAux ctx st l = some (step, st') →
        SolverInv ctx st' := by
  intro l
  induction l with
  | nil => intro step st' h; simp [findPointingGroupAux] at h
  | cons sid rest ih =>
    intro step st' h
    rw [findPointingGroupAux] at h
    split at h
    · exact ih step st' h
    · dsimp only at h
      split at h
      · rename_i r heq
        simp only [Option.some.injEq] at h
        subst h
        obtain ⟨p, -, hp⟩ := firstM_some_exists _ _ _ heq
        exact pointingForRoom_inv ctx sid p.1 p.2 st step st' hinv hp
      · exact ih step st' h

theorem findPointingGroup_inv (ctx : SolverCtx) (st : SolverState)
    (step : SolveStep) (st' : SolverState) (hinv : SolverInv ctx st)
    (h : findPointingGroup ctx st = some (step, st')) : SolverInv ctx st' :=
  findPointingGroupAux_inv ctx st hinv ctx.suspectIds step st' h

theorem topContradictionSuspects_inv (ctx : SolverCtx)
    (tester : SolverState → String → String → Bool × SolverState)
    (htr : ∀ st sid k, (tester st sid k).2 = st) :
    ∀ (l : List String) (st : SolverState) (step : SolveStep)
      (st' : SolverState), SolverInv ctx st →
      topContradictionSuspects ctx tester l st = some (step, st') →
        SolverInv ctx st' := by
  intro l
  induction l with
  | nil => intro st step st' hinv hh; simp [topContradictionSuspects] at hh
  | cons sid rest ih =>
    intro st step st' hinv hh
    simp only [topContradictionSuspects] at hh
    have hr : (testKeysWith tester sid (st.candidates sid) st []).1 = st :=
      testKeysWith_state tester htr sid (st.candidates sid) st []
    split at hh
    · refine ih _ step st' ?_ hh
      rw [hr]
      exact hinv
    · simp only [Option.some.injEq, Prod.mk.injEq] at hh
      obtain ⟨hstep, hst⟩ := hh
      subst hstep; subst hst
      refine propagateBasic_inv ctx _ (inv_point_filter ctx _ sid _ ?_)
      rw [hr]
      exact hinv

theorem findByContradiction_inv (ctx : SolverCtx) (st : SolverState)
    (step : SolveStep) (st' : SolverState) (hinv : SolverInv ctx st)
    (h : findByContradiction ctx st = some (step, st')) :
    SolverInv ctx st' := by
  unfold findByContradiction at h
  exact topContradictionSuspects_inv ctx (leadsToContradiction ctx 1)
    (fun s i c => leadsToContradiction_state ctx 1 s i c) _ st step st'
    hinv h

theorem solveStep_inv (ctx : SolverCtx) (st : SolverState)
    (step : SolveStep) (st' : SolverState) (hinv : SolverInv ctx st)
    (h : solveStep ctx st = some (step, st')) : SolverInv ctx st' := by
  unfold solveStep at h
  rcases h1 : findNakedSingle ctx st with _ | r1
  rotate_left
  · rw [h1] at h; simp at h; subst h
    exact findNakedSingle_inv ctx st step st' hinv h1
  rw [h1] at h; simp only [Option.none_orElse] at h
  rcases h2 : findRowSingle ctx st with _ | r2
  rotate_left
  · rw [h2] at h; simp at h; subst h
    exact findRowSingle_inv ctx st step st' hinv h2
  rw [h2] at h; simp only [Option.none_orElse] at h
  rcases h3 : findColSingle ctx st with _ | r3
  rotate_left
  · rw [h3] at h; simp at h; subst h
    exact findColSingle_inv ctx st step st' hinv h3
  rw [h3] at h; simp only [Option.none_orElse] at h
  rcases h4 : findRowClaiming ctx st with _ | r4
  rotate_left
  · rw [h4] at h; simp at h; subst h
    exact findRowClaiming_inv ctx st step st' hinv h4
  rw [h4] at h; simp only [Option.none_orElse] at h
  rcases h5 : findColClaiming ctx st with _ | r5
  rotate_left
  · rw [h5] at h; simp at h; subst h
    exact findColClaiming_inv ctx st step st' hinv h5
  rw [h5] at h; simp only [Option.none_orElse] at h
  rcases h6 : findNakedRowSet ctx st with _ | r6
  rotate_left
  · rw [h6] at h; simp at h; subst h
    exact findNakedRowSet_inv ctx st step st' hinv h6
  rw [h6] at h; simp only [Option.none_orElse] at h
  rcases h7 : findNakedColSet ctx st with _ | r7
  rotate_left
  · rw [h7] at h; simp at h; subst h
    exact findNakedColSet_inv ctx st step st' hinv h7
  rw [h7] at h; simp only [Option.none_orElse] at h
  rcases h8 : applyRoomConstraints ctx st with _ | r8
  rotate_left
  · rw [h8] at h; simp at h; subst h
    exact applyRoomConstraints_inv ctx st step st' hinv h8
  rw [h8] at h; simp only [Option.none_orElse] at h
  rcases h9 : applyOnlyPersonConstraint ctx st with _ | r9
  rotate_left
  · rw [h9] at h; simp at h; subst h
    exact applyOnlyPersonConstraint_inv ctx st step st' hinv h9
  rw [h9] at h; simp only [Option.none_orElse] at h
  rcases h10 : applyRelativeRowConstraint ctx st with _ | r10
  rotate_left
  · rw [h10] at h; simp at h; subst h
    exact applyRelativeRowConstraint_inv ctx st step st' hinv h10
  rw [h10] at h; simp only [Option.none_orElse] at h
  rcases h11 : findPointingGroup ctx st with _ | r11
  rotate_left
  · rw [h11] at h; simp at h; subst h
    exact findPointingGroup_inv ctx st step st' hinv h11
  rw [h11] at h; simp only [Option.none_orElse] at h
  exact findByContradiction_inv ctx st step st' hinv h

theorem solveAux_inv (ctx : SolverCtx) :
    ∀ (fuel : Nat) (st : SolverState), SolverInv ctx st →
      SolverInv ctx (solveAux ctx fuel st) := by
  intro fuel
  induction fuel with
  | zero => intro st h; exact h
  | succ n ih =>
    intro st h
    simp only [solveAux]
    split
    · exact h
    · split
      · rename_i r heq
        exact ih _ (solveStep_inv ctx st r.1 r.2 h (by rw [heq]))
      · exact h

theorem solve_inv (ctx : SolverCtx) (st : SolverState)
    (h : SolverInv ctx st) : SolverInv ctx (solve ctx st) :=
  solveAux_inv ctx 200 st h

/-- C3 corrected: the claim's exact-singleton clause for placed suspects is
false (the `aloneWith` handler can empty a placed partner's candidate set —
see the counterexample), but the weakened invariant holds after every
public solver entry point: every placed suspect's candidate set is
contained in the singleton of its cell, and every unplaced suspect's
candidate is an occupiable cell whose row and column are free of every
placed suspect — after `initialize` with any placements, after every
`solveStep` return, and after `solve`. -/
theorem c3_public_invariant (ctx : SolverCtx) :
    (∀ placements : List (String × String),
      SolverInv ctx (solverInit ctx placements)) ∧
    (∀ st : SolverState, SolverInv ctx st →
      SolverInv ctx (match solveStep ctx st with
        | some r => r.2
        | none => st)) ∧
    (∀ st : SolverState, SolverInv ctx st →
      SolverInv ctx (solve ctx st)) := by
  refine ⟨solverInit_inv ctx, ?_, fun st h => solve_inv ctx st h⟩
  intro st h
  cases heq : solveStep ctx st with
  | none => exact h
  | some r => exact solveStep_inv ctx st r.1 r.2 h (by rw [heq])

theorem c3_public_invariant_witness :
    SolverInv aloneWithCtx (solverInit aloneWithCtx [("0-0", "bob")]) ∧
    SolverInv aloneWithCtx (match solveStep aloneWithCtx
        (solverInit aloneWithCtx [("0-0", "bob")]) with
      | some r => r.2
      | none => solverInit aloneWithCtx [("0-0", "bob")]) ∧
    SolverInv aloneWithCtx (solve aloneWithCtx
      (solverInit aloneWithCtx [("0-0", "bob")])) :=
  ⟨(c3_public_invariant aloneWithCtx).1 [("0-0", "bob")],
   (c3_public_invariant aloneWithCtx).2.1
     (solverInit aloneWithCtx [("0-0", "bob")])
     (by unfold SolverInv; decide),
   (c3_public_invariant aloneWithCtx).2.2
     (solverInit aloneWithCtx [("0-0", "bob")])
     (by unfold SolverInv; decide)⟩

end Murdoku
